import Mathlib

/-!
# FleetPulse WebSocket hub: a shallow embedding of `internal/websocket/hub.go`

The hub's dispatcher (`Hub.Run`) is a single goroutine running a `select` loop
over five event sources.  It is embedded as a function from the event that the
`select` picks and the current state to an `Outcome`.  Buffered Go channels are
FIFO lists with a capacity and a closed flag; the `Send` channels of clients
live in a heap indexed by channel references, because a `*Client` reaches its
mailbox through a reference and two clients may be compared by identity.

The reader pump (`Client.readPump`) is embedded as a function over the results
of its successive reads, acting on the client's subscription map; the wire
form of a message follows the `json` tags of the `Message` struct.

Go runtime behaviour that the embedding keeps explicit:
* `close` of a closed channel and a send on a closed channel panic;
* a send on a full buffered channel blocks; when the only goroutine that could
  receive is the sender itself, it blocks forever;
* `select { case ch <- m: default: }` never blocks.
-/

namespace FleetPulse.Websocket

/-! ## Data model -/

/-- MessageType is `type MessageType string` in the source. -/
abbrev MessageType := String

def MessageTypeTelemetry : MessageType := "telemetry"
def MessageTypeAlert : MessageType := "alert"
def MessageTypeVehicle : MessageType := "vehicle"
def MessageTypeStats : MessageType := "stats"
def MessageTypeSubscribe : MessageType := "subscribe"
def MessageTypeUnsubscribe : MessageType := "unsubscribe"
def MessageTypePing : MessageType := "ping"
def MessageTypePong : MessageType := "pong"

/-- Bytes of a `json.RawMessage`; the nil slice is the empty list. -/
abbrev Bytes := List Nat

/-- Instants (`time.Time`), as an abstract clock reading. -/
abbrev Time := Nat

/-- Message is the `Message` struct (the field `Type` is spelled `Typ`). -/
structure Message where
  Typ : MessageType
  Timestamp : Time
  Data : Bytes
  deriving DecidableEq, Repr

/-- Client identities (`uuid.UUID`). -/
abbrev UUID := Nat

/-- References to `chan Message` values on the heap. -/
abbrev ChanRef := Nat

/-- Chan is the state of one buffered `chan Message`. -/
structure Chan where
  buf : List Message
  closed : Bool
  cap : Nat
  deriving DecidableEq, Repr

/-- Client is the part of the `Client` struct the hub touches: its `ID` and the
reference held in its `Send` field.  Both are immutable after construction. -/
structure Client where
  ID : UUID
  Send : ChanRef
  deriving DecidableEq, Repr

/-- Hub is the `Hub` struct: the `clients` map (an association list, iterated
in list order, which stands for the arbitrary iteration order of a Go map) and
the buffer of the `broadcast` channel.  The `register` and `unregister`
channels are unbuffered and carry no state of their own. -/
structure Hub where
  clients : List (UUID × Client)
  broadcast : List Message
  deriving DecidableEq, Repr

/-- State pairs the hub with the heap of client mailboxes. -/
structure State where
  hub : Hub
  chans : ChanRef → Chan

/-- Capacity of the `broadcast` channel, `make(chan Message, 256)`. -/
def broadcastCap : Nat := 256

/-- Capacity of a client mailbox, `make(chan Message, 64)`. -/
def sendCap : Nat := 64

/-! ## Go map operations on the registry -/

/-- Lookup `h.clients[id]`. -/
def mapGet (l : List (UUID × Client)) (id : UUID) : Option Client :=
  match l with
  | [] => none
  | (k, c) :: rest => if k = id then some c else mapGet rest id

/-- Assignment `h.clients[id] = c`: replaces the entry for `id`, or adds one. -/
def mapSet (l : List (UUID × Client)) (id : UUID) (c : Client) : List (UUID × Client) :=
  match l with
  | [] => [(id, c)]
  | (k, c0) :: rest => if k = id then (id, c) :: rest else (k, c0) :: mapSet rest id c

/-- Deletion `delete(h.clients, id)`. -/
def mapDelete (l : List (UUID × Client)) (id : UUID) : List (UUID × Client) :=
  l.filter (fun kc => decide (kc.1 ≠ id))

/-- A Go map holds at most one entry per key. -/
def KeysNodup (l : List (UUID × Client)) : Prop := (l.map Prod.fst).Nodup

instance (l : List (UUID × Client)) : Decidable (KeysNodup l) := by
  unfold KeysNodup; infer_instance

/-- Heap update at one channel reference. -/
def State.setChan (s : State) (r : ChanRef) (ch : Chan) : State :=
  { s with chans := fun r0 => if r0 = r then ch else s.chans r0 }

/-! ## Outcomes of dispatcher code -/

/-- The two runtime panics channel operations can raise. -/
inductive PanicKind where
  | closeOfClosedChannel
  | sendOnClosedChannel
  deriving DecidableEq, Repr

/-- Outcome of running a piece of the dispatcher goroutine.
* `next s`: the `select` case ran to its end; the loop goes round again.
* `returned s`: `Run` returned.
* `panicked k s`: the goroutine panicked in state `s`.
* `blocked s`: the goroutine is suspended in state `s` on a channel operation
  that only itself could complete, so it never resumes. -/
inductive Outcome where
  | next (s : State)
  | returned (s : State)
  | panicked (k : PanicKind) (s : State)
  | blocked (s : State)

/-- NewHub builds the hub with an empty registry and an empty broadcast queue. -/
def NewHub : Hub := { clients := [], broadcast := [] }

/-- The channel made by `make(chan Message, 64)` in `HandleWebSocket`. -/
def newMailbox : Chan := { buf := [], closed := false, cap := sendCap }

/-- HandleWebSocket, after a successful upgrade, up to the send on `register`:
builds the client with a fresh identity and a fresh mailbox at reference `r`.
The caller supplies the fresh `id` (`uuid.New()`) and the unused reference. -/
def HandleWebSocket (id : UUID) (r : ChanRef) (s : State) : Client × State :=
  ({ ID := id, Send := r }, s.setChan r newMailbox)

/-! ## The cases of the `select` in `Hub.Run` -/

/-- The loop `for _, client := range h.clients { close(client.Send) }`. -/
def closeAll : List (UUID × Client) → State → Outcome
  | [], s => .returned s
  | (_, client) :: rest, s =>
    let ch := s.chans client.Send
    if ch.closed then .panicked .closeOfClosedChannel s
    else closeAll rest (s.setChan client.Send { ch with closed := true })

/-- Case `<-ctx.Done()`: close every registered mailbox and return. -/
def ctxDoneCase (s : State) : Outcome :=
  closeAll s.hub.clients s

/-- Case `client := <-h.register`. -/
def registerCase (client : Client) (s : State) : Outcome :=
  .next { s with hub := { s.hub with clients := mapSet s.hub.clients client.ID client } }

/-- Case `client := <-h.unregister`. -/
def unregisterCase (client : Client) (s : State) : Outcome :=
  match mapGet s.hub.clients client.ID with
  | some _ =>
    let s1 : State :=
      { s with hub := { s.hub with clients := mapDelete s.hub.clients client.ID } }
    let ch := s1.chans client.Send
    if ch.closed then .panicked .closeOfClosedChannel s1
    else .next (s1.setChan client.Send { ch with closed := true })
  | none => .next s

/-- The fan-out loop of the broadcast case over the registry entries still to
visit.  For each client: `select { case client.Send <- message: default: ... }`.
The send case panics on a closed channel and is taken when the buffer has room;
otherwise the default branch runs `h.unregister <- client`, a send on an
unbuffered channel whose only receiver is this same goroutine. -/
def fanOut (message : Message) : List (UUID × Client) → State → Outcome
  | [], s => .next s
  | (_, client) :: rest, s =>
    let ch := s.chans client.Send
    if ch.closed then .panicked .sendOnClosedChannel s
    else if ch.buf.length < ch.cap then
      fanOut message rest (s.setChan client.Send { ch with buf := ch.buf ++ [message] })
    else .blocked s

/-- Body of case `message := <-h.broadcast`, with `message` already received. -/
def dispatch (message : Message) (s : State) : Outcome :=
  fanOut message s.hub.clients s

/-- Case `message := <-h.broadcast`: ready only when the queue is non-empty;
on an empty queue the `select` keeps waiting and nothing happens. -/
def broadcastCase (s : State) : Outcome :=
  match s.hub.broadcast with
  | [] => .next s
  | message :: rest => dispatch message { s with hub := { s.hub with broadcast := rest } }

/-- The channel send `h.broadcast <- message`: it completes, appending at the
tail of the buffer, exactly when the buffer holds fewer than 256 messages. -/
def sendBroadcast (message : Message) (s : State) : Option State :=
  if s.hub.broadcast.length < broadcastCap then
    some { s with hub := { s.hub with broadcast := s.hub.broadcast ++ [message] } }
  else none

/-- The message built by `BroadcastPing`: type ping, no data. -/
def pingMessage (now : Time) : Message :=
  { Typ := MessageTypePing, Timestamp := now, Data := [] }

/-- BroadcastPing as called from the dispatcher on a tick: a blocking send of a
ping on `h.broadcast`, whose only receiver is the dispatcher itself. -/
def BroadcastPing (now : Time) (s : State) : Outcome :=
  match sendBroadcast (pingMessage now) s with
  | some s1 => .next s1
  | none => .blocked s

/-- Case `<-ticker.C`. -/
def tickCase (now : Time) (s : State) : Outcome :=
  BroadcastPing now s

/-- The event sources of the dispatcher's `select`. -/
inductive Event where
  | ctxDone
  | register (client : Client)
  | unregister (client : Client)
  | broadcast
  | tick (now : Time)
  deriving DecidableEq, Repr

/-- One round of the `select` in `Hub.Run`, for the case that fired. -/
def iteration (e : Event) (s : State) : Outcome :=
  match e with
  | .ctxDone => ctxDoneCase s
  | .register client => registerCase client s
  | .unregister client => unregisterCase client s
  | .broadcast => broadcastCase s
  | .tick now => tickCase now s

/-- Run is `Hub.Run` over the sequence of events its `select` picks: the loop
goes on only after a round that ends normally. -/
def Run (es : List Event) (s : State) : Outcome :=
  match es with
  | [] => .next s
  | e :: rest =>
    match iteration e s with
    | .next s1 => Run rest s1
    | o => o

/-! ## Entry points called from other goroutines -/

/-- Result of a call to `Hub.Broadcast` by a producer.
* `err e s`: returned the serialization error `e`.
* `ok s`: returned `nil`.
* `waiting s`: the caller is suspended on the full `broadcast` channel. -/
inductive BroadcastResult where
  | err (e : String) (s : State)
  | ok (s : State)
  | waiting (s : State)

/-- Broadcast is `Hub.Broadcast`; `marshal` stands for `json.Marshal` and `now`
for `time.Now().UTC()`. -/
def Broadcast {Payload : Type} (marshal : Payload → Except String Bytes) (now : Time)
    (msgType : MessageType) (data : Payload) (s : State) : BroadcastResult :=
  match marshal data with
  | .error e => .err e s
  | .ok jsonData =>
    match sendBroadcast { Typ := msgType, Timestamp := now, Data := jsonData } s with
    | some s1 => .ok s1
    | none => .waiting s

/-- GetClientCount returns `len(h.clients)` and the state it leaves behind. -/
def GetClientCount (s : State) : Int × State :=
  ((s.hub.clients.length : Int), s)

/-- State carried by an outcome: the state reached, or the one in which the
goroutine panicked or got stuck. -/
def Outcome.state : Outcome → State
  | .next s => s
  | .returned s => s
  | .panicked _ s => s
  | .blocked s => s

/-- Whether the dispatcher goroutine ended up suspended for ever. -/
def Outcome.isBlocked : Outcome → Bool
  | .blocked _ => true
  | _ => false

/-- Whether the round ended normally, so that the loop goes round again. -/
def Outcome.isNext : Outcome → Bool
  | .next _ => true
  | _ => false

/-- Whether `Run` returned. -/
def Outcome.isReturned : Outcome → Bool
  | .returned _ => true
  | _ => false

/-- Whether a call to `Broadcast` returned an error. -/
def BroadcastResult.isErr : BroadcastResult → Bool
  | .err _ _ => true
  | _ => false

/-- Whether a call to `Broadcast` returned nil. -/
def BroadcastResult.isOk : BroadcastResult → Bool
  | .ok _ => true
  | _ => false

/-- State after (or during) a call to `Broadcast`. -/
def BroadcastResult.state : BroadcastResult → State
  | .err _ s => s
  | .ok s => s
  | .waiting s => s

/-- The mailbox references held by the entries of a registry. -/
def sendRefs (l : List (UUID × Client)) : List ChanRef := l.map (fun kc => kc.2.Send)

/-- Appending one message at the tail of a channel buffer. -/
def Chan.push (ch : Chan) (m : Message) : Chan := { ch with buf := ch.buf ++ [m] }

/-- Marking a channel closed. -/
def Chan.close (ch : Chan) : Chan := { ch with closed := true }

/-! ## Runs of the system around the hub -/

/-- Steps of the goroutines that share the hub's channels.
* `dispatcher e`: one round of the `select` of `Hub.Run`.
* `produce m`: the send `h.broadcast <- m` of a producer in `Hub.Broadcast`.
* `writerRecv r`: the receive `<-c.Send` of the writer pump of mailbox `r`. -/
inductive Step where
  | dispatcher (e : Event)
  | produce (m : Message)
  | writerRecv (r : ChanRef)
  deriving DecidableEq, Repr

/-- Messages a dispatcher round itself sends on the broadcast queue. -/
def Event.pings : Event → List Message
  | .tick now => [pingMessage now]
  | _ => []

/-- What is observed along a run: the state reached, the messages sent on the
broadcast queue during the run, and the messages the writer of the watched
mailbox received during the run, both in order of occurrence. -/
structure Observed where
  final : State
  enqueued : List Message
  received : List Message

/-- Runs a sequence of steps.  The result is `none` when a step cannot be
completed: a dispatcher round that does not end normally, a send on the full
queue, a receive on an empty mailbox. -/
def runSystem (watch : ChanRef) : List Step → State → Option Observed
  | [], s => some { final := s, enqueued := [], received := [] }
  | .dispatcher e :: rest, s =>
    match iteration e s with
    | .next s1 =>
      (runSystem watch rest s1).map fun o => { o with enqueued := e.pings ++ o.enqueued }
    | _ => none
  | .produce m :: rest, s =>
    match sendBroadcast m s with
    | some s1 =>
      (runSystem watch rest s1).map fun o => { o with enqueued := m :: o.enqueued }
    | none => none
  | .writerRecv r :: rest, s =>
    match (s.chans r).buf with
    | [] => none
    | m :: tl =>
      (runSystem watch rest (s.setChan r { s.chans r with buf := tl })).map fun o =>
        if r = watch then { o with received := m :: o.received } else o

/-- The registry holds client `c` under its own id, and no other entry has
that id or shares its mailbox. -/
def Sole (c : Client) (l : List (UUID × Client)) : Prop :=
  l.filter (fun kc => decide (kc.1 = c.ID ∨ kc.2.Send = c.Send)) = [(c.ID, c)]

instance (c : Client) (l : List (UUID × Client)) : Decidable (Sole c l) := by
  unfold Sole; infer_instance

/-- A step that neither registers nor unregisters under the id of `c`, and
registers no client that shares the mailbox of `c`. -/
def Spares (c : Client) : Step → Prop
  | .dispatcher (.register c1) => c1.ID ≠ c.ID ∧ c1.Send ≠ c.Send
  | .dispatcher (.unregister c1) => c1.ID ≠ c.ID
  | _ => True

instance (c : Client) (st : Step) : Decidable (Spares c st) := by
  unfold Spares; split <;> infer_instance

/-! ## Event sequences with handler-made clients -/

/-- The clients that the register events of a sequence hand to the dispatcher,
in order. -/
def registered : List Event → List Client
  | [] => []
  | .register c :: es => c :: registered es
  | _ :: es => registered es

/-- The clients named by the unregister events of a sequence, in order. -/
def unregistered : List Event → List Client
  | [] => []
  | .unregister c :: es => c :: unregistered es
  | _ :: es => unregistered es

/-- Event sequences as `HandleWebSocket` and the pumps produce them: the
registered clients have pairwise distinct identities (`uuid.New()`) and
pairwise distinct mailboxes (`make(chan Message, 64)`), and every unregister
names one of these clients. -/
def FreshClients (es : List Event) : Prop :=
  ((registered es).map (fun c => c.ID)).Nodup ∧
  ((registered es).map (fun c => c.Send)).Nodup ∧
  ∀ c ∈ unregistered es, c ∈ registered es

instance (es : List Event) : Decidable (FreshClients es) := by
  unfold FreshClients; infer_instance

/-- Lifecycle invariant of the registry with respect to the clients `done`
registered so far: every entry is one of them, filed under its own id; the
registry has one entry per key; and one of them has an open mailbox exactly
when the registry holds it. -/
structure Lifecycle (done : List Client) (s : State) : Prop where
  entries : ∀ kc ∈ s.hub.clients, kc.2 ∈ done ∧ kc.1 = kc.2.ID
  keys : KeysNodup s.hub.clients
  live : ∀ c ∈ done, (s.chans c.Send).closed = false ↔ mapGet s.hub.clients c.ID = some c

/-! ## Keepalive schedule -/

/-- One keepalive round for the mailboxes `refs`: the timer ticks at `now`,
the dispatcher dispatches the queued message, and the writer of every mailbox
in `refs` takes one message. -/
def keepaliveRound (refs : List ChanRef) (now : Time) : List Step :=
  [.dispatcher (.tick now), .dispatcher .broadcast] ++ refs.map .writerRecv

/-- The keepalive schedule: one round per tick time, in order. -/
def keepalive (refs : List ChanRef) : List Time → List Step
  | [] => []
  | now :: rest => keepaliveRound refs now ++ keepalive refs rest

/-- An idle hub: nothing is queued, no two registry entries share a mailbox,
and every registered mailbox is open, empty and has room for a message. -/
def Idle (s : State) : Prop :=
  s.hub.broadcast = [] ∧ (sendRefs s.hub.clients).Nodup ∧
  ∀ kc ∈ s.hub.clients, (s.chans kc.2.Send).closed = false ∧
    (s.chans kc.2.Send).buf = [] ∧ 0 < (s.chans kc.2.Send).cap

instance (s : State) : Decidable (Idle s) := by
  unfold Idle; infer_instance

/-! ## Reader pump: subscriptions -/

/-- Subscriptions is the `map[string]bool` held in `Client.Subscriptions`, as
an association list with at most one entry per key in use. -/
abbrev Subscriptions := List (String × Bool)

/-- Lookup `c.Subscriptions[ch]` with the presence flag. -/
def subsGet (m : Subscriptions) (ch : String) : Option Bool :=
  match m with
  | [] => none
  | (k, v) :: rest => if k = ch then some v else subsGet rest ch

/-- Assignment `c.Subscriptions[ch] = v`. -/
def subsSet (m : Subscriptions) (ch : String) (v : Bool) : Subscriptions :=
  match m with
  | [] => [(ch, v)]
  | (k, v0) :: rest => if k = ch then (ch, v) :: rest else (k, v0) :: subsSet rest ch v

/-- Deletion `delete(c.Subscriptions, ch)`. -/
def subsDelete (m : Subscriptions) (ch : String) : Subscriptions :=
  match m with
  | [] => []
  | (k, v0) :: rest => if k = ch then subsDelete rest ch else (k, v0) :: subsDelete rest ch

/-- Membership in the subscription set: the map holds `true` for the channel. -/
def Subscribed (m : Subscriptions) (ch : String) : Prop := subsGet m ch = some true

instance (m : Subscriptions) (ch : String) : Decidable (Subscribed m ch) := by
  unfold Subscribed; infer_instance

/-- The loop `for _, ch := range channels { c.Subscriptions[ch] = true }`. -/
def subscribeAll (channels : List String) (m : Subscriptions) : Subscriptions :=
  channels.foldl (fun acc ch => subsSet acc ch true) m

/-- The loop `for _, ch := range channels { delete(c.Subscriptions, ch) }`. -/
def unsubscribeAll (channels : List String) (m : Subscriptions) : Subscriptions :=
  channels.foldl (fun acc ch => subsDelete acc ch) m

/-- The `switch msg.Type` of `readPump` on one message that was read.
`unmarshal` stands for `json.Unmarshal(msg.Data, &channels)` into a
`[]string`: `some channels` when it returns no error.  The pong case and
every other type leave the subscriptions alone. -/
def handleInbound (unmarshal : Bytes → Option (List String)) (msg : Message)
    (subs : Subscriptions) : Subscriptions :=
  if msg.Typ = MessageTypeSubscribe then
    match unmarshal msg.Data with
    | some channels => subscribeAll channels subs
    | none => subs
  else if msg.Typ = MessageTypeUnsubscribe then
    match unmarshal msg.Data with
    | some channels => unsubscribeAll channels subs
    | none => subs
  else subs

/-- What one call of `wsjson.Read` gives the reader: an error (with whether
its close status is the normal closure) or a decoded message. -/
inductive ReadResult where
  | failed (normalClosure : Bool)
  | message (msg : Message)
  deriving DecidableEq, Repr

/-- Levels of the log calls in the package. -/
inductive LogLevel where
  | debug
  | info
  | error
  deriving DecidableEq, Repr

/-- What the reader pump has done after a sequence of reads: the
subscriptions, the log entries it wrote, and whether the loop has returned
(the deferred function then sends the client on `unregister` and closes the
connection). -/
structure ReaderResult where
  subs : Subscriptions
  logs : List (LogLevel × String)
  returned : Bool
  deriving DecidableEq, Repr

/-- The log entry of the pong case of the switch, if the message is a pong. -/
def pongLog (msg : Message) : List (LogLevel × String) :=
  if msg.Typ = MessageTypePong then [(.debug, "Received pong")] else []

/-- The loop of `readPump` over the results of its successive reads.  A failed
read makes it return; a message goes through the switch and the loop reads
again; when the results run out the reader is waiting in `wsjson.Read`. -/
def readPump (unmarshal : Bytes → Option (List String)) :
    List ReadResult → Subscriptions → ReaderResult
  | [], subs => { subs := subs, logs := [], returned := false }
  | .failed normalClosure :: _, subs =>
    { subs := subs,
      logs := if normalClosure then [] else [(.debug, "WebSocket read error")],
      returned := true }
  | .message msg :: rest, subs =>
    let r := readPump unmarshal rest (handleInbound unmarshal msg subs)
    { r with logs := pongLog msg ++ r.logs }

/-- An inbound message that is a well-formed subscribe or unsubscribe: one of
the two types, with data that decodes as a list of strings. -/
def WellFormedSubscription (unmarshal : Bytes → Option (List String)) (msg : Message) : Prop :=
  (msg.Typ = MessageTypeSubscribe ∨ msg.Typ = MessageTypeUnsubscribe) ∧
  (unmarshal msg.Data).isSome = true

instance (unmarshal : Bytes → Option (List String)) (msg : Message) :
    Decidable (WellFormedSubscription unmarshal msg) := by
  unfold WellFormedSubscription; infer_instance

/-! ## Wire encoding of a message -/

/-- Values of the fields of the JSON object written for a message. -/
inductive JsonValue where
  | str (s : String)
  | time (t : Time)
  | raw (b : Bytes)
  deriving DecidableEq, Repr

/-- The JSON object that `wsjson.Write` writes for a `Message`, as its list of
fields, following the struct tags `json:"type"`, `json:"timestamp"` and
`json:"data,omitempty"`: the `data` field is left out when `Data` is empty. -/
def wireFields (m : Message) : List (String × JsonValue) :=
  [("type", .str m.Typ), ("timestamp", .time m.Timestamp)] ++
    (if m.Data = [] then [] else [("data", .raw m.Data)])

/-- The times of the ticks among the steps of a run, in order. -/
def tickTimes : List Step → List Time
  | [] => []
  | .dispatcher (.tick now) :: rest => now :: tickTimes rest
  | _ :: rest => tickTimes rest

/-- A step that is not a producer's send on the broadcast queue. -/
def NoProducer : Step → Prop
  | .produce _ => False
  | _ => True

instance (st : Step) : Decidable (NoProducer st) := by
  unfold NoProducer; split <;> infer_instance

/-! ## Typed producer entry points -/

/-- BroadcastTelemetry is `return h.Broadcast(MessageTypeTelemetry, telemetry)`. -/
def BroadcastTelemetry {Payload : Type} (marshal : Payload → Except String Bytes) (now : Time)
    (telemetry : Payload) (s : State) : BroadcastResult :=
  Broadcast marshal now MessageTypeTelemetry telemetry s

/-- BroadcastAlert is `return h.Broadcast(MessageTypeAlert, alert)`. -/
def BroadcastAlert {Payload : Type} (marshal : Payload → Except String Bytes) (now : Time)
    (alert : Payload) (s : State) : BroadcastResult :=
  Broadcast marshal now MessageTypeAlert alert s

/-- BroadcastVehicleUpdate is `return h.Broadcast(MessageTypeVehicle, vehicle)`. -/
def BroadcastVehicleUpdate {Payload : Type} (marshal : Payload → Except String Bytes)
    (now : Time) (vehicle : Payload) (s : State) : BroadcastResult :=
  Broadcast marshal now MessageTypeVehicle vehicle s

/-- BroadcastStats is `return h.Broadcast(MessageTypeStats, stats)`. -/
def BroadcastStats {Payload : Type} (marshal : Payload → Except String Bytes) (now : Time)
    (stats : Payload) (s : State) : BroadcastResult :=
  Broadcast marshal now MessageTypeStats stats s

/-- The error a call to `Broadcast` returned, if it returned one. -/
def BroadcastResult.error? : BroadcastResult → Option String
  | .err e _ => some e
  | _ => none

/-! ## Writer pump -/

/-- What the writer pump does to the outside, in order of occurrence.
* `write m ok`: a call `wsjson.Write(ctx, c.Conn, m)` and whether it succeeded
  (a timeout of the 10 second budget is a failure).
* `logError`: the error log "Failed to write WebSocket message".
* `connClose`: `c.Conn.Close(websocket.StatusNormalClosure, "")`.
* `unregisterSend`: the send `c.Hub.unregister <- c`. -/
inductive WriterAction where
  | write (m : Message) (ok : Bool)
  | logError
  | connClose
  | unregisterSend
  deriving DecidableEq, Repr

/-- What the writer pump has done: its actions, and whether the loop has
returned (otherwise it is waiting in its `select`). -/
structure WriterResult where
  actions : List WriterAction
  returned : Bool
  deriving DecidableEq, Repr

/-- The deferred function of `writePump`: close the connection, then send the
client on `unregister`. -/
def writerDeferred : List WriterAction := [.connClose, .unregisterSend]

/-- The loop of `writePump` from round `i` of its `select` on.  `buf` holds the
messages the mailbox delivers from now on, in order, and `closed` tells
whether the mailbox is closed behind them; `cancelled i` tells whether round
`i` takes the case `<-ctx.Done()`, and `writeOk i` whether the write of round
`i` succeeds.  A receive on the closed, drained mailbox (`!ok`) and a failed
write make the loop return; on an open, empty mailbox the loop waits. -/
def writePumpFrom (cancelled writeOk : Nat → Bool) (closed : Bool) :
    List Message → Nat → WriterResult
  | [], i =>
    if cancelled i then { actions := writerDeferred, returned := true }
    else if closed then { actions := writerDeferred, returned := true }
    else { actions := [], returned := false }
  | m :: rest, i =>
    if cancelled i then { actions := writerDeferred, returned := true }
    else if writeOk i then
      { actions := .write m true :: (writePumpFrom cancelled writeOk closed rest (i + 1)).actions,
        returned := (writePumpFrom cancelled writeOk closed rest (i + 1)).returned }
    else { actions := [.write m false, .logError] ++ writerDeferred, returned := true }

/-- writePump is `Client.writePump` on a mailbox that delivers `buf`. -/
def writePump (cancelled writeOk : Nat → Bool) (buf : List Message) (closed : Bool) :
    WriterResult :=
  writePumpFrom cancelled writeOk closed buf 0

/-- The messages handed to `wsjson.Write`, in order. -/
def writtenMessages : List WriterAction → List Message
  | [] => []
  | .write m _ :: rest => m :: writtenMessages rest
  | _ :: rest => writtenMessages rest

/-- The context of the writer is never cancelled. -/
def neverCancelled : Nat → Bool := fun _ => false

/-- An event that is a broadcast dispatch or a tick. -/
def DispatchOrTick : Event → Prop
  | .broadcast => True
  | .tick _ => True
  | _ => False

instance (e : Event) : Decidable (DispatchOrTick e) := by
  unfold DispatchOrTick; split <;> infer_instance

/-! ## Concrete states used to exercise the theorems -/

/-- A telemetry message used in examples. -/
def msgA : Message := { Typ := MessageTypeTelemetry, Timestamp := 7, Data := [1, 2] }

/-- Another message used in examples. -/
def msgB : Message := { Typ := MessageTypeAlert, Timestamp := 9, Data := [3] }

/-- Client A of the examples: identity 1, mailbox at reference 10. -/
def clientA : Client := { ID := 1, Send := 10 }

/-- Client B of the examples: identity 2, mailbox at reference 20. -/
def clientB : Client := { ID := 2, Send := 20 }

/-- Two registered clients; A holds one message, B none; both mailboxes open. -/
def stateAB : State :=
  { hub := { clients := [(1, clientA), (2, clientB)], broadcast := [] },
    chans := fun r => if r = 10 then { buf := [msgB], closed := false, cap := sendCap }
      else newMailbox }

/-- Client C of the examples: identity 3, mailbox at reference 30. -/
def clientC : Client := { ID := 3, Send := 30 }

/-- A mailbox of capacity 64 that holds 64 messages. -/
def fullMailbox : Chan := { buf := List.replicate 64 msgB, closed := false, cap := sendCap }

/-- Clients A and B registered, A iterated first; the mailbox of A is full,
that of B is empty. -/
def stateFullA : State :=
  { hub := { clients := [(1, clientA), (2, clientB)], broadcast := [] },
    chans := fun r => if r = 10 then fullMailbox else newMailbox }

/-- The same registry iterated in the other order: B first, then A. -/
def stateFullA2 : State :=
  { hub := { clients := [(2, clientB), (1, clientA)], broadcast := [] },
    chans := fun r => if r = 10 then fullMailbox else newMailbox }

/-- A stand-in for `json.Marshal` on numeric payloads: 0 cannot be encoded,
any other number encodes to itself. -/
def marshalNat (p : Nat) : Except String Bytes :=
  if p = 0 then .error "unsupported value" else .ok [p]

/-- The empty heap around a new hub: every reference holds a fresh mailbox. -/
def stateNew : State := { hub := NewHub, chans := fun _ => newMailbox }

/-- The client that `HandleWebSocket` builds with identity 1 at reference 10. -/
def clientW : Client := (HandleWebSocket 1 10 stateNew).1

/-- The heap that `HandleWebSocket` leaves after building `clientW`. -/
def heapW : ChanRef → Chan := (HandleWebSocket 1 10 stateNew).2.chans

/-- A dispatcher history: A and B register, A is unregistered twice, the timer
ticks, the ping is dispatched, and the hub is cancelled. -/
def historyAB : List Event :=
  [.register clientA, .register clientB, .unregister clientA, .unregister clientA,
   .tick 4, .broadcast, .ctxDone]

/-- The same history cut before the cancellation. -/
def historyABlive : List Event :=
  [.register clientA, .register clientB, .unregister clientA, .unregister clientA,
   .tick 4, .broadcast]

/-- Client A registered with an empty mailbox while the broadcast queue holds
256 messages. -/
def stateQueueFull : State :=
  { hub := { clients := [(1, clientA)], broadcast := List.replicate 256 msgA },
    chans := fun _ => newMailbox }

/-- A short run after the handler has made a mailbox at reference 30: client C
registers, one message is enqueued and dispatched. -/
def runAfterHandler : List Step :=
  [.dispatcher (.register clientC), .produce msgA, .dispatcher .broadcast]

/-- A stand-in for `json.Unmarshal` into a `[]string`: bytes `[1]` decode to
`["telemetry"]`, bytes `[2]` to `["alerts", "telemetry"]`, the empty input
and everything else fail to decode. -/
def unmarshalExample (b : Bytes) : Option (List String) :=
  if b = [1] then some ["telemetry"]
  else if b = [2] then some ["alerts", "telemetry"]
  else none

/-- A subscription map with one channel. -/
def subsExample : Subscriptions := [("stats", true)]

/-- An inbound subscribe message for `["alerts", "telemetry"]`. -/
def subscribeMsg : Message := { Typ := MessageTypeSubscribe, Timestamp := 3, Data := [2] }

/-- An inbound unsubscribe message for `["telemetry"]`. -/
def unsubscribeMsg : Message := { Typ := MessageTypeUnsubscribe, Timestamp := 4, Data := [1] }

/-- An inbound subscribe message whose data does not decode. -/
def malformedMsg : Message := { Typ := MessageTypeSubscribe, Timestamp := 5, Data := [9] }

/-- An assignment of results to writes: the write of round 2 fails, the others
succeed. -/
def thirdWriteFails : Nat → Bool := fun i => decide (i ≠ 2)

/-- A second client built with the identity of client A: id 1, mailbox at
reference 40. -/
def clientA2 : Client := { ID := 1, Send := 40 }

end FleetPulse.Websocket

/-!
# Mock services: `internal/service/services.go`

The telemetry and analytics services generate their answers in loops.  Time
instants are integers (nanoseconds); the calendar readings `Minute()` and
`Hour()`, the identifiers from `uuid.New()` and the formatted dates are taken
as parameters.  Numbers that the source converts to floats hold the integers
they are converted from.
-/

namespace FleetPulse.Service

/-! ## Telemetry service -/

/-- Instants (`time.Time`), in nanoseconds on the time line. -/
abbrev Instant := Int

/-- The duration `5 * time.Minute`, in nanoseconds. -/
def fiveMinutes : Int := 300000000000

/-- Telemetry is the `domain.Telemetry` record, with the fields that
`GetByVehicle` sets; `FuelLevel` and `Heading` keep their zero values. -/
structure Telemetry where
  ID : Nat
  VehicleID : Nat
  Timestamp : Instant
  Lat : ℚ
  Lng : ℚ
  Speed : Int
  BatteryLevel : Int
  EngineTemp : Int
  EngineRPM : Int
  deriving DecidableEq, Repr

/-- The record appended by the `k`-th pass through the loop of `GetByVehicle`
at instant `current`.  `newID k` is the result of that pass's `uuid.New()`,
`minute` and `hour` are `current.Minute()` and `current.Hour()`. -/
def telemetryAt (newID : Nat → Nat) (minute hour : Int → Int) (vehicleID : Nat)
    (current : Int) (k : Nat) : Telemetry :=
  { ID := newID k,
    VehicleID := vehicleID,
    Timestamp := current,
    Lat := 40.7128,
    Lng := -74.0060,
    Speed := 50 + minute current % 30,
    BatteryLevel := 80 - hour current % 20,
    EngineTemp := 85 + minute current % 10,
    EngineRPM := 2500 + minute current * 50 }

/-- The loop `for current.Before(to) { append; current = current.Add(5 * time.Minute) }`
of `GetByVehicle`, from instant `current` on, `k` records having been
appended so far. -/
def GetByVehicleLoop (newID : Nat → Nat) (minute hour : Int → Int) (vehicleID : Nat)
    (toT : Int) (current : Int) (k : Nat) : List Telemetry :=
  if h : current < toT then
    telemetryAt newID minute hour vehicleID current k ::
      GetByVehicleLoop newID minute hour vehicleID toT (current + fiveMinutes) (k + 1)
  else []
termination_by (toT - current).toNat
decreasing_by
  simp_wf
  unfold fiveMinutes
  omega

/-- GetByVehicle is `TelemetryService.GetByVehicle`; its error result is
always nil. -/
def GetByVehicle (newID : Nat → Nat) (minute hour : Int → Int) (vehicleID : Nat)
    (fromT toT : Int) : List Telemetry :=
  GetByVehicleLoop newID minute hour vehicleID toT fromT 0

/-! ## Analytics service -/

/-- ConsumptionData is the record of the consumption series. -/
structure ConsumptionData where
  Date : String
  VehicleID : String
  Value : Nat
  Unit : String
  deriving DecidableEq, Repr

/-- DistanceData is the record of the distance series. -/
structure DistanceData where
  Date : String
  VehicleID : String
  Distance : Nat
  deriving DecidableEq, Repr

/-- parsePeriodDays is the `switch period` with its default. -/
def parsePeriodDays (period : String) : Nat :=
  if period = "7d" then 7
  else if period = "30d" then 30
  else if period = "90d" then 90
  else 7

/-- The loop `for i := 0; i < days; i++` of `GetConsumption`, from `i` on.
`dateOf i` is `time.Now().AddDate(0, 0, -i).Format("2006-01-02")`. -/
def GetConsumptionLoop (dateOf : Nat → String) (days i : Nat) : List ConsumptionData :=
  if i < days then
    { Date := dateOf i, VehicleID := "", Value := 180 + (i * 5) % 50, Unit := "kWh" } ::
      GetConsumptionLoop dateOf days (i + 1)
  else []
termination_by days - i

/-- GetConsumption is `AnalyticsService.GetConsumption`; its error result is
always nil. -/
def GetConsumption (dateOf : Nat → String) (period : String) : List ConsumptionData :=
  GetConsumptionLoop dateOf (parsePeriodDays period) 0

/-- The loop `for i := 0; i < days; i++` of `GetDistance`, from `i` on. -/
def GetDistanceLoop (dateOf : Nat → String) (days i : Nat) : List DistanceData :=
  if i < days then
    { Date := dateOf i, VehicleID := "", Distance := 200 + (i * 10) % 100 } ::
      GetDistanceLoop dateOf days (i + 1)
  else []
termination_by days - i

/-- GetDistance is `AnalyticsService.GetDistance`; its error result is always
nil. -/
def GetDistance (dateOf : Nat → String) (period : String) : List DistanceData :=
  GetDistanceLoop dateOf (parsePeriodDays period) 0

/-- The closed form of the telemetry answer: `n` records, five minutes apart. -/
def telemetrySeries (newID : Nat → Nat) (minute hour : Int → Int) (vehicleID : Nat)
    (fromT : Int) (n : Nat) : List Telemetry :=
  (List.range n).map fun (k : Nat) =>
    telemetryAt newID minute hour vehicleID (fromT + (k : Int) * fiveMinutes) k

/-- The number of records: the least `n` with `from + n * 5 minutes` not
before `to`, that is `ceil((to - from) / 5 minutes)`, and 0 when `from` is
not before `to`. -/
def recordCount (fromT toT : Int) : Nat :=
  ((toT - fromT + fiveMinutes - 1) / fiveMinutes).toNat

/-! ## Example values -/

/-- Identifiers handed out in order. -/
def newIDExample : Nat → Nat := fun k => 100 + k

/-- A calendar reading for the examples: minutes of the hour, with the time
line starting on the hour. -/
def minuteExample : Int → Int := fun t => (t / 60000000000) % 60

/-- A calendar reading for the examples: hour of the day. -/
def hourExample : Int → Int := fun t => (t / 3600000000000) % 24

/-- Dates of the examples, as day offsets. -/
def dateOfExample : Nat → String := fun i => toString i

end FleetPulse.Service

/-!
# Vehicle simulator: `cmd/simulator/main.go`

`updateVehicleState` advances one simulated vehicle by one tick.  The random
numbers it draws are handed in as a record, one field per call of the random
source in the order of the text; `calculateHeading`, which is trigonometry, is
a parameter.  Float64 values are rationals.  The float64 expressions that set
speed, engine temperature and coordinates are not evaluated: each is a
parameter too (`FloatExprs`), so what is proved holds whatever float64
arithmetic makes of them.  Two of them, `max(20, v.EngineTemp-0.5)` and
`max(20, v.EngineTemp-0.2)`, pass a float64 to the package's
`max(a, b int) int` and do not type-check, so that the package does not build
as it stands; their values are left open in the same way.  The two battery
steps are evaluated: the product `x*0.3` exactly (its float64 rounding stays
below 1 and cannot change the truncation), the sum `0.5 + x*0.5` with its
rounding to a float64, which decides the integer it is truncated to.  A slice
access out of range is the result `none`.
-/

namespace FleetPulse.Simulator

/-! ## Data model -/

/-- A position (`Location`). -/
structure Location where
  Lat : ℚ
  Lng : ℚ
  Address : String
deriving DecidableEq

/-- The state of one simulated vehicle (`SimulatedVehicle`). -/
structure SimulatedVehicle where
  ID : Nat
  VIN : String
  Name : String
  Status : String
  BatteryLevel : Int
  FuelLevel : Option Int
  Location : Location
  Speed : ℚ
  Heading : ℚ
  EngineTemp : ℚ
  EngineRPM : Int
  IsMoving : Bool
  Route : List FleetPulse.Simulator.Location
  RouteIndex : Int

/-- The values returned by the random source during one call of
`updateVehicleState`: `rand.Float64()` for every field but `engineRPM`, which
is `rand.Intn(2000)`. -/
structure Draws where
  speedBase : ℚ
  speedVar : ℚ
  drain : ℚ
  engineTemp : ℚ
  engineRPM : Int
  charge : ℚ
  wake : ℚ
  noiseLat : ℚ
  noiseLng : ℚ

/-- The float64 expressions of the simulator that the model does not evaluate,
each as a function of the float64 values that occur in it.
* `speed x y` is `30 + x*50 + (y-0.5)*10` (main.go 251).
* `engineTemp x` is `85 + x*15` (main.go 270).
* `coolCharging t` is `max(20, t-0.5)` (main.go 278) and `coolIdle t` is
  `max(20, t-0.2)` (main.go 293): calls of the package's `max` on a float64,
  which do not type-check.
* `noise c x` is `c + (x-0.5)*0.0001` (main.go 308-309).
* `routeStep c x` is `c + (x-0.5)*0.01` (main.go 190-191). -/
structure FloatExprs where
  speed : ℚ → ℚ → ℚ
  engineTemp : ℚ → ℚ
  coolCharging : ℚ → ℚ
  coolIdle : ℚ → ℚ
  noise : ℚ → ℚ → ℚ
  routeStep : ℚ → ℚ → ℚ

/-! ## Helpers -/

/-- The helper `max` on `int`. -/
def max (a b : Int) : Int := if a > b then a else b

/-- The helper `min` on `int`. -/
def min (a b : Int) : Int := if a < b then a else b

/-- The conversion `int(x)` of a float: truncation toward zero. -/
def intOf (x : ℚ) : Int := if 0 ≤ x then ⌊x⌋ else -⌊-x⌋

/-- The nearest integer, a tie going to the even one. -/
def roundHalfEven (q : ℚ) : Int :=
  if q - ⌊q⌋ < 1 / 2 then ⌊q⌋
  else if 1 / 2 < q - ⌊q⌋ then ⌊q⌋ + 1
  else if ⌊q⌋ % 2 = 0 then ⌊q⌋ else ⌊q⌋ + 1

/-- The float64 that a number between 1/2 and 1 is rounded to: float64 values
in that range are the multiples of 2^-53, and the default rounding is to the
nearest with ties to even. -/
def float64BelowOne (q : ℚ) : ℚ := (roundHalfEven (q * 2 ^ 53) : ℚ) / 2 ^ 53

/-- The float64 value of `0.5 + x*0.5` for a float64 `x` in [0, 1): halving is
exact, the sum is rounded. -/
def chargeAmount (x : ℚ) : ℚ := float64BelowOne (1 / 2 + x * (1 / 2))

/-- The access `route[i]`: `none` when the index is out of range. -/
def routeAt (route : List Location) (i : Int) : Option Location :=
  if 0 ≤ i then route[i.toNat]? else none

/-! ## One update of a vehicle -/

/-- The case `"active"` of the switch (main.go 246-271). -/
def activeCase (calculateHeading : Location → Location → ℚ) (fl : FloatExprs) (d : Draws)
    (v : SimulatedVehicle) : Option SimulatedVehicle :=
  let idx : Int := if v.RouteIndex < (v.Route.length : Int) - 1 then v.RouteIndex + 1 else 0
  match routeAt v.Route idx with
  | none => none
  | some loc =>
    let heading : Option ℚ :=
      if idx > 0 then
        match routeAt v.Route (idx - 1) with
        | none => none
        | some prev => some (calculateHeading prev loc)
      else some v.Heading
    match heading with
    | none => none
    | some h =>
      some { v with
        IsMoving := true
        Speed := fl.speed d.speedBase d.speedVar
        RouteIndex := idx
        Location := loc
        Heading := h
        BatteryLevel := max 0 (v.BatteryLevel - intOf (d.drain * (3 / 10)))
        EngineTemp := fl.engineTemp d.engineTemp
        EngineRPM := 2000 + d.engineRPM }

/-- The case `"charging"` of the switch (main.go 273-286). -/
def chargingCase (fl : FloatExprs) (d : Draws) (v : SimulatedVehicle) : SimulatedVehicle :=
  let battery := min 100 (v.BatteryLevel + intOf (chargeAmount d.charge))
  { v with
    IsMoving := false
    Speed := 0
    EngineRPM := 0
    EngineTemp := fl.coolCharging v.EngineTemp
    BatteryLevel := battery
    Status := if battery ≥ 100 then "idle" else v.Status }

/-- The case `"idle"` of the switch (main.go 288-298).  For a float64 draw the
test `rand.Float64() < 0.05` is `x < 1/20`: the float64 `0.05` is the least
float64 above 1/20. -/
def idleCase (fl : FloatExprs) (d : Draws) (v : SimulatedVehicle) : SimulatedVehicle :=
  { v with
    IsMoving := false
    Speed := 0
    EngineRPM := 0
    EngineTemp := fl.coolIdle v.EngineTemp
    Status := if d.wake < 1 / 20 ∧ v.BatteryLevel > 20 then "active" else v.Status }

/-- The case `"maintenance"` of the switch (main.go 300-303). -/
def maintenanceCase (v : SimulatedVehicle) : SimulatedVehicle :=
  { v with IsMoving := false, Speed := 0, EngineRPM := 0 }

/-- The `switch v.Status` of `updateVehicleState` (main.go 245-304); it has
no default case. -/
def updateVehicleStateSwitch (calculateHeading : Location → Location → ℚ) (fl : FloatExprs)
    (d : Draws) (v : SimulatedVehicle) : Option SimulatedVehicle :=
  if v.Status = "active" then activeCase calculateHeading fl d v
  else if v.Status = "charging" then some (chargingCase fl d v)
  else if v.Status = "idle" then some (idleCase fl d v)
  else if v.Status = "maintenance" then some (maintenanceCase v)
  else some v

/-- The GPS noise added after the switch (main.go 306-310). -/
def gpsNoise (fl : FloatExprs) (d : Draws) (v : SimulatedVehicle) : SimulatedVehicle :=
  if v.IsMoving then
    { v with
      Location :=
        { v.Location with
          Lat := fl.noise v.Location.Lat d.noiseLat
          Lng := fl.noise v.Location.Lng d.noiseLng } }
  else v

/-- The function `updateVehicleState`. -/
def updateVehicleState (calculateHeading : Location → Location → ℚ) (fl : FloatExprs)
    (d : Draws) (v : SimulatedVehicle) : Option SimulatedVehicle :=
  (updateVehicleStateSwitch calculateHeading fl d v).map (gpsNoise fl d)

/-! ## Route generation -/

/-- The loop of `generateRandomRoute`: point `i` lies a random step from point
`i - 1`; `draw i` holds the two random numbers of that round. -/
def generateRandomRouteLoop (fl : FloatExprs) (draw : Nat → ℚ × ℚ) (prev : Location)
    (i points : Nat) : List Location :=
  if i < points then
    let p : Location :=
      { Lat := fl.routeStep prev.Lat (draw i).1
        Lng := fl.routeStep prev.Lng (draw i).2
        Address := "" }
    p :: generateRandomRouteLoop fl draw p (i + 1) points
  else []
termination_by points - i

/-- The function `generateRandomRoute`: `route[0] = start` is out of range for
a route of no points. -/
def generateRandomRoute (fl : FloatExprs) (draw : Nat → ℚ × ℚ) (start : Location)
    (points : Nat) : Option (List Location) :=
  if points = 0 then none else some (start :: generateRandomRouteLoop fl draw start 1 points)

/-! ## Example values -/

/-- A heading for the examples. -/
def calculateHeadingExample : Location → Location → ℚ := fun _ _ => 90

/-- Stand-ins for the float64 expressions in the examples. -/
def floatExprsExample : FloatExprs :=
  { speed := fun _ _ => 50, engineTemp := fun _ => 90, coolCharging := fun t => t,
    coolIdle := fun t => t, noise := fun c _ => c, routeStep := fun c _ => c }

/-- Random numbers for the examples; 1023/1024 is 0.9990234375. -/
def drawsExample : Draws :=
  { speedBase := 1 / 2, speedVar := 1 / 4, drain := 1023 / 1024, engineTemp := 1 / 2,
    engineRPM := 1500, charge := 1023 / 1024, wake := 1 / 2, noiseLat := 1 / 2,
    noiseLng := 1 / 2 }

/-- A route of three points. -/
def routeExample : List Location :=
  [ { Lat := 40 + 1 / 2, Lng := -74 - 1 / 4, Address := "Depot" },
    { Lat := 40 + 65 / 128, Lng := -74 - 1 / 4, Address := "" },
    { Lat := 40 + 65 / 128, Lng := -74 - 31 / 128, Address := "" } ]

/-- An active vehicle at the last point of its route. -/
def activeExample : SimulatedVehicle :=
  { ID := 1, VIN := "TSL-M3-001", Name := "Model 3", Status := "active", BatteryLevel := 78,
    FuelLevel := none, Location := { Lat := 40 + 65 / 128, Lng := -74 - 31 / 128, Address := "" },
    Speed := 0, Heading := 0, EngineTemp := 90, EngineRPM := 0, IsMoving := true,
    Route := routeExample, RouteIndex := 2 }

/-- A charging vehicle. -/
def chargingExample : SimulatedVehicle :=
  { activeExample with Status := "charging", BatteryLevel := 45, IsMoving := false,
                       RouteIndex := 0 }

end FleetPulse.Simulator

namespace FleetPulse.Websocket

/-! ## Basic facts about the heap and the registry -/

@[simp] theorem setChan_hub (s : State) (r : ChanRef) (ch : Chan) :
    (s.setChan r ch).hub = s.hub := rfl

@[simp] theorem setChan_same (s : State) (r : ChanRef) (ch : Chan) :
    (s.setChan r ch).chans r = ch := by
  simp [State.setChan]

theorem setChan_other (s : State) (r r0 : ChanRef) (ch : Chan) (h : r0 ≠ r) :
    (s.setChan r ch).chans r0 = s.chans r0 := by
  simp [State.setChan, h]

theorem setChan_chans (s : State) (r r0 : ChanRef) (ch : Chan) :
    (s.setChan r ch).chans r0 = if r0 = r then ch else s.chans r0 := rfl

/-- Fan-out over entries whose mailboxes are open, have room and are pairwise
distinct: the loop ends normally and has pushed the message once on each. -/
theorem fanOut_room (m : Message) :
    ∀ (l : List (UUID × Client)) (s : State),
      (∀ kc ∈ l, (s.chans kc.2.Send).closed = false ∧
        (s.chans kc.2.Send).buf.length < (s.chans kc.2.Send).cap) →
      (sendRefs l).Nodup →
      ∃ s1, fanOut m l s = .next s1 ∧ s1.hub = s.hub ∧
        ∀ r, s1.chans r = if r ∈ sendRefs l then (s.chans r).push m else s.chans r := by
  intro l
  induction l with
  | nil =>
    intro s _ _
    exact ⟨s, rfl, rfl, fun r => by simp [sendRefs]⟩
  | cons kc rest ih =>
    intro s hroom hnd
    obtain ⟨k, c⟩ := kc
    have hc := hroom (k, c) (List.mem_cons_self _ _)
    simp only [sendRefs, List.map_cons, List.nodup_cons] at hnd
    obtain ⟨hnotin, hnd1⟩ := hnd
    have hrest : ∀ kc ∈ rest,
        ((s.setChan c.Send ((s.chans c.Send).push m)).chans kc.2.Send).closed = false ∧
        ((s.setChan c.Send ((s.chans c.Send).push m)).chans kc.2.Send).buf.length <
          ((s.setChan c.Send ((s.chans c.Send).push m)).chans kc.2.Send).cap := by
      intro kc hkc
      have hne : kc.2.Send ≠ c.Send := by
        intro heq
        exact hnotin (heq ▸ List.mem_map_of_mem (fun kc => kc.2.Send) hkc)
      rw [setChan_other _ _ _ _ hne]
      exact hroom kc (List.mem_cons_of_mem _ hkc)
    obtain ⟨s1, hrun, hhub, hch⟩ := ih _ hrest hnd1
    refine ⟨s1, ?_, ?_, ?_⟩
    · have hstep : fanOut m ((k, c) :: rest) s =
          fanOut m rest (s.setChan c.Send ((s.chans c.Send).push m)) := by
        show (if (s.chans c.Send).closed = true then _ else _) = _
        rw [if_neg (by simp [hc.1]), if_pos hc.2]
        rfl
      rw [hstep]
      exact hrun
    · rw [hhub]; rfl
    · intro r
      rw [hch r]
      by_cases hr : r = c.Send
      · subst hr
        have h1 : ¬ c.Send ∈ sendRefs rest := hnotin
        have h2 : c.Send ∈ sendRefs ((k, c) :: rest) := by simp [sendRefs]
        rw [if_neg h1, if_pos h2, setChan_same]
      · have hiff : (r ∈ sendRefs ((k, c) :: rest)) ↔ (r ∈ sendRefs rest) := by
          simp [sendRefs, hr]
        simp only [hiff, setChan_other _ _ _ _ hr]

/-- Assigning under a key that no selected entry carries, a value that is not
selected, leaves a filtered view of the registry as it was. -/
theorem filter_mapSet (p : UUID × Client → Bool) (id : UUID) (c1 : Client)
    (hnew : p (id, c1) = false) :
    ∀ l : List (UUID × Client), (∀ kc ∈ l, kc.1 = id → p kc = false) →
      (mapSet l id c1).filter p = l.filter p := by
  intro l
  induction l with
  | nil => intro _; simp [mapSet, hnew]
  | cons kc rest ih =>
    intro h
    obtain ⟨k, c0⟩ := kc
    by_cases hk : k = id
    · have h0 : p (k, c0) = false := h (k, c0) (List.mem_cons_self _ _) hk
      simp [mapSet, hk, hnew, List.filter_cons]
      rw [hk] at h0
      simp [h0]
    · have ih1 := ih (fun kc hkc => h kc (List.mem_cons_of_mem _ hkc))
      simp [mapSet, hk, List.filter_cons, ih1]

theorem sole_mem {c : Client} {l : List (UUID × Client)} (h : Sole c l)
    {kc : UUID × Client} (hkc : kc ∈ l) (hp : kc.1 = c.ID ∨ kc.2.Send = c.Send) :
    kc = (c.ID, c) := by
  have hin : kc ∈ l.filter (fun kc => decide (kc.1 = c.ID ∨ kc.2.Send = c.Send)) := by
    rw [List.mem_filter]
    exact ⟨hkc, by simpa using hp⟩
  rw [show l.filter (fun kc => decide (kc.1 = c.ID ∨ kc.2.Send = c.Send)) = [(c.ID, c)] from h]
    at hin
  simpa using hin

theorem sole_mapSet {c c1 : Client} {l : List (UUID × Client)} (h : Sole c l)
    (hid : c1.ID ≠ c.ID) (hsend : c1.Send ≠ c.Send) : Sole c (mapSet l c1.ID c1) := by
  unfold Sole
  rw [filter_mapSet _ _ _ (by simp [hid, hsend]) l ?_]
  · exact h
  · intro kc hkc hk
    by_contra hp
    have hp1 : kc.1 = c.ID ∨ kc.2.Send = c.Send := by
      by_contra hno
      exact hp (by simpa using hno)
    have heq := sole_mem h hkc hp1
    rw [heq] at hk
    exact hid hk.symm

theorem sole_mapDelete {c : Client} {l : List (UUID × Client)} (h : Sole c l)
    {id : UUID} (hid : id ≠ c.ID) : Sole c (mapDelete l id) := by
  unfold Sole mapDelete
  rw [List.filter_comm]
  rw [show l.filter (fun kc => decide (kc.1 = c.ID ∨ kc.2.Send = c.Send)) = [(c.ID, c)] from h]
  simp [List.filter_cons, Ne.symm hid]

theorem sole_count {c : Client} {l : List (UUID × Client)} (h : Sole c l) :
    l.countP (fun kc => decide (kc.2.Send = c.Send)) = 1 := by
  rw [List.countP_eq_length_filter]
  have hff : l.filter (fun kc => decide (kc.2.Send = c.Send)) =
      (l.filter (fun kc => decide (kc.1 = c.ID ∨ kc.2.Send = c.Send))).filter
        (fun kc => decide (kc.2.Send = c.Send)) := by
    rw [List.filter_filter]
    apply List.filter_congr
    intro kc _
    by_cases hs : kc.2.Send = c.Send <;> simp [hs]
  rw [hff, show l.filter (fun kc => decide (kc.1 = c.ID ∨ kc.2.Send = c.Send)) = [(c.ID, c)] from h]
  simp [List.filter_cons]

/-- A fan-out that ends normally has kept the hub and pushed the message on
each mailbox once per registry entry that refers to it. -/
theorem fanOut_next_buf (m : Message) :
    ∀ (l : List (UUID × Client)) (s s1 : State), fanOut m l s = .next s1 →
      s1.hub = s.hub ∧ ∀ r, (s1.chans r).buf =
        (s.chans r).buf ++ List.replicate (l.countP (fun kc => decide (kc.2.Send = r))) m := by
  intro l
  induction l with
  | nil =>
    intro s s1 h
    simp only [fanOut, Outcome.next.injEq] at h
    subst h
    simp
  | cons kc rest ih =>
    intro s s1 h
    obtain ⟨k, c⟩ := kc
    simp only [fanOut] at h
    split at h
    · exact absurd h (by simp)
    · split at h
      · obtain ⟨hhub, hbuf⟩ := ih _ _ h
        refine ⟨by rw [hhub]; rfl, fun r => ?_⟩
        rw [hbuf r, setChan_chans, List.countP_cons]
        by_cases hr : r = c.Send
        · subst hr
          simp [List.replicate_succ]
        · have hr1 : ¬ c.Send = r := fun h => hr h.symm
          simp [hr, hr1]
      · exact absurd h (by simp)

/-! ## Broadcast fan-out -/

/-- C1: in a hub state where every registered mailbox is open, was made with
capacity 64, holds fewer than 64 messages and belongs to one registry entry
only, the broadcast step for a message `m` ends normally, leaves the registry
and the broadcast queue as they were, puts `m` once at the tail of every
registered mailbox (keeping its earlier contents, open status and capacity)
and changes no other mailbox. -/
theorem dispatch_appends_to_every_client (s : State) (m : Message)
    (hopen : ∀ kc ∈ s.hub.clients, (s.chans kc.2.Send).closed = false)
    (hcap : ∀ kc ∈ s.hub.clients, (s.chans kc.2.Send).cap = sendCap)
    (hlen : ∀ kc ∈ s.hub.clients, (s.chans kc.2.Send).buf.length < 64)
    (hnd : (sendRefs s.hub.clients).Nodup) :
    ∃ s1, dispatch m s = .next s1 ∧ s1.hub = s.hub ∧
      (∀ kc ∈ s.hub.clients,
        (s1.chans kc.2.Send).buf = (s.chans kc.2.Send).buf ++ [m] ∧
        (s1.chans kc.2.Send).closed = false ∧
        (s1.chans kc.2.Send).cap = sendCap) ∧
      (∀ r, r ∉ sendRefs s.hub.clients → s1.chans r = s.chans r) := by
  have hroom : ∀ kc ∈ s.hub.clients, (s.chans kc.2.Send).closed = false ∧
      (s.chans kc.2.Send).buf.length < (s.chans kc.2.Send).cap := by
    intro kc hkc
    refine ⟨hopen kc hkc, ?_⟩
    rw [hcap kc hkc]
    exact hlen kc hkc
  obtain ⟨s1, hrun, hhub, hch⟩ := fanOut_room m s.hub.clients s hroom hnd
  refine ⟨s1, hrun, hhub, ?_, ?_⟩
  · intro kc hkc
    have hin : kc.2.Send ∈ sendRefs s.hub.clients :=
      List.mem_map_of_mem (fun kc => kc.2.Send) hkc
    rw [hch, if_pos hin]
    exact ⟨rfl, hopen kc hkc, hcap kc hkc⟩
  · intro r hr
    rw [hch, if_neg hr]

/-- The broadcast step on the two-client example state. -/
theorem dispatch_appends_to_every_client_witness :
    ∃ s1, dispatch msgA stateAB = .next s1 ∧ s1.hub = stateAB.hub ∧
      (∀ kc ∈ stateAB.hub.clients,
        (s1.chans kc.2.Send).buf = (stateAB.chans kc.2.Send).buf ++ [msgA] ∧
        (s1.chans kc.2.Send).closed = false ∧
        (s1.chans kc.2.Send).cap = sendCap) ∧
      (∀ r, r ∉ sendRefs stateAB.hub.clients → s1.chans r = stateAB.chans r) :=
  dispatch_appends_to_every_client stateAB msgA (by decide) (by decide) (by decide) (by decide)

/-! ## Order of delivery -/

theorem sendBroadcast_eq_some {m : Message} {s s1 : State}
    (h : sendBroadcast m s = some s1) :
    s.hub.broadcast.length < broadcastCap ∧
    s1 = { s with hub := { s.hub with broadcast := s.hub.broadcast ++ [m] } } := by
  unfold sendBroadcast at h
  split at h
  · rename_i hlt
    simp only [Option.some.injEq] at h
    exact ⟨hlt, h.symm⟩
  · simp at h

theorem closeAll_ne_next :
    ∀ (l : List (UUID × Client)) (s s1 : State), closeAll l s ≠ .next s1 := by
  intro l
  induction l with
  | nil => intro s s1 h; simp [closeAll] at h
  | cons kc rest ih =>
    intro s s1 h
    obtain ⟨k, c⟩ := kc
    simp only [closeAll] at h
    split at h
    · simp at h
    · exact ih _ _ h

/-- One dispatcher round that spares client `c` and ends normally keeps `c`
registered and pushes on its mailbox exactly the messages it took off the
broadcast queue. -/
theorem iteration_spares (c : Client) (e : Event) (s s1 : State)
    (hreg : Sole c s.hub.clients) (hsp : Spares c (.dispatcher e))
    (h : iteration e s = .next s1) :
    Sole c s1.hub.clients ∧
    ∃ ds, s.hub.broadcast ++ e.pings = ds ++ s1.hub.broadcast ∧
      (s1.chans c.Send).buf = (s.chans c.Send).buf ++ ds := by
  cases e with
  | ctxDone => exact absurd h (closeAll_ne_next _ _ _)
  | register c1 =>
    simp only [iteration, registerCase, Outcome.next.injEq] at h
    subst h
    exact ⟨sole_mapSet hreg hsp.1 hsp.2, [], by simp [Event.pings], by simp⟩
  | unregister c1 =>
    have hid : c1.ID ≠ c.ID := hsp
    simp only [iteration, unregisterCase] at h
    split at h
    · split at h
      · simp at h
      · simp only [Outcome.next.injEq] at h
        subst h
        refine ⟨sole_mapDelete hreg hid, [], by simp [Event.pings], ?_⟩
        rw [setChan_chans]
        by_cases hr : c.Send = c1.Send
        · simp [hr]
        · simp [hr]
    · simp only [Outcome.next.injEq] at h
      subst h
      exact ⟨hreg, [], by simp [Event.pings], by simp⟩
  | broadcast =>
    simp only [iteration, broadcastCase] at h
    split at h
    · rename_i hq
      simp only [Outcome.next.injEq] at h
      subst h
      exact ⟨hreg, [], by simp [Event.pings, hq], by simp⟩
    · rename_i m q hq
      obtain ⟨hhub, hbuf⟩ := fanOut_next_buf m _ _ _ h
      refine ⟨by rw [hhub]; exact hreg, [m], ?_, ?_⟩
      · rw [hhub]; simp [Event.pings, hq]
      · rw [hbuf c.Send]
        have hcount := sole_count hreg
        simp only at hcount ⊢
        rw [hcount]
        rfl
  | tick now =>
    simp only [iteration, tickCase, BroadcastPing] at h
    split at h
    · rename_i s2 hs2
      simp only [Outcome.next.injEq] at h
      subst h
      obtain ⟨_, hs2eq⟩ := sendBroadcast_eq_some hs2
      subst hs2eq
      exact ⟨hreg, [], by simp [Event.pings], by simp⟩
    · simp at h

/-- C2: a client that is registered throughout does not get a broadcast that
was enqueued and taken off the queue for dispatch when the dispatch meets a
full mailbox first.  With A and B registered, the mailbox of A full and that
of B open and empty, the producer's send of `msgA` succeeds and the next round
of the dispatcher takes `msgA` off the queue; the fan-out visits A first and
the dispatcher is suspended for ever in its send on `unregister`.  B is still
registered, its mailbox is open and empty, and `msgA` is neither there nor in
the queue: it is lost to B.  The steps spare B, and the run does not complete. -/
theorem live_client_misses_broadcast_behind_full_mailbox :
    Sole clientB stateFullA.hub.clients ∧
    (∀ st ∈ [Step.produce msgA, Step.dispatcher Event.broadcast], Spares clientB st) ∧
    (stateFullA.chans clientB.Send).closed = false ∧
    (stateFullA.chans clientB.Send).buf = [] ∧
    ((sendBroadcast msgA stateFullA).map fun s1 => s1.hub.broadcast) = some [msgA] ∧
    ((sendBroadcast msgA stateFullA).map fun s1 =>
      (iteration .broadcast s1).isBlocked) = some true ∧
    ((sendBroadcast msgA stateFullA).map fun s1 =>
      (iteration .broadcast s1).state.hub.broadcast) = some [] ∧
    ((sendBroadcast msgA stateFullA).map fun s1 =>
      mapGet (iteration .broadcast s1).state.hub.clients clientB.ID) = some (some clientB) ∧
    ((sendBroadcast msgA stateFullA).map fun s1 =>
      ((iteration .broadcast s1).state.chans clientB.Send).closed) = some false ∧
    ((sendBroadcast msgA stateFullA).map fun s1 =>
      ((iteration .broadcast s1).state.chans clientB.Send).buf) = some [] ∧
    (runSystem clientB.Send [.produce msgA, .dispatcher .broadcast] stateFullA).isNone
      = true := by
  decide

/-! ## Eviction of a slow consumer -/

/-- C3: with A and B registered, the mailbox of A full (64 of 64) and that of
B empty, the dispatch of one message does not complete: the dispatcher is
suspended for ever in its own send on `unregister`.  A is still in the
registry and its mailbox is still open; B has not received the message when A
is visited first, and has received it when B is visited first. -/
theorem dispatch_full_mailbox_blocks :
    (dispatch msgA stateFullA).isBlocked = true ∧
    mapGet (dispatch msgA stateFullA).state.hub.clients clientA.ID = some clientA ∧
    ((dispatch msgA stateFullA).state.chans clientA.Send).closed = false ∧
    ((dispatch msgA stateFullA).state.chans clientB.Send).buf = [] ∧
    (dispatch msgA stateFullA2).isBlocked = true ∧
    mapGet (dispatch msgA stateFullA2).state.hub.clients clientA.ID = some clientA ∧
    ((dispatch msgA stateFullA2).state.chans clientA.Send).closed = false ∧
    ((dispatch msgA stateFullA2).state.chans clientB.Send).buf = [msgA] := by
  decide

/-! ## Unregistration -/

theorem mapDelete_cons_same (id : UUID) (c0 : Client) (rest : List (UUID × Client)) :
    mapDelete ((id, c0) :: rest) id = mapDelete rest id := by
  simp [mapDelete]

theorem mapDelete_cons_other (k id : UUID) (c0 : Client) (rest : List (UUID × Client))
    (h : k ≠ id) : mapDelete ((k, c0) :: rest) id = (k, c0) :: mapDelete rest id := by
  simp [mapDelete, h]

theorem mapGet_mapDelete_self (id : UUID) :
    ∀ l : List (UUID × Client), mapGet (mapDelete l id) id = none := by
  intro l
  induction l with
  | nil => rfl
  | cons kc rest ih =>
    obtain ⟨k, c0⟩ := kc
    by_cases hk : k = id
    · subst hk
      rw [mapDelete_cons_same]
      exact ih
    · rw [mapDelete_cons_other _ _ _ _ hk]
      simp only [mapGet, hk, if_false]
      exact ih

theorem mapGet_mapDelete_other (id id1 : UUID) (h : id1 ≠ id) :
    ∀ l : List (UUID × Client), mapGet (mapDelete l id) id1 = mapGet l id1 := by
  intro l
  induction l with
  | nil => rfl
  | cons kc rest ih =>
    obtain ⟨k, c0⟩ := kc
    by_cases hk : k = id
    · subst hk
      have hk1 : ¬ k = id1 := fun h1 => h h1.symm
      rw [mapDelete_cons_same]
      simp only [mapGet, hk1, if_false]
      exact ih
    · rw [mapDelete_cons_other _ _ _ _ hk]
      by_cases hk1 : k = id1
      · simp only [mapGet, hk1, if_true]
      · simp only [mapGet, hk1, if_false]
        exact ih

theorem mapDelete_absent (id : UUID) :
    ∀ l : List (UUID × Client), mapGet l id = none → mapDelete l id = l := by
  intro l
  induction l with
  | nil => intro _; rfl
  | cons kc rest ih =>
    intro h
    obtain ⟨k, c0⟩ := kc
    by_cases hk : k = id
    · simp [mapGet, hk] at h
    · simp only [mapGet, hk, if_false] at h
      rw [mapDelete_cons_other _ _ _ _ hk, ih h]

/-- C4: for a client `c` held in the registry under its id, with an open
mailbox, the unregister step ends normally in a state where the id of `c` is
absent from the registry and the mailbox of `c` is closed (same contents and
capacity), while the registry entries under every other id, every other
mailbox and the broadcast queue are as before. -/
theorem unregister_removes_client_and_closes_mailbox (s : State) (c : Client)
    (hreg : mapGet s.hub.clients c.ID = some c)
    (hopen : (s.chans c.Send).closed = false) :
    ∃ s1, unregisterCase c s = .next s1 ∧
      mapGet s1.hub.clients c.ID = none ∧
      s1.hub.clients = s.hub.clients.filter (fun kc => decide (kc.1 ≠ c.ID)) ∧
      (∀ id, id ≠ c.ID → mapGet s1.hub.clients id = mapGet s.hub.clients id) ∧
      (s1.chans c.Send).closed = true ∧
      (s1.chans c.Send).buf = (s.chans c.Send).buf ∧
      (s1.chans c.Send).cap = (s.chans c.Send).cap ∧
      (∀ r, r ≠ c.Send → s1.chans r = s.chans r) ∧
      s1.hub.broadcast = s.hub.broadcast := by
  refine ⟨({ s with hub := { s.hub with clients := mapDelete s.hub.clients c.ID } } : State).setChan
      c.Send { s.chans c.Send with closed := true }, ?_, ?_, rfl, ?_, ?_, ?_, ?_, ?_, rfl⟩
  · simp only [unregisterCase, hreg]
    rw [if_neg (by simp [hopen])]
  · exact mapGet_mapDelete_self c.ID s.hub.clients
  · intro id hid
    exact mapGet_mapDelete_other c.ID id hid s.hub.clients
  · simp
  · simp
  · simp
  · intro r hr
    exact setChan_other _ _ _ _ hr

/-- Unregistering client A in the two-client example state. -/
theorem unregister_removes_client_and_closes_mailbox_witness :
    ∃ s1, unregisterCase clientA stateAB = .next s1 ∧
      mapGet s1.hub.clients clientA.ID = none ∧
      s1.hub.clients = stateAB.hub.clients.filter (fun kc => decide (kc.1 ≠ clientA.ID)) ∧
      (∀ id, id ≠ clientA.ID → mapGet s1.hub.clients id = mapGet stateAB.hub.clients id) ∧
      (s1.chans clientA.Send).closed = true ∧
      (s1.chans clientA.Send).buf = (stateAB.chans clientA.Send).buf ∧
      (s1.chans clientA.Send).cap = (stateAB.chans clientA.Send).cap ∧
      (∀ r, r ≠ clientA.Send → s1.chans r = stateAB.chans r) ∧
      s1.hub.broadcast = stateAB.hub.broadcast :=
  unregister_removes_client_and_closes_mailbox stateAB clientA (by decide) (by decide)

/-- C5: unregister is idempotent.  Processing `unregister c` twice gives the
same outcome as processing it once; an unregister step that follows a
completed one for the same client ends normally and changes nothing; and so
does every unregister of a client whose id is absent from the registry. -/
theorem unregister_idempotent (s : State) (c : Client) :
    Run [.unregister c, .unregister c] s = Run [.unregister c] s ∧
    (∀ s1, unregisterCase c s = .next s1 → unregisterCase c s1 = .next s1) ∧
    (mapGet s.hub.clients c.ID = none → unregisterCase c s = .next s) := by
  have habsent : ∀ s0 : State, mapGet s0.hub.clients c.ID = none →
      unregisterCase c s0 = .next s0 := by
    intro s0 h0
    simp only [unregisterCase, h0]
  have hsecond : ∀ s1, unregisterCase c s = .next s1 → unregisterCase c s1 = .next s1 := by
    intro s1 h1
    apply habsent
    simp only [unregisterCase] at h1
    split at h1
    · split at h1
      · simp at h1
      · simp only [Outcome.next.injEq] at h1
        subst h1
        exact mapGet_mapDelete_self c.ID s.hub.clients
    · rename_i hnone
      simp only [Outcome.next.injEq] at h1
      subst h1
      exact hnone
  refine ⟨?_, hsecond, habsent s⟩
  simp only [Run, iteration]
  cases h : unregisterCase c s with
  | next s1 => simp only [hsecond s1 h]
  | returned s1 => rfl
  | panicked k s1 => rfl
  | blocked s1 => rfl

/-- Unregistering A twice in the example state: the second step changes nothing. -/
theorem unregister_idempotent_witness :
    Run [.unregister clientA, .unregister clientA] stateAB = Run [.unregister clientA] stateAB ∧
    (∀ s1, unregisterCase clientA stateAB = .next s1 → unregisterCase clientA s1 = .next s1) ∧
    (mapGet stateAB.hub.clients clientC.ID = none → unregisterCase clientC stateAB = .next stateAB) :=
  ⟨(unregister_idempotent stateAB clientA).1, (unregister_idempotent stateAB clientA).2.1,
    (unregister_idempotent stateAB clientC).2.2⟩

/-! ## Client count -/

theorem mapSet_length_absent (id : UUID) (c : Client) :
    ∀ l : List (UUID × Client), mapGet l id = none →
      (mapSet l id c).length = l.length + 1 := by
  intro l
  induction l with
  | nil => intro _; rfl
  | cons kc rest ih =>
    intro h
    obtain ⟨k, c0⟩ := kc
    by_cases hk : k = id
    · simp [mapGet, hk] at h
    · simp only [mapGet, hk, if_false] at h
      simp only [mapSet, hk, if_false, List.length_cons, ih h]

theorem mapDelete_length_present (id : UUID) :
    ∀ l : List (UUID × Client), KeysNodup l → (mapGet l id).isSome = true →
      (mapDelete l id).length + 1 = l.length := by
  intro l
  induction l with
  | nil => intro _ h; simp [mapGet] at h
  | cons kc rest ih =>
    intro hnd h
    obtain ⟨k, c0⟩ := kc
    unfold KeysNodup at hnd ih
    simp only [List.map_cons, List.nodup_cons] at hnd
    by_cases hk : k = id
    · subst hk
      rw [mapDelete_cons_same]
      have habs : mapGet rest k = none := by
        cases hg : mapGet rest k with
        | none => rfl
        | some c1 =>
          exfalso
          apply hnd.1
          clear ih hnd h
          induction rest with
          | nil => simp [mapGet] at hg
          | cons kc1 rest1 ih1 =>
            obtain ⟨k1, c2⟩ := kc1
            by_cases hk1 : k1 = k
            · simp [hk1]
            · simp only [mapGet, hk1, if_false] at hg
              simp only [List.map_cons, List.mem_cons]
              exact Or.inr (ih1 hg)
      rw [mapDelete_absent k rest habs]
      rfl
    · simp only [mapGet, hk, if_false] at h
      rw [mapDelete_cons_other _ _ _ _ hk]
      simp only [List.length_cons]
      rw [ih hnd.2 h]

/-- C6: `GetClientCount` is 0 on a new hub; it returns the state untouched and
a count that is never negative; the register step for a client whose id is
not in the registry ends normally with the count one higher; the unregister
step for a client held in the registry (a map with one entry per key) leaves
the count one lower, and ends normally when the mailbox of the client is open. -/
theorem client_count_follows_registry (s : State) (c : Client) (chans : ChanRef → Chan) :
    (GetClientCount { hub := NewHub, chans := chans }).1 = 0 ∧
    (GetClientCount s).2 = s ∧
    0 ≤ (GetClientCount s).1 ∧
    (mapGet s.hub.clients c.ID = none →
      ∃ s1, registerCase c s = .next s1 ∧
        (GetClientCount s1).1 = (GetClientCount s).1 + 1) ∧
    (KeysNodup s.hub.clients → mapGet s.hub.clients c.ID = some c →
      (GetClientCount (unregisterCase c s).state).1 = (GetClientCount s).1 - 1 ∧
      ((s.chans c.Send).closed = false → ∃ s1, unregisterCase c s = .next s1)) := by
  refine ⟨rfl, rfl, ?_, ?_, ?_⟩
  · simp [GetClientCount]
  · intro habs
    refine ⟨_, rfl, ?_⟩
    simp only [GetClientCount]
    rw [mapSet_length_absent c.ID c s.hub.clients habs]
    push_cast
    rfl
  · intro hnd hreg
    have hlen := mapDelete_length_present c.ID s.hub.clients hnd (by simp [hreg])
    constructor
    · have hst : (unregisterCase c s).state.hub.clients = mapDelete s.hub.clients c.ID := by
        simp only [unregisterCase, hreg]
        split <;> rfl
      simp only [GetClientCount, hst]
      omega
    · intro hopen
      simp only [unregisterCase, hreg]
      rw [if_neg (by simp [hopen])]
      exact ⟨_, rfl⟩

/-- The count on the example states: registering C in the two-client state
gives 3, unregistering A gives 1. -/
theorem client_count_follows_registry_witness :
    (GetClientCount stateNew).1 = 0 ∧
    (∃ s1, registerCase clientC stateAB = .next s1 ∧
        (GetClientCount s1).1 = (GetClientCount stateAB).1 + 1) ∧
    (GetClientCount (unregisterCase clientA stateAB).state).1 = (GetClientCount stateAB).1 - 1 ∧
    (∃ s1, unregisterCase clientA stateAB = .next s1) :=
  ⟨(client_count_follows_registry stateAB clientC (fun _ => newMailbox)).1,
   (client_count_follows_registry stateAB clientC (fun _ => newMailbox)).2.2.2.1 (by decide),
   ((client_count_follows_registry stateAB clientA (fun _ => newMailbox)).2.2.2.2
      (by decide) (by decide)).1,
   ((client_count_follows_registry stateAB clientA (fun _ => newMailbox)).2.2.2.2
      (by decide) (by decide)).2 (by decide)⟩

/-! ## Broadcast: serialize, then enqueue -/

/-- C7: `Broadcast` returns an error exactly when the payload cannot be
serialized.  When it returns an error, the error is the serializer's and the
state (so the queue) is unchanged; when it returns nil, the payload was
serialized to some bytes `b` and the only change is one message with the given
type and data `b` appended at the tail of the queue; and with a serializable
payload and fewer than 256 queued messages it does return nil. -/
theorem broadcast_error_iff_unserializable {Payload : Type}
    (marshal : Payload → Except String Bytes) (now : Time) (msgType : MessageType)
    (data : Payload) (s : State) :
    ((∃ e s1, Broadcast marshal now msgType data s = .err e s1) ↔
      ∃ e, marshal data = .error e) ∧
    (∀ e s1, Broadcast marshal now msgType data s = .err e s1 →
      marshal data = .error e ∧ s1 = s) ∧
    (∀ s1, Broadcast marshal now msgType data s = .ok s1 →
      ∃ b, marshal data = .ok b ∧
        s1.hub.broadcast =
          s.hub.broadcast ++ [{ Typ := msgType, Timestamp := now, Data := b }] ∧
        s1.hub.clients = s.hub.clients ∧ s1.chans = s.chans) ∧
    (∀ b, marshal data = .ok b → s.hub.broadcast.length < 256 →
      Broadcast marshal now msgType data s = .ok { s with hub := { s.hub with
        broadcast := s.hub.broadcast ++ [{ Typ := msgType, Timestamp := now, Data := b }] } }) := by
  cases hm : marshal data with
  | error e0 =>
    have hb : Broadcast marshal now msgType data s = .err e0 s := by
      simp only [Broadcast, hm]
    refine ⟨⟨fun _ => ⟨e0, rfl⟩, fun _ => ⟨e0, s, hb⟩⟩, ?_, ?_, ?_⟩
    · intro e s1 h
      rw [hb] at h
      simp only [BroadcastResult.err.injEq] at h
      exact ⟨by rw [h.1], h.2.symm⟩
    · intro s1 h
      rw [hb] at h
      simp at h
    · intro b h
      simp at h
  | ok b0 =>
    have hb : Broadcast marshal now msgType data s =
        match sendBroadcast { Typ := msgType, Timestamp := now, Data := b0 } s with
        | some s1 => .ok s1
        | none => .waiting s := by
      simp only [Broadcast, hm]
    refine ⟨⟨?_, ?_⟩, ?_, ?_, ?_⟩
    · rintro ⟨e, s1, h⟩
      rw [hb] at h
      split at h <;> simp at h
    · rintro ⟨e, h⟩
      simp at h
    · intro e s1 h
      rw [hb] at h
      split at h <;> simp at h
    · intro s1 h
      rw [hb] at h
      split at h
      · rename_i s2 hs2
        simp only [BroadcastResult.ok.injEq] at h
        subst h
        obtain ⟨_, heq⟩ := sendBroadcast_eq_some hs2
        subst heq
        exact ⟨b0, rfl, rfl, rfl, rfl⟩
      · simp at h
    · intro b hbeq hlt
      simp only [Except.ok.injEq] at hbeq
      subst hbeq
      rw [hb]
      have hlt1 : s.hub.broadcast.length < broadcastCap := hlt
      simp only [sendBroadcast, hlt1, if_true]

/-- On the example state: payload 0 is refused and nothing is enqueued,
payload 42 is enqueued as a telemetry message. -/
theorem broadcast_error_iff_unserializable_witness :
    ((∃ e s1, Broadcast marshalNat 5 MessageTypeTelemetry 0 stateAB = .err e s1) ↔
      ∃ e, marshalNat 0 = .error e) ∧
    (∃ e, marshalNat 0 = .error e) ∧
    Broadcast marshalNat 5 MessageTypeTelemetry 42 stateAB = .ok { stateAB with hub :=
      { stateAB.hub with broadcast := stateAB.hub.broadcast ++
        [{ Typ := MessageTypeTelemetry, Timestamp := 5, Data := [42] }] } } :=
  ⟨(broadcast_error_iff_unserializable marshalNat 5 MessageTypeTelemetry 0 stateAB).1,
   ⟨"unsupported value", rfl⟩,
   (broadcast_error_iff_unserializable marshalNat 5 MessageTypeTelemetry 42 stateAB).2.2.2
     [42] rfl (by decide)⟩

/-! ## End-to-end scenario -/

/-- C8: start from a new hub and any heap in which the mailbox of client `A`
is a fresh one (empty, open, capacity 64).  Registering `A`, calling
`Broadcast` with type telemetry and a payload that serializes to `b`, and
dispatching the queued message all complete, and afterwards the mailbox of
`A` holds exactly one message, of type "telemetry" and with data `b`; the
broadcast queue is empty again. -/
theorem single_client_receives_telemetry {Payload : Type}
    (marshal : Payload → Except String Bytes) (now : Time) (p : Payload) (b : Bytes)
    (A : Client) (chans : ChanRef → Chan)
    (hbox : chans A.Send = newMailbox) (hp : marshal p = .ok b) :
    ∃ s1 s2 s3,
      Run [.register A] { hub := NewHub, chans := chans } = .next s1 ∧
      Broadcast marshal now MessageTypeTelemetry p s1 = .ok s2 ∧
      Run [.broadcast] s2 = .next s3 ∧
      (s3.chans A.Send).buf = [{ Typ := "telemetry", Timestamp := now, Data := b }] ∧
      s3.hub.broadcast = [] ∧
      s3.hub.clients = [(A.ID, A)] := by
  refine ⟨{ hub := { clients := [(A.ID, A)], broadcast := [] }, chans := chans },
    { hub := { clients := [(A.ID, A)],
               broadcast := [{ Typ := MessageTypeTelemetry, Timestamp := now, Data := b }] },
      chans := chans },
    ({ hub := { clients := [(A.ID, A)], broadcast := [] }, chans := chans } : State).setChan
      A.Send (newMailbox.push { Typ := MessageTypeTelemetry, Timestamp := now, Data := b }),
    rfl, ?_, ?_, ?_, rfl, rfl⟩
  · simp only [Broadcast, hp, sendBroadcast, broadcastCap]
    rfl
  · simp only [Run, iteration, broadcastCase, dispatch, fanOut, hbox]
    rfl
  · simp [Chan.push, newMailbox, MessageTypeTelemetry]

/-- The scenario with the client built by `HandleWebSocket` and payload 42. -/
theorem single_client_receives_telemetry_witness :
    ∃ s1 s2 s3,
      Run [.register clientW] { hub := NewHub, chans := heapW } = .next s1 ∧
      Broadcast marshalNat 5 MessageTypeTelemetry 42 s1 = .ok s2 ∧
      Run [.broadcast] s2 = .next s3 ∧
      (s3.chans clientW.Send).buf = [{ Typ := "telemetry", Timestamp := 5, Data := [42] }] ∧
      s3.hub.broadcast = [] ∧
      s3.hub.clients = [(clientW.ID, clientW)] :=
  single_client_receives_telemetry marshalNat 5 42 [42] clientW heapW (by decide) rfl

/-! ## Shutdown -/

/-- A cancellation round never goes round again: `Run` ends with its outcome. -/
theorem Run_ctxDone (es : List Event) (s : State) :
    Run (.ctxDone :: es) s = ctxDoneCase s := by
  simp only [Run, iteration]
  cases h : ctxDoneCase s with
  | next s1 => exact absurd h (closeAll_ne_next _ _ _)
  | returned s1 => rfl
  | panicked k s1 => rfl
  | blocked s1 => rfl

theorem closeAll_returned_hub :
    ∀ (l : List (UUID × Client)) (s s1 : State), closeAll l s = .returned s1 →
      s1.hub = s.hub := by
  intro l
  induction l with
  | nil =>
    intro s s1 h
    simp only [closeAll, Outcome.returned.injEq] at h
    rw [h]
  | cons kc rest ih =>
    intro s s1 h
    obtain ⟨k, c⟩ := kc
    simp only [closeAll] at h
    split at h
    · simp at h
    · rw [ih _ _ h]
      rfl

/-- Closing over entries whose mailboxes are open and pairwise distinct ends
with a return and has closed each of them. -/
theorem closeAll_open :
    ∀ (l : List (UUID × Client)) (s : State),
      (∀ kc ∈ l, (s.chans kc.2.Send).closed = false) →
      (sendRefs l).Nodup →
      ∃ s1, closeAll l s = .returned s1 ∧ s1.hub = s.hub ∧
        ∀ r, s1.chans r = if r ∈ sendRefs l then (s.chans r).close else s.chans r := by
  intro l
  induction l with
  | nil =>
    intro s _ _
    exact ⟨s, rfl, rfl, fun r => by simp [sendRefs]⟩
  | cons kc rest ih =>
    intro s hopen hnd
    obtain ⟨k, c⟩ := kc
    have hc := hopen (k, c) (List.mem_cons_self _ _)
    simp only [sendRefs, List.map_cons, List.nodup_cons] at hnd
    obtain ⟨hnotin, hnd1⟩ := hnd
    have hrest : ∀ kc ∈ rest,
        ((s.setChan c.Send (s.chans c.Send).close).chans kc.2.Send).closed = false := by
      intro kc hkc
      have hne : kc.2.Send ≠ c.Send := by
        intro heq
        exact hnotin (heq ▸ List.mem_map_of_mem (fun kc => kc.2.Send) hkc)
      rw [setChan_other _ _ _ _ hne]
      exact hopen kc (List.mem_cons_of_mem _ hkc)
    obtain ⟨s1, hrun, hhub, hch⟩ := ih _ hrest hnd1
    refine ⟨s1, ?_, ?_, ?_⟩
    · have hstep : closeAll ((k, c) :: rest) s =
          closeAll rest (s.setChan c.Send (s.chans c.Send).close) := by
        show (if (s.chans c.Send).closed = true then _ else _) = _
        rw [if_neg (by simp [hc])]
        rfl
      rw [hstep]
      exact hrun
    · rw [hhub]; rfl
    · intro r
      rw [hch r]
      by_cases hr : r = c.Send
      · subst hr
        have h1 : ¬ c.Send ∈ sendRefs rest := hnotin
        have h2 : c.Send ∈ sendRefs ((k, c) :: rest) := by simp [sendRefs]
        rw [if_neg h1, if_pos h2, setChan_same]
      · have hiff : (r ∈ sendRefs ((k, c) :: rest)) ↔ (r ∈ sendRefs rest) := by
          simp [sendRefs, hr]
        simp only [hiff, setChan_other _ _ _ _ hr]

theorem Broadcast_of_error {Payload : Type} (marshal : Payload → Except String Bytes)
    (now : Time) (msgType : MessageType) (data : Payload) (s : State) (e : String)
    (h : marshal data = .error e) : Broadcast marshal now msgType data s = .err e s := by
  simp only [Broadcast, h]

theorem Broadcast_of_room {Payload : Type} (marshal : Payload → Except String Bytes)
    (now : Time) (msgType : MessageType) (data : Payload) (s : State) (b : Bytes)
    (h : marshal data = .ok b) (hroom : s.hub.broadcast.length < broadcastCap) :
    Broadcast marshal now msgType data s = .ok { s with hub := { s.hub with
      broadcast := s.hub.broadcast ++ [{ Typ := msgType, Timestamp := now, Data := b }] } } := by
  simp only [Broadcast, h, sendBroadcast, hroom, if_true]

/-- C9, as stated, fails: after the dispatch loop has returned on cancellation
(example state with two clients), a call to `Broadcast` with an encodable
payload returns nil, not an error, and its message is put on the queue. -/
theorem broadcast_after_shutdown_returns_nil :
    (Run [.ctxDone] stateAB).isReturned = true ∧
    (Broadcast marshalNat 5 MessageTypeTelemetry 42 (Run [.ctxDone] stateAB).state).isErr
      = false ∧
    (Broadcast marshalNat 5 MessageTypeTelemetry 42 (Run [.ctxDone] stateAB).state).isOk
      = true ∧
    (Broadcast marshalNat 5 MessageTypeTelemetry 42
        (Run [.ctxDone] stateAB).state).state.hub.broadcast
      = [{ Typ := MessageTypeTelemetry, Timestamp := 5, Data := [42] }] := by
  decide

/-- C9, amended: `Broadcast` does not look at shutdown.  On the state in which
the dispatch loop returned after cancellation the queue is the one the loop
found, and `Broadcast` returns the serializer's error, enqueuing nothing,
when the payload cannot be encoded; when the payload encodes to `b` and that
queue holds fewer than 256 messages, it appends the message at its tail and
returns nil. -/
theorem broadcast_after_shutdown_still_enqueues {Payload : Type}
    (marshal : Payload → Except String Bytes) (now : Time) (msgType : MessageType)
    (data : Payload) (es : List Event) (s s1 : State)
    (hdone : Run (.ctxDone :: es) s = .returned s1) :
    s1.hub = s.hub ∧
    (∀ e, marshal data = .error e → Broadcast marshal now msgType data s1 = .err e s1) ∧
    (∀ b, marshal data = .ok b → s.hub.broadcast.length < 256 →
      Broadcast marshal now msgType data s1 = .ok { s1 with hub := { s1.hub with
        broadcast := s.hub.broadcast ++
          [{ Typ := msgType, Timestamp := now, Data := b }] } }) := by
  rw [Run_ctxDone] at hdone
  have hhub : s1.hub = s.hub := closeAll_returned_hub _ _ _ hdone
  refine ⟨hhub, fun e he => Broadcast_of_error marshal now msgType data s1 e he, ?_⟩
  intro b hb hroom
  rw [← hhub] at hroom ⊢
  exact Broadcast_of_room marshal now msgType data s1 b hb hroom

/-- After cancellation in the two-client example state, payload 42 is enqueued. -/
theorem broadcast_after_shutdown_still_enqueues_witness :
    (Run [.ctxDone, .tick 3] stateAB).state.hub = stateAB.hub ∧
    Broadcast marshalNat 5 MessageTypeTelemetry 42 (Run [.ctxDone, .tick 3] stateAB).state =
      .ok { (Run [.ctxDone, .tick 3] stateAB).state with
        hub := { (Run [.ctxDone, .tick 3] stateAB).state.hub with
          broadcast := stateAB.hub.broadcast ++
            [{ Typ := MessageTypeTelemetry, Timestamp := 5, Data := [42] }] } } :=
  have h := broadcast_after_shutdown_still_enqueues marshalNat 5 MessageTypeTelemetry 42
    [.tick 3] stateAB (Run [.ctxDone, .tick 3] stateAB).state (by
      rw [Run_ctxDone]
      obtain ⟨s1, h1, _⟩ := closeAll_open stateAB.hub.clients stateAB (by decide) (by decide)
      simp only [ctxDoneCase, h1, Outcome.state])
  ⟨h.1, h.2.2 [42] rfl (by decide)⟩

/-- C10: in a hub state where every registered mailbox is open and belongs to
one registry entry only, the cancellation step closes each registered mailbox
(once: a second close would panic), keeps its contents, touches no other
mailbox, leaves the registry and the queue as they are, and `Run` returns;
whatever events would follow, none is processed: the result of `Run` is the
state reached by the cancellation step. -/
theorem cancellation_closes_mailboxes_and_stops (s : State)
    (hopen : ∀ kc ∈ s.hub.clients, (s.chans kc.2.Send).closed = false)
    (hnd : (sendRefs s.hub.clients).Nodup) :
    ∃ s1, (∀ es, Run (.ctxDone :: es) s = .returned s1) ∧
      s1.hub = s.hub ∧
      (∀ kc ∈ s.hub.clients,
        (s1.chans kc.2.Send).closed = true ∧
        (s1.chans kc.2.Send).buf = (s.chans kc.2.Send).buf ∧
        (s1.chans kc.2.Send).cap = (s.chans kc.2.Send).cap) ∧
      (∀ r, r ∉ sendRefs s.hub.clients → s1.chans r = s.chans r) := by
  obtain ⟨s1, hrun, hhub, hch⟩ := closeAll_open s.hub.clients s hopen hnd
  refine ⟨s1, ?_, hhub, ?_, ?_⟩
  · intro es
    rw [Run_ctxDone]
    exact hrun
  · intro kc hkc
    have hin : kc.2.Send ∈ sendRefs s.hub.clients :=
      List.mem_map_of_mem (fun kc => kc.2.Send) hkc
    rw [hch, if_pos hin]
    exact ⟨rfl, rfl, rfl⟩
  · intro r hr
    rw [hch, if_neg hr]

/-- Cancellation in the two-client example state. -/
theorem cancellation_closes_mailboxes_and_stops_witness :
    ∃ s1, (∀ es, Run (.ctxDone :: es) stateAB = .returned s1) ∧
      s1.hub = stateAB.hub ∧
      (∀ kc ∈ stateAB.hub.clients,
        (s1.chans kc.2.Send).closed = true ∧
        (s1.chans kc.2.Send).buf = (stateAB.chans kc.2.Send).buf ∧
        (s1.chans kc.2.Send).cap = (stateAB.chans kc.2.Send).cap) ∧
      (∀ r, r ∉ sendRefs stateAB.hub.clients → s1.chans r = stateAB.chans r) :=
  cancellation_closes_mailboxes_and_stops stateAB (by decide) (by decide)

/-! ## Lifecycle of registry entries and mailboxes -/

theorem mapGet_some_mem {id : UUID} {c : Client} :
    ∀ l : List (UUID × Client), mapGet l id = some c → (id, c) ∈ l := by
  intro l
  induction l with
  | nil => intro h; simp [mapGet] at h
  | cons kc rest ih =>
    intro h
    obtain ⟨k, c0⟩ := kc
    by_cases hk : k = id
    · simp only [mapGet, hk, if_true, Option.some.injEq] at h
      rw [hk, h]
      exact List.mem_cons_self _ _
    · simp only [mapGet, hk, if_false] at h
      exact List.mem_cons_of_mem _ (ih h)

theorem mapGet_none_of_no_key {id : UUID} :
    ∀ l : List (UUID × Client), (∀ kc ∈ l, kc.1 ≠ id) → mapGet l id = none := by
  intro l
  induction l with
  | nil => intro _; rfl
  | cons kc rest ih =>
    intro h
    obtain ⟨k, c0⟩ := kc
    have hk : ¬ k = id := h (k, c0) (List.mem_cons_self _ _)
    simp only [mapGet, hk, if_false]
    exact ih (fun kc hkc => h kc (List.mem_cons_of_mem _ hkc))

theorem mapGet_of_mem {id : UUID} {c : Client} :
    ∀ l : List (UUID × Client), KeysNodup l → (id, c) ∈ l → mapGet l id = some c := by
  intro l
  induction l with
  | nil => intro _ h; simp at h
  | cons kc rest ih =>
    intro hnd h
    obtain ⟨k, c0⟩ := kc
    unfold KeysNodup at hnd ih
    simp only [List.map_cons, List.nodup_cons] at hnd
    rcases List.mem_cons.mp h with heq | hin
    · simp only [Prod.mk.injEq] at heq
      simp [mapGet, heq.1, heq.2]
    · have hk : ¬ k = id := by
        intro hk
        apply hnd.1
        rw [hk]
        exact List.mem_map_of_mem Prod.fst hin
      simp only [mapGet, hk, if_false]
      exact ih hnd.2 hin

theorem mapSet_absent (id : UUID) (c : Client) :
    ∀ l : List (UUID × Client), mapGet l id = none → mapSet l id c = l ++ [(id, c)] := by
  intro l
  induction l with
  | nil => intro _; rfl
  | cons kc rest ih =>
    intro h
    obtain ⟨k, c0⟩ := kc
    by_cases hk : k = id
    · simp [mapGet, hk] at h
    · simp only [mapGet, hk, if_false] at h
      simp only [mapSet, hk, if_false, ih h, List.cons_append]

theorem mapGet_append_new (id id1 : UUID) (c : Client) :
    ∀ l : List (UUID × Client), mapGet l id = none →
      mapGet (l ++ [(id, c)]) id1 = if id1 = id then some c else mapGet l id1 := by
  intro l
  induction l with
  | nil =>
    intro _
    by_cases h1 : id1 = id
    · simp [mapGet, h1]
    · have h2 : ¬ id = id1 := fun h => h1 h.symm
      simp [mapGet, h1, h2]
  | cons kc rest ih =>
    intro h
    obtain ⟨k, c0⟩ := kc
    by_cases hk : k = id
    · simp [mapGet, hk] at h
    · simp only [mapGet, hk, if_false] at h
      by_cases hk1 : k = id1
      · have h1 : ¬ id1 = id := fun h1 => hk (hk1.trans h1)
        simp [mapGet, hk1, h1]
      · simp only [List.cons_append, mapGet, hk1, if_false]
        exact ih h

theorem keysNodup_append_new (id : UUID) (c : Client) (l : List (UUID × Client))
    (hnd : KeysNodup l) (habs : ∀ kc ∈ l, kc.1 ≠ id) : KeysNodup (l ++ [(id, c)]) := by
  unfold KeysNodup at hnd ⊢
  rw [List.map_append, List.nodup_append]
  refine ⟨hnd, by simp, ?_⟩
  intro a ha hb
  simp only [List.map_cons, List.map_nil, List.mem_singleton] at hb
  obtain ⟨kc, hkc, hfst⟩ := List.mem_map.mp ha
  exact habs kc hkc (hfst.trans hb)

theorem keysNodup_mapDelete (id : UUID) (l : List (UUID × Client)) (hnd : KeysNodup l) :
    KeysNodup (mapDelete l id) := by
  unfold KeysNodup mapDelete at *
  exact List.Nodup.sublist (List.Sublist.map _ (List.filter_sublist l)) hnd

theorem mem_mapDelete {id : UUID} {l : List (UUID × Client)} {kc : UUID × Client} :
    kc ∈ mapDelete l id ↔ kc ∈ l ∧ kc.1 ≠ id := by
  unfold mapDelete
  rw [List.mem_filter]
  simp

/-- The fan-out loop, however it ends, leaves the hub, and the open status
and capacity of every channel, as they were. -/
theorem fanOut_frame (m : Message) :
    ∀ (l : List (UUID × Client)) (s : State),
      (fanOut m l s).state.hub = s.hub ∧
      ∀ r, ((fanOut m l s).state.chans r).closed = (s.chans r).closed ∧
        ((fanOut m l s).state.chans r).cap = (s.chans r).cap := by
  intro l
  induction l with
  | nil => intro s; exact ⟨rfl, fun r => ⟨rfl, rfl⟩⟩
  | cons kc rest ih =>
    intro s
    obtain ⟨k, c⟩ := kc
    simp only [fanOut]
    split
    · exact ⟨rfl, fun r => ⟨rfl, rfl⟩⟩
    · split
      · obtain ⟨hhub, hch⟩ := ih (s.setChan c.Send
          { buf := (s.chans c.Send).buf ++ [m], closed := (s.chans c.Send).closed,
            cap := (s.chans c.Send).cap })
        refine ⟨by rw [hhub]; rfl, fun r => ?_⟩
        rw [(hch r).1, (hch r).2, setChan_chans]
        by_cases hr : r = c.Send
        · subst hr; simp
        · simp [hr]
      · exact ⟨rfl, fun r => ⟨rfl, rfl⟩⟩

/-- A fan-out over open mailboxes does not panic. -/
theorem fanOut_no_panic (m : Message) :
    ∀ (l : List (UUID × Client)) (s : State),
      (∀ kc ∈ l, (s.chans kc.2.Send).closed = false) →
      ∀ k s1, fanOut m l s ≠ .panicked k s1 := by
  intro l
  induction l with
  | nil => intro s _ k s1 h; simp [fanOut] at h
  | cons kc rest ih =>
    intro s hopen k s1 h
    obtain ⟨k0, c⟩ := kc
    have hc := hopen (k0, c) (List.mem_cons_self _ _)
    simp only [fanOut] at h
    split at h
    · rename_i hcl
      simp only at hc
      rw [hc] at hcl
      exact absurd hcl (by simp)
    · split at h
      · refine ih _ ?_ k s1 h
        intro kc hkc
        rw [setChan_chans]
        by_cases hr : kc.2.Send = c.Send
        · simp only [hr, if_true]
          exact hc
        · simp only [hr, if_false]
          exact hopen kc (List.mem_cons_of_mem _ hkc)
      · simp at h

theorem Lifecycle.of_same {done : List Client} {s s1 : State} (h : Lifecycle done s)
    (hcl : s1.hub.clients = s.hub.clients)
    (hch : ∀ r, (s1.chans r).closed = (s.chans r).closed) : Lifecycle done s1 := by
  refine ⟨?_, ?_, ?_⟩
  · rw [hcl]; exact h.entries
  · rw [hcl]; exact h.keys
  · intro c hc
    rw [hcl, hch]
    exact h.live c hc

theorem Lifecycle.congr {d1 d2 : List Client} {s : State} (h : Lifecycle d1 s)
    (hmem : ∀ c, c ∈ d2 ↔ c ∈ d1) : Lifecycle d2 s :=
  ⟨fun kc hkc => ⟨(hmem _).mpr (h.entries kc hkc).1, (h.entries kc hkc).2⟩, h.keys,
    fun c hc => h.live c ((hmem c).mp hc)⟩

/-- Under the lifecycle invariant every registered mailbox is open. -/
theorem Lifecycle.registry_open {done : List Client} {s : State} (h : Lifecycle done s) :
    ∀ kc ∈ s.hub.clients, (s.chans kc.2.Send).closed = false := by
  intro kc hkc
  obtain ⟨hdone, hkey⟩ := h.entries kc hkc
  apply (h.live kc.2 hdone).mpr
  apply mapGet_of_mem _ h.keys
  rw [← hkey]
  exact hkc

/-- Under the lifecycle invariant, with clients that have pairwise distinct
mailboxes, no two registry entries share a mailbox. -/
theorem Lifecycle.sendRefs_nodup {univ done : List Client} {s : State}
    (h : Lifecycle done s) (hsub : ∀ c ∈ done, c ∈ univ)
    (hinjSend : ∀ a ∈ univ, ∀ b ∈ univ, a.Send = b.Send → a = b) :
    (sendRefs s.hub.clients).Nodup := by
  unfold sendRefs
  apply List.Nodup.map_on
  · intro x hx y hy hxy
    obtain ⟨hxd, hxk⟩ := h.entries x hx
    obtain ⟨hyd, hyk⟩ := h.entries y hy
    have h2 : x.2 = y.2 := hinjSend _ (hsub _ hxd) _ (hsub _ hyd) hxy
    apply Prod.ext
    · rw [hxk, hyk, h2]
    · exact h2
  · exact List.Nodup.of_map Prod.fst h.keys

/-- One dispatcher round on a state that obeys the lifecycle invariant, for an
event that registers a client not registered before or unregisters a
handler-made client (or is any other event): the round does not panic, and
when it ends normally the invariant holds again, with the newly registered
client counted in, and the mailboxes of clients still to come stay open. -/
theorem iteration_lifecycle (univ done : List Client) (e : Event) (s : State)
    (hinjID : ∀ a ∈ univ, ∀ b ∈ univ, a.ID = b.ID → a = b)
    (hinjSend : ∀ a ∈ univ, ∀ b ∈ univ, a.Send = b.Send → a = b)
    (hsub : ∀ c ∈ done, c ∈ univ)
    (hinv : Lifecycle done s)
    (hfresh : ∀ c ∈ univ, c ∉ done → (s.chans c.Send).closed = false)
    (hreg : ∀ c ∈ registered [e], c ∈ univ ∧ c ∉ done)
    (hunreg : ∀ c ∈ unregistered [e], c ∈ univ) :
    (∀ k s1, iteration e s ≠ .panicked k s1) ∧
    (∀ s1, iteration e s = .next s1 →
      Lifecycle (registered [e] ++ done) s1 ∧
      ∀ c ∈ univ, c ∉ registered [e] ++ done → (s1.chans c.Send).closed = false) := by
  cases e with
  | ctxDone =>
    obtain ⟨s2, hret, _, _⟩ := closeAll_open s.hub.clients s hinv.registry_open
      (hinv.sendRefs_nodup hsub hinjSend)
    constructor
    · intro k s1 h
      simp only [iteration, ctxDoneCase, hret] at h
      exact absurd h (by simp)
    · intro s1 h
      exact absurd h (closeAll_ne_next _ _ _)
  | register c =>
    obtain ⟨hcu, hcd⟩ := hreg c (by simp [registered])
    have hnokey : ∀ kc ∈ s.hub.clients, kc.1 ≠ c.ID := by
      intro kc hkc hk
      obtain ⟨hd, hkey⟩ := hinv.entries kc hkc
      have : kc.2 = c := hinjID _ (hsub _ hd) _ hcu (hkey.symm.trans hk)
      exact hcd (this ▸ hd)
    have habs : mapGet s.hub.clients c.ID = none := mapGet_none_of_no_key _ hnokey
    constructor
    · intro k s1 h
      simp [iteration, registerCase] at h
    · intro s1 h
      simp only [iteration, registerCase, Outcome.next.injEq] at h
      subst h
      simp only [registered, List.cons_append, List.nil_append]
      refine ⟨⟨?_, ?_, ?_⟩, ?_⟩
      · intro kc hkc
        simp only [mapSet_absent c.ID c _ habs, List.mem_append, List.mem_singleton] at hkc
        rcases hkc with hold | hnew
        · exact ⟨List.mem_cons_of_mem _ (hinv.entries kc hold).1, (hinv.entries kc hold).2⟩
        · subst hnew
          exact ⟨List.mem_cons_self _ _, rfl⟩
      · show KeysNodup (mapSet s.hub.clients c.ID c)
        rw [mapSet_absent c.ID c _ habs]
        exact keysNodup_append_new c.ID c _ hinv.keys hnokey
      · intro x hx
        show (s.chans x.Send).closed = false ↔ mapGet (mapSet s.hub.clients c.ID c) x.ID = some x
        rw [mapSet_absent c.ID c _ habs, mapGet_append_new c.ID x.ID c _ habs]
        rcases List.mem_cons.mp hx with hxc | hxd
        · subst hxc
          simp only [if_true]
          exact ⟨fun _ => trivial, fun _ => hfresh x hcu hcd⟩
        · have hne : ¬ x.ID = c.ID := by
            intro hid
            have : x = c := hinjID _ (hsub _ hxd) _ hcu hid
            exact hcd (this ▸ hxd)
          simp only [hne, if_false]
          exact hinv.live x hxd
      · intro x hxu hx
        exact hfresh x hxu (fun hd => hx (List.mem_cons_of_mem _ hd))
  | unregister c =>
    have hcu : c ∈ univ := hunreg c (by simp [unregistered])
    simp only [registered, List.nil_append]
    cases hget : mapGet s.hub.clients c.ID with
    | none =>
      have hit : iteration (.unregister c) s = .next s := by
        simp only [iteration, unregisterCase, hget]
      rw [hit]
      constructor
      · intro k s1 h; simp at h
      · intro s1 h
        simp only [Outcome.next.injEq] at h
        subst h
        exact ⟨hinv, hfresh⟩
    | some c1 =>
      have hmem := mapGet_some_mem _ hget
      obtain ⟨hc1d, hc1k⟩ := hinv.entries _ hmem
      have hcc : c1 = c := hinjID _ (hsub _ hc1d) _ hcu hc1k.symm
      subst hcc
      have hopen : (s.chans c1.Send).closed = false := (hinv.live c1 hc1d).mpr hget
      have hit : iteration (.unregister c1) s = .next
          (({ s with hub := { s.hub with clients := mapDelete s.hub.clients c1.ID } } :
            State).setChan c1.Send { s.chans c1.Send with closed := true }) := by
        simp only [iteration, unregisterCase, hget]
        rw [if_neg (by simp [hopen])]
      rw [hit]
      constructor
      · intro k s1 h; simp at h
      · intro s1 h
        simp only [Outcome.next.injEq] at h
        subst h
        refine ⟨⟨?_, ?_, ?_⟩, ?_⟩
        · intro kc hkc
          exact hinv.entries kc (mem_mapDelete.mp hkc).1
        · exact keysNodup_mapDelete _ _ hinv.keys
        · intro x hx
          show ((State.setChan _ c1.Send _).chans x.Send).closed = false ↔
            mapGet (mapDelete s.hub.clients c1.ID) x.ID = some x
          by_cases hxc : x = c1
          · subst hxc
            rw [setChan_same, mapGet_mapDelete_self]
            simp
          · have hs : x.Send ≠ c1.Send := fun h => hxc (hinjSend _ (hsub _ hx) _ hcu h)
            have hi : x.ID ≠ c1.ID := fun h => hxc (hinjID _ (hsub _ hx) _ hcu h)
            rw [setChan_other _ _ _ _ hs, mapGet_mapDelete_other _ _ hi]
            exact hinv.live x hx
        · intro x hxu hx
          have hxc : x ≠ c1 := fun h => hx (h ▸ hc1d)
          have hs : x.Send ≠ c1.Send := fun h => hxc (hinjSend _ hxu _ hcu h)
          rw [setChan_other _ _ _ _ hs]
          exact hfresh x hxu hx
  | broadcast =>
    simp only [registered, List.nil_append]
    cases hq : s.hub.broadcast with
    | nil =>
      have hit : iteration .broadcast s = .next s := by
        simp only [iteration, broadcastCase, hq]
      rw [hit]
      constructor
      · intro k s1 h; simp at h
      · intro s1 h
        simp only [Outcome.next.injEq] at h
        subst h
        exact ⟨hinv, hfresh⟩
    | cons m q =>
      have hit : iteration .broadcast s =
          fanOut m s.hub.clients { s with hub := { s.hub with broadcast := q } } := by
        simp only [iteration, broadcastCase, hq, dispatch]
      rw [hit]
      obtain ⟨hhub, hch⟩ := fanOut_frame m s.hub.clients
        { s with hub := { s.hub with broadcast := q } }
      constructor
      · exact fanOut_no_panic m _ _ hinv.registry_open
      · intro s1 h
        rw [h] at hhub hch
        simp only [Outcome.state] at hhub hch
        constructor
        · apply hinv.of_same
          · rw [hhub]
          · intro r; exact (hch r).1
        · intro x hxu hx
          rw [(hch x.Send).1]
          exact hfresh x hxu hx
  | tick now =>
    simp only [registered, List.nil_append]
    constructor
    · intro k s1 h
      simp only [iteration, tickCase, BroadcastPing] at h
      split at h <;> simp at h
    · intro s1 h
      simp only [iteration, tickCase, BroadcastPing] at h
      split at h
      · rename_i s2 hs2
        simp only [Outcome.next.injEq] at h
        subst h
        obtain ⟨_, heq⟩ := sendBroadcast_eq_some hs2
        subst heq
        exact ⟨hinv.of_same rfl (fun _ => rfl), hfresh⟩
      · simp at h

theorem registered_cons (e : Event) (es : List Event) :
    registered (e :: es) = registered [e] ++ registered es := by
  cases e <;> rfl

theorem unregistered_cons (e : Event) (es : List Event) :
    unregistered (e :: es) = unregistered [e] ++ unregistered es := by
  cases e <;> rfl

/-- Along a run of dispatcher events with handler-made clients, started in a
state that obeys the lifecycle invariant, the dispatcher never panics, and
every state in which the loop goes round again obeys the invariant for the
clients registered so far. -/
theorem Run_lifecycle (univ : List Client)
    (hinjID : ∀ a ∈ univ, ∀ b ∈ univ, a.ID = b.ID → a = b)
    (hinjSend : ∀ a ∈ univ, ∀ b ∈ univ, a.Send = b.Send → a = b) :
    ∀ (es : List Event) (done : List Client) (s : State),
      (∀ c ∈ done, c ∈ univ) → Lifecycle done s →
      (∀ c ∈ univ, c ∉ done → (s.chans c.Send).closed = false) →
      (∀ c ∈ registered es, c ∈ univ) → (registered es ++ done).Nodup →
      (∀ c ∈ unregistered es, c ∈ univ) →
      (∀ k s1, Run es s ≠ .panicked k s1) ∧
      (∀ s1, Run es s = .next s1 → Lifecycle (registered es ++ done) s1) := by
  intro es
  induction es with
  | nil =>
    intro done s _ hinv _ _ _ _
    constructor
    · intro k s1 h; simp [Run] at h
    · intro s1 h
      simp only [Run, Outcome.next.injEq] at h
      subst h
      exact hinv
  | cons e rest ih =>
    intro done s hsub hinv hfresh hregs hnd hunregs
    rw [registered_cons] at hregs hnd
    rw [unregistered_cons] at hunregs
    have hreg0 : ∀ c ∈ registered [e], c ∈ univ ∧ c ∉ done := by
      intro c hc
      refine ⟨hregs c (List.mem_append_left _ hc), fun hd => ?_⟩
      exact (List.nodup_append.mp hnd).2.2 (List.mem_append_left _ hc) hd
    have hunreg0 : ∀ c ∈ unregistered [e], c ∈ univ :=
      fun c hc => hunregs c (List.mem_append_left _ hc)
    obtain ⟨hnp, hnext⟩ := iteration_lifecycle univ done e s hinjID hinjSend hsub hinv hfresh
      hreg0 hunreg0
    have hnd1 : (registered rest ++ (registered [e] ++ done)).Nodup := by
      rw [← List.append_assoc]
      exact (List.Perm.nodup_iff (List.Perm.append_right done List.perm_append_comm)).mp hnd
    cases hit : iteration e s with
    | next s1 =>
      obtain ⟨hinv1, hfresh1⟩ := hnext s1 hit
      have hsub1 : ∀ c ∈ registered [e] ++ done, c ∈ univ := by
        intro c hc
        rcases List.mem_append.mp hc with h1 | h2
        · exact (hreg0 c h1).1
        · exact hsub c h2
      obtain ⟨hnp2, hnext2⟩ := ih (registered [e] ++ done) s1 hsub1 hinv1 hfresh1
        (fun c hc => hregs c (List.mem_append_right _ hc)) hnd1
        (fun c hc => hunregs c (List.mem_append_right _ hc))
      have hrun : Run (e :: rest) s = Run rest s1 := by
        simp only [Run, hit]
      rw [hrun, registered_cons]
      refine ⟨hnp2, fun s2 h2 => (hnext2 s2 h2).congr ?_⟩
      intro c
      simp only [List.mem_append]
      tauto
    | returned s1 =>
      have hrun : Run (e :: rest) s = .returned s1 := by
        simp only [Run, hit]
      rw [hrun]
      exact ⟨fun k s2 h => by simp at h, fun s2 h => by simp at h⟩
    | panicked k s1 => exact absurd hit (hnp k s1)
    | blocked s1 =>
      have hrun : Run (e :: rest) s = .blocked s1 := by
        simp only [Run, hit]
      rw [hrun]
      exact ⟨fun k s2 h => by simp at h, fun s2 h => by simp at h⟩

/-- The lifecycle invariant at the start: an empty registry and no client
registered yet. -/
theorem Lifecycle.initial (s : State) (h : s.hub.clients = []) : Lifecycle [] s := by
  refine ⟨?_, ?_, ?_⟩
  · intro kc hkc; rw [h] at hkc; simp at hkc
  · rw [h]; unfold KeysNodup; simp
  · intro c hc; simp at hc

/-- C11: for every sequence of dispatcher events in which the registered
clients have pairwise distinct identities and mailboxes and every unregister
names one of them (any number of times, in any position), started from a hub
with an empty registry and with the mailboxes of these clients open, the
dispatcher never panics; in particular it never closes a mailbox that is
already closed, neither in an unregister step nor in the cancellation step. -/
theorem dispatcher_never_closes_twice (es : List Event) (s0 : State)
    (hnew : s0.hub.clients = [])
    (hfresh : FreshClients es)
    (hopen : ∀ c ∈ registered es, (s0.chans c.Send).closed = false) :
    (∀ s, Run es s0 ≠ .panicked .closeOfClosedChannel s) ∧
    (∀ k s, Run es s0 ≠ .panicked k s) := by
  obtain ⟨hid, hsend, hun⟩ := hfresh
  have h := (Run_lifecycle (registered es)
    (fun a ha b hb hab => List.inj_on_of_nodup_map hid ha hb hab)
    (fun a ha b hb hab => List.inj_on_of_nodup_map hsend ha hb hab)
    es [] s0 (by simp) (Lifecycle.initial s0 hnew) (fun c hc _ => hopen c hc)
    (fun c hc => hc) (by simpa using List.Nodup.of_map _ hid) hun).1
  exact ⟨fun s => h _ s, h⟩

/-- The example history from a new hub never panics. -/
theorem dispatcher_never_closes_twice_witness :
    (∀ s, Run historyAB stateNew ≠ .panicked .closeOfClosedChannel s) ∧
    (∀ k s, Run historyAB stateNew ≠ .panicked k s) :=
  dispatcher_never_closes_twice historyAB stateNew (by decide) (by decide) (by decide)

/-- C12, as stated, fails: after client A has registered and the hub has been
cancelled, the mailbox of A is closed and A is still in the registry. -/
theorem closed_mailbox_still_registered_after_cancel :
    (Run [.register clientA, .ctxDone] stateNew).isReturned = true ∧
    mapGet (Run [.register clientA, .ctxDone] stateNew).state.hub.clients clientA.ID
      = some clientA ∧
    ((Run [.register clientA, .ctxDone] stateNew).state.chans clientA.Send).closed = true := by
  decide

/-- C12, amended: in every state the dispatch loop reaches, before
cancellation, from a hub with an empty registry by register, unregister,
broadcast-dispatch and tick events (handler-made clients, their mailboxes
open at the start), a client that has been registered is in the registry
exactly when its mailbox is open, and the registry holds registered clients
only, each under its own id.  The cancellation step then closes the mailbox
of every client that has been registered and still open, and removes nobody
from the registry. -/
theorem registry_tracks_open_mailboxes (es : List Event) (s0 s : State)
    (hnew : s0.hub.clients = [])
    (hfresh : FreshClients es)
    (hopen : ∀ c ∈ registered es, (s0.chans c.Send).closed = false)
    (hrun : Run es s0 = .next s) :
    (∀ c ∈ registered es,
      mapGet s.hub.clients c.ID = some c ↔ (s.chans c.Send).closed = false) ∧
    (∀ kc ∈ s.hub.clients, kc.2 ∈ registered es ∧ kc.1 = kc.2.ID) ∧
    ∃ s1, iteration .ctxDone s = .returned s1 ∧ s1.hub.clients = s.hub.clients ∧
      ∀ c ∈ registered es, (s1.chans c.Send).closed = true := by
  obtain ⟨hid, hsend, hun⟩ := hfresh
  have hinjSend : ∀ a ∈ registered es, ∀ b ∈ registered es, a.Send = b.Send → a = b :=
    fun a ha b hb hab => List.inj_on_of_nodup_map hsend ha hb hab
  have hlc0 := (Run_lifecycle (registered es)
    (fun a ha b hb hab => List.inj_on_of_nodup_map hid ha hb hab) hinjSend
    es [] s0 (by simp) (Lifecycle.initial s0 hnew) (fun c hc _ => hopen c hc)
    (fun c hc => hc) (by simpa using List.Nodup.of_map _ hid) hun).2 s hrun
  have hlc : Lifecycle (registered es) s := hlc0.congr (by simp)
  obtain ⟨s1, hret, hhub, hch⟩ := closeAll_open s.hub.clients s hlc.registry_open
    (hlc.sendRefs_nodup (fun c hc => hc) hinjSend)
  refine ⟨fun c hc => (hlc.live c hc).symm, hlc.entries, s1, hret, by rw [hhub], ?_⟩
  intro c hc
  rw [hch]
  by_cases hin : c.Send ∈ sendRefs s.hub.clients
  · rw [if_pos hin]; rfl
  · rw [if_neg hin]
    cases hcl : (s.chans c.Send).closed with
    | true => rfl
    | false =>
      exfalso
      apply hin
      have hmem := mapGet_some_mem _ ((hlc.live c hc).mp hcl)
      exact List.mem_map_of_mem (fun kc => kc.2.Send) hmem

/-- The example history before cancellation: B is registered and open, A is
unregistered and closed. -/
theorem registry_tracks_open_mailboxes_witness :
    ∃ s, Run historyABlive stateNew = .next s ∧
      (∀ c ∈ registered historyABlive,
        mapGet s.hub.clients c.ID = some c ↔ (s.chans c.Send).closed = false) ∧
      (∀ kc ∈ s.hub.clients, kc.2 ∈ registered historyABlive ∧ kc.1 = kc.2.ID) ∧
      ∃ s1, iteration .ctxDone s = .returned s1 ∧ s1.hub.clients = s.hub.clients ∧
        ∀ c ∈ registered historyABlive, (s1.chans c.Send).closed = true := by
  have hex : ∃ s, Run historyABlive stateNew = .next s := by
    have hn : (Run historyABlive stateNew).isNext = true := by decide
    cases h : Run historyABlive stateNew with
    | next s => exact ⟨s, rfl⟩
    | returned s => rw [h] at hn; exact absurd hn (by simp [Outcome.isNext])
    | panicked k s => rw [h] at hn; exact absurd hn (by simp [Outcome.isNext])
    | blocked s => rw [h] at hn; exact absurd hn (by simp [Outcome.isNext])
  obtain ⟨s, hs⟩ := hex
  exact ⟨s, hs, registry_tracks_open_mailboxes historyABlive stateNew s (by decide)
    (by decide) (by decide) hs⟩

/-! ## Bounds on mailboxes and on the broadcast queue -/

/-- The closing loop, however it ends, leaves the hub and the contents and
capacity of every channel as they were. -/
theorem closeAll_frame :
    ∀ (l : List (UUID × Client)) (s : State),
      (closeAll l s).state.hub = s.hub ∧
      ∀ r, ((closeAll l s).state.chans r).buf = (s.chans r).buf ∧
        ((closeAll l s).state.chans r).cap = (s.chans r).cap := by
  intro l
  induction l with
  | nil => intro s; exact ⟨rfl, fun r => ⟨rfl, rfl⟩⟩
  | cons kc rest ih =>
    intro s
    obtain ⟨k, c⟩ := kc
    simp only [closeAll]
    split
    · exact ⟨rfl, fun r => ⟨rfl, rfl⟩⟩
    · obtain ⟨hhub, hch⟩ := ih (s.setChan c.Send
        { buf := (s.chans c.Send).buf, closed := true, cap := (s.chans c.Send).cap })
      refine ⟨by rw [hhub]; rfl, fun r => ?_⟩
      rw [(hch r).1, (hch r).2, setChan_chans]
      by_cases hr : r = c.Send
      · subst hr; simp
      · simp [hr]

/-- The fan-out loop never changes a mailbox that has no room. -/
theorem fanOut_full (m : Message) (r : ChanRef) :
    ∀ (l : List (UUID × Client)) (s : State),
      ¬ (s.chans r).buf.length < (s.chans r).cap →
      (fanOut m l s).state.chans r = s.chans r := by
  intro l
  induction l with
  | nil => intro s _; rfl
  | cons kc rest ih =>
    intro s hfull
    obtain ⟨k, c⟩ := kc
    simp only [fanOut]
    split
    · rfl
    · split
      · rename_i hroom
        have hne : r ≠ c.Send := by
          intro h
          subst h
          exact hfull hroom
        rw [ih _ (by rw [setChan_other _ _ _ _ hne]; exact hfull), setChan_other _ _ _ _ hne]
      · rfl

/-- The fan-out loop, however it ends, keeps every mailbox within its capacity. -/
theorem fanOut_within_cap (m : Message) (r : ChanRef) :
    ∀ (l : List (UUID × Client)) (s : State),
      (s.chans r).buf.length ≤ (s.chans r).cap →
      ((fanOut m l s).state.chans r).buf.length ≤ (s.chans r).cap := by
  intro l
  induction l with
  | nil => intro s h; exact h
  | cons kc rest ih =>
    intro s h
    obtain ⟨k, c⟩ := kc
    simp only [fanOut]
    split
    · exact h
    · split
      · rename_i hroom
        refine le_trans (ih _ ?_) (le_of_eq ?_)
        · rw [setChan_chans]
          by_cases hr : r = c.Send
          · subst hr
            simp only [if_true, List.length_append, List.length_singleton]
            omega
          · simp only [hr, if_false]
            exact h
        · rw [setChan_chans]
          by_cases hr : r = c.Send
          · subst hr
            simp
          · simp [hr]
      · exact h

/-- One dispatcher round, however it ends, keeps the capacity of every
channel and keeps every channel within its capacity. -/
theorem iteration_within_cap (e : Event) (s : State) (r : ChanRef)
    (h : (s.chans r).buf.length ≤ (s.chans r).cap) :
    ((iteration e s).state.chans r).cap = (s.chans r).cap ∧
    ((iteration e s).state.chans r).buf.length ≤ (s.chans r).cap := by
  cases e with
  | ctxDone =>
    obtain ⟨_, hch⟩ := closeAll_frame s.hub.clients s
    simp only [iteration, ctxDoneCase]
    rw [(hch r).1, (hch r).2]
    exact ⟨rfl, h⟩
  | register c => exact ⟨rfl, h⟩
  | unregister c =>
    have hst : ((iteration (.unregister c) s).state.chans r).buf = (s.chans r).buf ∧
        ((iteration (.unregister c) s).state.chans r).cap = (s.chans r).cap := by
      simp only [iteration, unregisterCase]
      split
      · split
        · exact ⟨rfl, rfl⟩
        · simp only [Outcome.state, setChan_chans]
          by_cases hr : r = c.Send
          · subst hr; simp
          · simp [hr]
      · exact ⟨rfl, rfl⟩
    rw [hst.1, hst.2]
    exact ⟨rfl, h⟩
  | broadcast =>
    simp only [iteration, broadcastCase]
    split
    · exact ⟨rfl, h⟩
    · rename_i m q hq
      simp only [dispatch]
      exact ⟨((fanOut_frame m _ _).2 r).2, fanOut_within_cap m r _ _ h⟩
  | tick now =>
    simp only [iteration, tickCase, BroadcastPing]
    split
    · rename_i s1 hs1
      obtain ⟨_, heq⟩ := sendBroadcast_eq_some hs1
      subst heq
      exact ⟨rfl, h⟩
    · exact ⟨rfl, h⟩

/-- One dispatcher round, however it ends, keeps the broadcast queue within
256 messages. -/
theorem iteration_queue_le (e : Event) (s : State)
    (h : s.hub.broadcast.length ≤ broadcastCap) :
    (iteration e s).state.hub.broadcast.length ≤ broadcastCap := by
  cases e with
  | ctxDone =>
    simp only [iteration, ctxDoneCase]
    rw [(closeAll_frame s.hub.clients s).1]
    exact h
  | register c => exact h
  | unregister c =>
    simp only [iteration, unregisterCase]
    split
    · split <;> exact h
    · exact h
  | broadcast =>
    simp only [iteration, broadcastCase]
    split
    · exact h
    · rename_i m q hq
      simp only [dispatch]
      rw [(fanOut_frame m _ _).1]
      rw [hq] at h
      simp only [List.length_cons] at h
      show q.length ≤ broadcastCap
      omega
  | tick now =>
    simp only [iteration, tickCase, BroadcastPing]
    split
    · rename_i s1 hs1
      obtain ⟨hlt, heq⟩ := sendBroadcast_eq_some hs1
      subst heq
      simp only [Outcome.state, List.length_append, List.length_singleton]
      omega
    · exact h

/-- Along every run of the system each channel keeps its capacity and stays
within it, and the broadcast queue stays within 256 messages. -/
theorem runSystem_bounds (w r : ChanRef) :
    ∀ (steps : List Step) (s : State) (o : Observed),
      runSystem w steps s = some o →
      ((s.chans r).buf.length ≤ (s.chans r).cap →
        (o.final.chans r).cap = (s.chans r).cap ∧
        (o.final.chans r).buf.length ≤ (s.chans r).cap) ∧
      (s.hub.broadcast.length ≤ broadcastCap →
        o.final.hub.broadcast.length ≤ broadcastCap) := by
  intro steps
  induction steps with
  | nil =>
    intro s o h
    simp only [runSystem, Option.some.injEq] at h
    subst h
    exact ⟨fun hb => ⟨rfl, hb⟩, fun hq => hq⟩
  | cons st rest ih =>
    intro s o h
    cases st with
    | dispatcher e =>
      simp only [runSystem] at h
      split at h
      · rename_i s1 hit
        obtain ⟨o1, ho1, ho⟩ := Option.map_eq_some'.mp h
        subst ho
        have hcap := iteration_within_cap e s r
        have hque := iteration_queue_le e s
        rw [hit] at hcap hque
        simp only [Outcome.state] at hcap hque
        obtain ⟨ih1, ih2⟩ := ih s1 o1 ho1
        constructor
        · intro hb
          obtain ⟨hc1, hl1⟩ := hcap hb
          have := ih1 (by rw [hc1]; exact hl1)
          rw [hc1] at this
          exact this
        · intro hq
          exact ih2 (hque hq)
      · simp at h
    | produce m =>
      simp only [runSystem] at h
      split at h
      · rename_i s1 hs1
        obtain ⟨o1, ho1, ho⟩ := Option.map_eq_some'.mp h
        subst ho
        obtain ⟨hlt, heq⟩ := sendBroadcast_eq_some hs1
        subst heq
        obtain ⟨ih1, ih2⟩ := ih _ o1 ho1
        refine ⟨fun hb => ih1 hb, fun _ => ih2 ?_⟩
        simp only [List.length_append, List.length_singleton]
        omega
      · simp at h
    | writerRecv r1 =>
      simp only [runSystem] at h
      split at h
      · simp at h
      · rename_i m tl hbuf
        obtain ⟨o1, ho1, ho⟩ := Option.map_eq_some'.mp h
        obtain ⟨ih1, ih2⟩ := ih _ o1 ho1
        have hfin : o.final = o1.final := by
          split at ho <;> (subst ho; rfl)
        rw [hfin]
        refine ⟨fun hb => ?_, fun hq => ih2 hq⟩
        by_cases hr : r = r1
        · subst hr
          rw [setChan_same] at ih1
          apply ih1
          rw [hbuf] at hb
          simp only [List.length_cons] at hb
          show tl.length ≤ (s.chans r).cap
          omega
        · rw [setChan_other _ _ _ _ hr] at ih1
          exact ih1 hb

/-- C13: a client made by the connection handler starts with an empty, open
mailbox of capacity 64; in every state reached from there by a run of the
system (dispatcher rounds, producers' sends, writers' receives) that mailbox
still has capacity 64 and holds at most 64 messages; the same holds for the
state in which a single dispatcher round ends, however it ends; and the
dispatch of a message leaves a mailbox that already holds 64 messages with
exactly the contents it had. -/
theorem mailbox_holds_at_most_64 (s : State) (id : UUID) (r w : ChanRef)
    (steps : List Step) (m : Message) :
    (HandleWebSocket id r s).2.chans (HandleWebSocket id r s).1.Send
      = { buf := [], closed := false, cap := 64 } ∧
    (∀ o, runSystem w steps (HandleWebSocket id r s).2 = some o →
      (o.final.chans r).cap = 64 ∧ (o.final.chans r).buf.length ≤ 64) ∧
    (∀ e, (s.chans r).cap = 64 → (s.chans r).buf.length ≤ 64 →
      ((iteration e s).state.chans r).cap = 64 ∧
      ((iteration e s).state.chans r).buf.length ≤ 64) ∧
    ((s.chans r).cap = 64 → (s.chans r).buf.length = 64 →
      ((dispatch m s).state.chans r).buf = (s.chans r).buf) := by
  refine ⟨?_, ?_, ?_, ?_⟩
  · simp [HandleWebSocket, newMailbox, sendCap]
  · intro o ho
    have h := (runSystem_bounds w r steps _ o ho).1
    have hbox : (HandleWebSocket id r s).2.chans r = newMailbox := by
      simp [HandleWebSocket]
    rw [hbox] at h
    exact h (by simp [newMailbox])
  · intro e hcap hlen
    have h := iteration_within_cap e s r (by rw [hcap]; exact hlen)
    rw [hcap] at h
    exact h
  · intro hcap hlen
    rw [dispatch, fanOut_full m r _ s (by rw [hcap, hlen]; omega)]

/-- The bound on the example: a mailbox made at reference 30 in the
two-client state, then a short run; and the full mailbox of A is left alone. -/
theorem mailbox_holds_at_most_64_witness :
    (∃ o, runSystem 30 runAfterHandler (HandleWebSocket 3 30 stateAB).2 = some o ∧
      (o.final.chans 30).cap = 64 ∧ (o.final.chans 30).buf.length ≤ 64) ∧
    ((dispatch msgA stateFullA).state.chans 10).buf = (stateFullA.chans 10).buf := by
  have hsome : (runSystem 30 runAfterHandler (HandleWebSocket 3 30 stateAB).2).isSome = true := by
    decide
  obtain ⟨o, ho⟩ := Option.isSome_iff_exists.mp hsome
  exact ⟨⟨o, ho, (mailbox_holds_at_most_64 stateAB 3 30 30 runAfterHandler msgA).2.1 o ho⟩,
    (mailbox_holds_at_most_64 stateFullA 3 10 30 runAfterHandler msgA).2.2.2
      (by decide) (by decide)⟩

/-- C14: the broadcast queue of a new hub is empty, and a queue of at most 256
messages stays within 256 along every run of the system and at the end of
every dispatcher round.  When the queue holds 256 messages, `Broadcast` with
an encodable payload leaves its caller suspended and the state as it was;
a dispatch that completes on such a queue leaves 255 messages; in every state
whose queue holds fewer than 256 messages the send appends the message at the
tail; and whenever `Broadcast` returns nil, the queue is the old one followed
by its message. -/
theorem broadcast_waits_on_full_queue {Payload : Type}
    (marshal : Payload → Except String Bytes) (now : Time) (msgType : MessageType)
    (data : Payload) (s : State) (w : ChanRef) (steps : List Step) :
    NewHub.broadcast = [] ∧
    (s.hub.broadcast.length ≤ 256 →
      ∀ o, runSystem w steps s = some o → o.final.hub.broadcast.length ≤ 256) ∧
    (∀ e, s.hub.broadcast.length ≤ 256 →
      (iteration e s).state.hub.broadcast.length ≤ 256) ∧
    (∀ b, marshal data = .ok b → s.hub.broadcast.length = 256 →
      Broadcast marshal now msgType data s = .waiting s) ∧
    (∀ s1, s.hub.broadcast.length = 256 → iteration .broadcast s = .next s1 →
      s1.hub.broadcast.length = 255) ∧
    (∀ msg, s.hub.broadcast.length < 256 →
      sendBroadcast msg s =
        some { s with hub := { s.hub with broadcast := s.hub.broadcast ++ [msg] } }) ∧
    (∀ s1, Broadcast marshal now msgType data s = .ok s1 →
      ∃ b, marshal data = .ok b ∧ s1.hub.broadcast =
        s.hub.broadcast ++ [{ Typ := msgType, Timestamp := now, Data := b }]) := by
  refine ⟨rfl, ?_, ?_, ?_, ?_, ?_, ?_⟩
  · intro hq o ho
    exact (runSystem_bounds w 0 steps s o ho).2 hq
  · intro e hq
    exact iteration_queue_le e s hq
  · intro b hb hfull
    have hno : ¬ s.hub.broadcast.length < broadcastCap := by
      rw [hfull]; decide
    simp only [Broadcast, hb, sendBroadcast, hno, if_false]
  · intro s1 hfull hit
    simp only [iteration, broadcastCase] at hit
    split at hit
    · rename_i hq
      rw [hq] at hfull
      simp at hfull
    · rename_i m q hq
      have hhub := (fanOut_frame m s.hub.clients
        { s with hub := { s.hub with broadcast := q } }).1
      simp only [dispatch] at hit
      rw [hit] at hhub
      simp only [Outcome.state] at hhub
      rw [hhub]
      rw [hq] at hfull
      simp only [List.length_cons] at hfull
      show q.length = 255
      omega
  · intro msg hlt
    have hlt1 : s.hub.broadcast.length < broadcastCap := hlt
    simp only [sendBroadcast, hlt1, if_true]
  · intro s1 h
    cases hm : marshal data with
    | error e => simp [Broadcast, hm] at h
    | ok b =>
      simp only [Broadcast, hm] at h
      split at h
      · rename_i s2 hs2
        simp only [BroadcastResult.ok.injEq] at h
        subst h
        obtain ⟨_, heq⟩ := sendBroadcast_eq_some hs2
        subst heq
        exact ⟨b, rfl, rfl⟩
      · simp at h

set_option maxRecDepth 20000 in
/-- On the example state with a full queue: `Broadcast` of payload 42 waits,
and after one completed dispatch the queue holds 255 messages. -/
theorem broadcast_waits_on_full_queue_witness :
    Broadcast marshalNat 5 MessageTypeTelemetry 42 stateQueueFull = .waiting stateQueueFull ∧
    (∃ s1, iteration .broadcast stateQueueFull = .next s1 ∧ s1.hub.broadcast.length = 255) ∧
    sendBroadcast msgB stateAB =
      some { stateAB with hub := { stateAB.hub with
        broadcast := stateAB.hub.broadcast ++ [msgB] } } := by
  have hn : (iteration .broadcast stateQueueFull).isNext = true := by decide
  have hex : ∃ s1, iteration .broadcast stateQueueFull = .next s1 := by
    cases h : iteration .broadcast stateQueueFull with
    | next s => exact ⟨s, rfl⟩
    | returned s => rw [h] at hn; exact absurd hn (by simp [Outcome.isNext])
    | panicked k s => rw [h] at hn; exact absurd hn (by simp [Outcome.isNext])
    | blocked s => rw [h] at hn; exact absurd hn (by simp [Outcome.isNext])
  obtain ⟨s1, hs1⟩ := hex
  exact ⟨(broadcast_waits_on_full_queue marshalNat 5 MessageTypeTelemetry 42 stateQueueFull 0
      []).2.2.2.1 [42] rfl (by decide),
    ⟨s1, hs1, (broadcast_waits_on_full_queue marshalNat 5 MessageTypeTelemetry 42
      stateQueueFull 0 []).2.2.2.2.1 s1 (by decide) hs1⟩,
    (broadcast_waits_on_full_queue marshalNat 5 MessageTypeTelemetry 42 stateAB 0
      []).2.2.2.2.2.1 msgB (by decide)⟩

/-! ## Periodic tick -/

/-- With room in the queue the tick round ends normally: one ping with no data
is appended at the tail of the queue, and the registry and every mailbox are
as before. -/
theorem tickCase_room (now : Time) (s : State)
    (h : s.hub.broadcast.length < broadcastCap) :
    tickCase now s = .next { s with hub := { s.hub with
      broadcast := s.hub.broadcast ++ [pingMessage now] } } := by
  simp only [tickCase, BroadcastPing, sendBroadcast, h, if_true]

set_option maxRecDepth 20000 in
/-- C15: in the state where the broadcast queue holds 256 messages the tick
round does not complete: the dispatcher is suspended for ever in its own send
on `h.broadcast`, and the queue still holds the same 256 messages, so no ping
was queued. -/
theorem tick_blocks_on_full_queue :
    (iteration (.tick 5) stateQueueFull).isBlocked = true ∧
    (iteration (.tick 5) stateQueueFull).state.hub.broadcast.length = 256 ∧
    (iteration (.tick 5) stateQueueFull).state.hub.broadcast = stateQueueFull.hub.broadcast := by
  decide

/-! ## Keepalive -/

theorem runSystem_dispatcher (w : ChanRef) (e : Event) (rest : List Step) (s : State) :
    runSystem w (.dispatcher e :: rest) s =
      match iteration e s with
      | .next s1 =>
        (runSystem w rest s1).map fun o => { o with enqueued := e.pings ++ o.enqueued }
      | _ => none := by
  simp only [runSystem]

theorem runSystem_produce (w : ChanRef) (m : Message) (rest : List Step) (s : State) :
    runSystem w (.produce m :: rest) s =
      match sendBroadcast m s with
      | some s1 =>
        (runSystem w rest s1).map fun o => { o with enqueued := m :: o.enqueued }
      | none => none := by
  simp only [runSystem]

theorem runSystem_writerRecv (w r : ChanRef) (rest : List Step) (s : State) :
    runSystem w (.writerRecv r :: rest) s =
      match (s.chans r).buf with
      | [] => none
      | m :: tl =>
        (runSystem w rest (s.setChan r { s.chans r with buf := tl })).map fun o =>
          if r = w then { o with received := m :: o.received } else o := by
  simp only [runSystem]

/-- A run over two sequences of steps in a row is the run over the first
followed by the run over the second from the state reached, with the
observations of both in order. -/
theorem runSystem_append (w : ChanRef) (b : List Step) :
    ∀ (a : List Step) (s : State),
      runSystem w (a ++ b) s = (runSystem w a s).bind fun o1 =>
        (runSystem w b o1.final).map fun o2 =>
          { final := o2.final, enqueued := o1.enqueued ++ o2.enqueued,
            received := o1.received ++ o2.received } := by
  intro a
  induction a with
  | nil =>
    intro s
    simp only [List.nil_append, runSystem, Option.some_bind]
    cases runSystem w b s <;> simp
  | cons st rest ih =>
    intro s
    cases st with
    | dispatcher e =>
      rw [List.cons_append, runSystem_dispatcher, runSystem_dispatcher]
      cases iteration e s with
      | next s1 =>
        dsimp only
        rw [ih s1]
        cases runSystem w rest s1 with
        | none => simp
        | some o1 =>
          simp only [Option.some_bind, Option.map_some']
          cases runSystem w b o1.final <;> simp
      | returned s1 => simp
      | panicked k s1 => simp
      | blocked s1 => simp
    | produce m =>
      rw [List.cons_append, runSystem_produce, runSystem_produce]
      cases sendBroadcast m s with
      | none => simp
      | some s1 =>
        dsimp only
        rw [ih s1]
        cases runSystem w rest s1 with
        | none => simp
        | some o1 =>
          simp only [Option.some_bind, Option.map_some']
          cases runSystem w b o1.final <;> simp
    | writerRecv r =>
      rw [List.cons_append, runSystem_writerRecv, runSystem_writerRecv]
      cases (s.chans r).buf with
      | nil => simp
      | cons m tl =>
        dsimp only
        rw [ih]
        cases runSystem w rest (s.setChan r { s.chans r with buf := tl }) with
        | none => simp
        | some o1 =>
          simp only [Option.some_bind, Option.map_some']
          by_cases hr : r = w
          · simp only [hr, if_true, Option.some_bind]
            cases runSystem w b o1.final <;> simp
          · simp only [hr, if_false, Option.some_bind]
            cases runSystem w b o1.final <;> simp

/-- The writers of pairwise distinct mailboxes that each hold the single
message `m` take it, one after the other: every one of these mailboxes ends
empty, and the watched writer has received `m` exactly when its mailbox is
among them. -/
theorem drain_all (w : ChanRef) (m : Message) :
    ∀ (l : List ChanRef) (s : State), l.Nodup → (∀ r ∈ l, (s.chans r).buf = [m]) →
      ∃ o, runSystem w (l.map .writerRecv) s = some o ∧ o.enqueued = [] ∧
        o.received = (if w ∈ l then [m] else []) ∧ o.final.hub = s.hub ∧
        ∀ r, o.final.chans r = if r ∈ l then { s.chans r with buf := [] } else s.chans r := by
  intro l
  induction l with
  | nil =>
    intro s _ _
    exact ⟨{ final := s, enqueued := [], received := [] }, rfl, rfl, by simp, rfl,
      fun r => by simp⟩
  | cons r rest ih =>
    intro s hnd hbuf
    obtain ⟨hnotin, hnd1⟩ := List.nodup_cons.mp hnd
    have hr := hbuf r (List.mem_cons_self _ _)
    have hrest : ∀ r1 ∈ rest,
        ((s.setChan r { s.chans r with buf := [] }).chans r1).buf = [m] := by
      intro r1 hr1
      have hne : r1 ≠ r := fun h => hnotin (h ▸ hr1)
      rw [setChan_other _ _ _ _ hne]
      exact hbuf r1 (List.mem_cons_of_mem _ hr1)
    obtain ⟨o1, hrun, henq, hrec, hhub, hch⟩ := ih _ hnd1 hrest
    have hstep : runSystem w ((r :: rest).map .writerRecv) s =
        (runSystem w (rest.map .writerRecv) (s.setChan r { s.chans r with buf := [] })).map
          fun o => if r = w then { o with received := m :: o.received } else o := by
      rw [List.map_cons, runSystem_writerRecv]
      simp only [hr]
    rw [hstep, hrun]
    refine ⟨_, rfl, ?_, ?_, ?_, ?_⟩
    · by_cases hrw : r = w
      · simp [hrw, henq]
      · simp [hrw, henq]
    · by_cases hrw : r = w
      · subst hrw
        simp [hrec, hnotin]
      · have hrw1 : ¬ w = r := fun h => hrw h.symm
        simp [hrw, hrec, hrw1]
    · by_cases hrw : r = w
      · simp [hrw, hhub]
      · simp [hrw, hhub]
    · intro r1
      have hfin : (if r = w then ({ o1 with received := m :: o1.received } : Observed)
          else o1).final = o1.final := by
        split <;> rfl
      show (if r = w then ({ o1 with received := m :: o1.received } : Observed)
          else o1).final.chans r1 = _
      rw [hfin, hch r1, setChan_chans]
      by_cases h1 : r1 = r
      · subst h1
        simp [hnotin]
      · simp [h1]

theorem State.ext_of {s1 s2 : State} (hhub : s1.hub = s2.hub)
    (hch : ∀ r, s1.chans r = s2.chans r) : s1 = s2 := by
  obtain ⟨h1, c1⟩ := s1
  obtain ⟨h2, c2⟩ := s2
  simp only at hhub hch
  have hc : c1 = c2 := funext hch
  rw [hhub, hc]

/-- One keepalive round on an idle hub completes and brings the hub back to
the same state: the ping of this tick was queued, dispatched to every
registered mailbox and taken by every writer, the watched one included when
its mailbox is registered. -/
theorem keepaliveRound_idle (w : ChanRef) (now : Time) (s : State) (hidle : Idle s) :
    ∃ o, runSystem w (keepaliveRound (sendRefs s.hub.clients) now) s = some o ∧
      o.final = s ∧ o.enqueued = [pingMessage now] ∧
      o.received = (if w ∈ sendRefs s.hub.clients then [pingMessage now] else []) := by
  obtain ⟨hq, hnd, hall⟩ := hidle
  have hroom : ∀ kc ∈ s.hub.clients,
      (({ s with hub := { s.hub with broadcast := [] } } : State).chans kc.2.Send).closed
        = false ∧
      (({ s with hub := { s.hub with broadcast := [] } } : State).chans kc.2.Send).buf.length <
        (({ s with hub := { s.hub with broadcast := [] } } : State).chans kc.2.Send).cap := by
    intro kc hkc
    obtain ⟨h1, h2, h3⟩ := hall kc hkc
    refine ⟨h1, ?_⟩
    show (s.chans kc.2.Send).buf.length < (s.chans kc.2.Send).cap
    rw [h2]
    exact h3
  obtain ⟨s1, hrun, hhub, hch⟩ := fanOut_room (pingMessage now) s.hub.clients
    { s with hub := { s.hub with broadcast := [] } } hroom hnd
  have htick : iteration (.tick now) s = .next { s with hub := { s.hub with
      broadcast := s.hub.broadcast ++ [pingMessage now] } } :=
    tickCase_room now s (by rw [hq]; decide)
  have hdisp : iteration .broadcast { s with hub := { s.hub with
      broadcast := s.hub.broadcast ++ [pingMessage now] } } = .next s1 := by
    simp only [iteration, broadcastCase, hq, List.nil_append, dispatch]
    exact hrun
  have hfirst : runSystem w [.dispatcher (.tick now), .dispatcher .broadcast] s =
      some { final := s1, enqueued := [pingMessage now], received := [] } := by
    rw [runSystem_dispatcher, htick]
    dsimp only
    rw [runSystem_dispatcher, hdisp]
    simp [runSystem, Event.pings]
  have hbufs : ∀ r ∈ sendRefs s.hub.clients, (s1.chans r).buf = [pingMessage now] := by
    intro r hr
    rw [hch r, if_pos hr]
    obtain ⟨kc, hkc, hkr⟩ := List.mem_map.mp hr
    have h2 := (hall kc hkc).2.1
    have hkr1 : kc.2.Send = r := hkr
    rw [hkr1] at h2
    show (s.chans r).buf ++ [pingMessage now] = [pingMessage now]
    rw [h2]
    rfl
  obtain ⟨o2, hdrain, henq2, hrec2, hhub2, hch2⟩ :=
    drain_all w (pingMessage now) (sendRefs s.hub.clients) s1 hnd hbufs
  refine ⟨{ final := o2.final, enqueued := [pingMessage now] ++ o2.enqueued,
            received := [] ++ o2.received }, ?_, ?_, ?_, ?_⟩
  · unfold keepaliveRound
    rw [runSystem_append, hfirst]
    simp only [Option.some_bind, hdrain, Option.map_some']
  · apply State.ext_of
    · show o2.final.hub = s.hub
      rw [hhub2, hhub]
      show ({ s.hub with broadcast := [] } : Hub) = s.hub
      rw [← hq]
    · intro r
      show o2.final.chans r = s.chans r
      rw [hch2 r]
      by_cases hr : r ∈ sendRefs s.hub.clients
      · rw [if_pos hr, hch r, if_pos hr]
        obtain ⟨kc, hkc, hkr⟩ := List.mem_map.mp hr
        have h2 := (hall kc hkc).2.1
        have hkr1 : kc.2.Send = r := hkr
        rw [hkr1] at h2
        show ({ buf := [], closed := (s.chans r).closed, cap := (s.chans r).cap } : Chan)
          = s.chans r
        rw [← h2]
      · rw [if_neg hr, hch r, if_neg hr]
  · simp [henq2]
  · simp [hrec2]

/-- The keepalive schedule on an idle hub completes for every number of ticks
and brings the hub back to the same state; the watched writer has received
the pings of all the ticks, in order. -/
theorem keepalive_idle (w : ChanRef) (s : State) (hidle : Idle s) :
    ∀ times : List Time,
      ∃ o, runSystem w (keepalive (sendRefs s.hub.clients) times) s = some o ∧
        o.final = s ∧ o.enqueued = times.map pingMessage ∧
        o.received = (if w ∈ sendRefs s.hub.clients then times.map pingMessage else []) := by
  intro times
  induction times with
  | nil =>
    exact ⟨{ final := s, enqueued := [], received := [] }, rfl, rfl, rfl, by simp⟩
  | cons now rest ih =>
    obtain ⟨o1, h1, hf1, he1, hr1⟩ := keepaliveRound_idle w now s hidle
    obtain ⟨o2, h2, hf2, he2, hr2⟩ := ih
    refine ⟨{ final := o2.final, enqueued := o1.enqueued ++ o2.enqueued,
              received := o1.received ++ o2.received }, ?_, hf2, ?_, ?_⟩
    · show runSystem w (keepaliveRound (sendRefs s.hub.clients) now ++
        keepalive (sendRefs s.hub.clients) rest) s = _
      rw [runSystem_append, h1]
      simp only [Option.some_bind, hf1, h2, Option.map_some']
    · simp [he1, he2]
    · by_cases hw : w ∈ sendRefs s.hub.clients
      · simp [hr1, hr2, hw]
      · simp [hr1, hr2, hw]

/-- Conservation along a run that spares client `c`: the messages taken off
the broadcast queue are a prefix of the queue's initial contents followed by
what was enqueued, and they are exactly what went into the mailbox of `c`. -/
theorem runSystem_conservation (c : Client) :
    ∀ (steps : List Step) (s : State) (o : Observed),
      Sole c s.hub.clients →
      (∀ st ∈ steps, Spares c st) →
      runSystem c.Send steps s = some o →
      Sole c o.final.hub.clients ∧
      ∃ ds, s.hub.broadcast ++ o.enqueued = ds ++ o.final.hub.broadcast ∧
        o.received ++ (o.final.chans c.Send).buf = (s.chans c.Send).buf ++ ds := by
  intro steps
  induction steps with
  | nil =>
    intro s o hreg _ hrun
    simp only [runSystem, Option.some.injEq] at hrun
    subst hrun
    exact ⟨hreg, [], by simp, by simp⟩
  | cons st rest ih =>
    intro s o hreg hsp hrun
    have hsp1 : ∀ st ∈ rest, Spares c st := fun st hst => hsp st (List.mem_cons_of_mem _ hst)
    have hsp0 : Spares c st := hsp st (List.mem_cons_self _ _)
    cases st with
    | dispatcher e =>
      simp only [runSystem] at hrun
      split at hrun
      · rename_i s1 hit
        obtain ⟨o1, ho1, ho⟩ := Option.map_eq_some'.mp hrun
        obtain ⟨hreg1, d1, hq1, hb1⟩ := iteration_spares c e s s1 hreg hsp0 hit
        obtain ⟨hreg2, d2, hq2, hb2⟩ := ih s1 o1 hreg1 hsp1 ho1
        subst ho
        refine ⟨hreg2, d1 ++ d2, ?_, ?_⟩
        · show s.hub.broadcast ++ (e.pings ++ o1.enqueued) = _
          rw [← List.append_assoc, hq1, List.append_assoc, hq2, List.append_assoc]
        · show o1.received ++ (o1.final.chans c.Send).buf = _
          rw [hb2, hb1, List.append_assoc]
      · simp at hrun
    | produce m =>
      simp only [runSystem] at hrun
      split at hrun
      · rename_i s1 hs1
        obtain ⟨o1, ho1, ho⟩ := Option.map_eq_some'.mp hrun
        obtain ⟨_, hs1eq⟩ := sendBroadcast_eq_some hs1
        subst hs1eq
        have hnext := fun hr => ih _ o1 hr hsp1 ho1
        obtain ⟨hreg2, d2, hq2, hb2⟩ := hnext hreg
        subst ho
        refine ⟨hreg2, d2, ?_, hb2⟩
        show s.hub.broadcast ++ (m :: o1.enqueued) = _
        rw [← hq2]
        simp
      · simp at hrun
    | writerRecv r =>
      simp only [runSystem] at hrun
      split at hrun
      · simp at hrun
      · rename_i m tl hbuf
        obtain ⟨o1, ho1, ho⟩ := Option.map_eq_some'.mp hrun
        have hnext := fun hr => ih _ o1 hr hsp1 ho1
        obtain ⟨hreg2, d2, hq2, hb2⟩ := hnext hreg
        by_cases hr : r = c.Send
        · subst hr
          rw [if_pos rfl] at ho
          subst ho
          refine ⟨hreg2, d2, hq2, ?_⟩
          show (m :: o1.received) ++ (o1.final.chans c.Send).buf = _
          rw [List.cons_append, hb2, setChan_same, hbuf]
          rfl
        · rw [if_neg hr] at ho
          subst ho
          refine ⟨hreg2, d2, hq2, ?_⟩
          rw [hb2, setChan_other _ _ _ _ (fun h => hr h.symm)]

/-- Without producers, the messages enqueued along a run are the pings of its
ticks, in order. -/
theorem runSystem_enqueued_pings (w : ChanRef) :
    ∀ (steps : List Step) (s : State) (o : Observed),
      (∀ st ∈ steps, NoProducer st) → runSystem w steps s = some o →
      o.enqueued = (tickTimes steps).map pingMessage := by
  intro steps
  induction steps with
  | nil =>
    intro s o _ h
    simp only [runSystem, Option.some.injEq] at h
    subst h
    rfl
  | cons st rest ih =>
    intro s o hnp h
    have hnp1 : ∀ st ∈ rest, NoProducer st := fun st hst => hnp st (List.mem_cons_of_mem _ hst)
    cases st with
    | dispatcher e =>
      rw [runSystem_dispatcher] at h
      split at h
      · rename_i s1 hit
        obtain ⟨o1, ho1, ho⟩ := Option.map_eq_some'.mp h
        subst ho
        have hrest := ih s1 o1 hnp1 ho1
        cases e with
        | tick now =>
          show [pingMessage now] ++ o1.enqueued = _
          rw [hrest]
          rfl
        | ctxDone =>
          show [] ++ o1.enqueued = _
          rw [hrest]
          rfl
        | register c1 =>
          show [] ++ o1.enqueued = _
          rw [hrest]
          rfl
        | unregister c1 =>
          show [] ++ o1.enqueued = _
          rw [hrest]
          rfl
        | broadcast =>
          show [] ++ o1.enqueued = _
          rw [hrest]
          rfl
      · simp at h
    | produce m =>
      exact absurd (hnp (.produce m) (List.mem_cons_self _ _)) (by simp [NoProducer])
    | writerRecv r =>
      rw [runSystem_writerRecv] at h
      split at h
      · simp at h
      · rename_i m tl hbuf
        obtain ⟨o1, ho1, ho⟩ := Option.map_eq_some'.mp h
        have hrest := ih _ o1 hnp1 ho1
        have henq : o.enqueued = o1.enqueued := by
          split at ho <;> (subst ho; rfl)
        rw [henq, hrest]
        rfl

theorem subsGet_subsSet (ch ch1 : String) (v : Bool) :
    ∀ m : Subscriptions,
      subsGet (subsSet m ch v) ch1 = if ch1 = ch then some v else subsGet m ch1 := by
  intro m
  induction m with
  | nil =>
    by_cases h : ch1 = ch
    · simp [subsSet, subsGet, h]
    · have h1 : ¬ ch = ch1 := fun h2 => h h2.symm
      simp [subsSet, subsGet, h, h1]
  | cons kv rest ih =>
    obtain ⟨k, v0⟩ := kv
    by_cases hk : k = ch
    · subst hk
      by_cases h : ch1 = k
      · simp [subsSet, subsGet, h]
      · have h1 : ¬ k = ch1 := fun h2 => h h2.symm
        simp [subsSet, subsGet, h, h1]
    · by_cases hk1 : k = ch1
      · subst hk1
        simp [subsSet, subsGet, hk]
      · simp only [subsSet, hk, if_false, subsGet, hk1, ih]

theorem subsGet_subsDelete (ch ch1 : String) :
    ∀ m : Subscriptions,
      subsGet (subsDelete m ch) ch1 = if ch1 = ch then none else subsGet m ch1 := by
  intro m
  induction m with
  | nil => simp [subsDelete, subsGet]
  | cons kv rest ih =>
    obtain ⟨k, v0⟩ := kv
    by_cases hk : k = ch
    · subst hk
      by_cases h : ch1 = k
      · subst h
        simp [subsDelete, ih]
      · have h1 : ¬ k = ch1 := fun h2 => h h2.symm
        simp [subsDelete, subsGet, ih, h, h1]
    · by_cases hk1 : k = ch1
      · subst hk1
        simp [subsDelete, subsGet, hk]
      · simp only [subsDelete, hk, if_false, subsGet, hk1, ih]

theorem subsGet_subscribeAll (ch : String) :
    ∀ (channels : List String) (m : Subscriptions),
      subsGet (subscribeAll channels m) ch =
        if ch ∈ channels then some true else subsGet m ch := by
  intro channels
  induction channels with
  | nil => intro m; simp [subscribeAll]
  | cons c rest ih =>
    intro m
    have hstep : subscribeAll (c :: rest) m = subscribeAll rest (subsSet m c true) := rfl
    rw [hstep, ih, subsGet_subsSet]
    by_cases h1 : ch ∈ rest
    · simp [h1]
    · by_cases h2 : ch = c
      · simp [h2]
      · simp [h1, h2]

theorem subsGet_unsubscribeAll (ch : String) :
    ∀ (channels : List String) (m : Subscriptions),
      subsGet (unsubscribeAll channels m) ch =
        if ch ∈ channels then none else subsGet m ch := by
  intro channels
  induction channels with
  | nil => intro m; simp [unsubscribeAll]
  | cons c rest ih =>
    intro m
    have hstep : unsubscribeAll (c :: rest) m = unsubscribeAll rest (subsDelete m c) := rfl
    rw [hstep, ih, subsGet_subsDelete]
    by_cases h1 : ch ∈ rest
    · simp [h1]
    · by_cases h2 : ch = c
      · simp [h2]
      · simp [h1, h2]

theorem handleInbound_subscribe (unmarshal : Bytes → Option (List String)) (msg : Message)
    (subs : Subscriptions) (channels : List String)
    (ht : msg.Typ = MessageTypeSubscribe) (hd : unmarshal msg.Data = some channels) :
    handleInbound unmarshal msg subs = subscribeAll channels subs := by
  simp only [handleInbound, ht, if_true, hd]

theorem handleInbound_unsubscribe (unmarshal : Bytes → Option (List String)) (msg : Message)
    (subs : Subscriptions) (channels : List String)
    (ht : msg.Typ = MessageTypeUnsubscribe) (hd : unmarshal msg.Data = some channels) :
    handleInbound unmarshal msg subs = unsubscribeAll channels subs := by
  have hne : ¬ MessageTypeUnsubscribe = MessageTypeSubscribe := by decide
  simp only [handleInbound, ht, hne, if_false, if_true, hd]

/-- C17: for every subscription map `S` and every inbound message whose data
decodes as the list `L`: if its type is subscribe, the map afterwards holds
`true` for every channel of `L` and is unchanged at every other channel, so
the subscription set is `S ∪ L`; if its type is unsubscribe, the map
afterwards has no entry for any channel of `L` and is unchanged at every
other channel, so the subscription set is `S \ L`. -/
theorem subscribe_adds_unsubscribe_removes (unmarshal : Bytes → Option (List String))
    (msg : Message) (S : Subscriptions) (L : List String)
    (hd : unmarshal msg.Data = some L) :
    (msg.Typ = "subscribe" →
      (∀ ch, subsGet (handleInbound unmarshal msg S) ch =
        if ch ∈ L then some true else subsGet S ch) ∧
      (∀ ch, Subscribed (handleInbound unmarshal msg S) ch ↔ Subscribed S ch ∨ ch ∈ L)) ∧
    (msg.Typ = "unsubscribe" →
      (∀ ch, subsGet (handleInbound unmarshal msg S) ch =
        if ch ∈ L then none else subsGet S ch) ∧
      (∀ ch, Subscribed (handleInbound unmarshal msg S) ch ↔ Subscribed S ch ∧ ch ∉ L)) ∧
    (∀ ch, ch ∉ L → subsGet (handleInbound unmarshal msg S) ch = subsGet S ch) := by
  refine ⟨?_, ?_, ?_⟩
  · intro ht
    rw [handleInbound_subscribe unmarshal msg S L ht hd]
    refine ⟨fun ch => subsGet_subscribeAll ch L S, fun ch => ?_⟩
    unfold Subscribed
    rw [subsGet_subscribeAll]
    by_cases h : ch ∈ L
    · simp [h]
    · simp [h]
  · intro ht
    rw [handleInbound_unsubscribe unmarshal msg S L ht hd]
    refine ⟨fun ch => subsGet_unsubscribeAll ch L S, fun ch => ?_⟩
    unfold Subscribed
    rw [subsGet_unsubscribeAll]
    by_cases h : ch ∈ L
    · simp [h]
    · simp [h]
  · intro ch hch
    by_cases h1 : msg.Typ = MessageTypeSubscribe
    · rw [handleInbound_subscribe unmarshal msg S L h1 hd, subsGet_subscribeAll, if_neg hch]
    · by_cases h2 : msg.Typ = MessageTypeUnsubscribe
      · rw [handleInbound_unsubscribe unmarshal msg S L h2 hd, subsGet_unsubscribeAll,
          if_neg hch]
      · simp only [handleInbound, h1, h2, if_false]

/-- The example messages: subscribing to alerts and telemetry, then
unsubscribing from telemetry, starting with stats. -/
theorem subscribe_adds_unsubscribe_removes_witness :
    (∀ ch, Subscribed (handleInbound unmarshalExample subscribeMsg subsExample) ch ↔
      Subscribed subsExample ch ∨ ch ∈ ["alerts", "telemetry"]) ∧
    (∀ ch, Subscribed (handleInbound unmarshalExample unsubscribeMsg subsExample) ch ↔
      Subscribed subsExample ch ∧ ch ∉ ["telemetry"]) ∧
    subsGet (handleInbound unmarshalExample subscribeMsg subsExample) "stats"
      = subsGet subsExample "stats" :=
  ⟨((subscribe_adds_unsubscribe_removes unmarshalExample subscribeMsg subsExample
      ["alerts", "telemetry"] (by decide)).1 (by decide)).2,
   ((subscribe_adds_unsubscribe_removes unmarshalExample unsubscribeMsg subsExample
      ["telemetry"] (by decide)).2.1 (by decide)).2,
   (subscribe_adds_unsubscribe_removes unmarshalExample subscribeMsg subsExample
      ["alerts", "telemetry"] (by decide)).2.2 "stats" (by decide)⟩

theorem subsSet_same (ch : String) (v : Bool) :
    ∀ m : Subscriptions, subsGet m ch = some v → subsSet m ch v = m := by
  intro m
  induction m with
  | nil => intro h; simp [subsGet] at h
  | cons kv rest ih =>
    intro h
    obtain ⟨k, v0⟩ := kv
    by_cases hk : k = ch
    · subst hk
      simp only [subsGet, if_true, Option.some.injEq] at h
      simp [subsSet, h]
    · simp only [subsGet, hk, if_false] at h
      simp only [subsSet, hk, if_false, ih h]

/-- C18: for every channel name `ch` and every subscription map, reading two
subscribe messages for `[ch]` and then one unsubscribe message for `[ch]`
leaves `ch` absent from the map, hence out of the subscription set; and
reading two subscribe messages for `[ch]` gives the same map as reading one. -/
theorem subscribe_twice_unsubscribe_once (unmarshal : Bytes → Option (List String))
    (S : Subscriptions) (ch : String) (m1 m2 m3 : Message)
    (h1 : m1.Typ = "subscribe") (h2 : m2.Typ = "subscribe") (h3 : m3.Typ = "unsubscribe")
    (hd1 : unmarshal m1.Data = some [ch]) (hd2 : unmarshal m2.Data = some [ch])
    (hd3 : unmarshal m3.Data = some [ch]) :
    subsGet (readPump unmarshal [.message m1, .message m2, .message m3] S).subs ch = none ∧
    ¬ Subscribed (readPump unmarshal [.message m1, .message m2, .message m3] S).subs ch ∧
    (readPump unmarshal [.message m1, .message m2] S).subs =
      (readPump unmarshal [.message m1] S).subs ∧
    Subscribed (readPump unmarshal [.message m1, .message m2] S).subs ch := by
  have e1 : handleInbound unmarshal m1 S = subsSet S ch true :=
    handleInbound_subscribe unmarshal m1 S [ch] h1 hd1
  have e2 : ∀ S1, handleInbound unmarshal m2 S1 = subsSet S1 ch true :=
    fun S1 => handleInbound_subscribe unmarshal m2 S1 [ch] h2 hd2
  have e3 : ∀ S1, handleInbound unmarshal m3 S1 = subsDelete S1 ch :=
    fun S1 => handleInbound_unsubscribe unmarshal m3 S1 [ch] h3 hd3
  have hget : subsGet (subsSet S ch true) ch = some true := by
    rw [subsGet_subsSet, if_pos rfl]
  have htwice : subsSet (subsSet S ch true) ch true = subsSet S ch true :=
    subsSet_same ch true _ hget
  have hfinal : subsGet (subsDelete (subsSet (subsSet S ch true) ch true) ch) ch = none := by
    rw [subsGet_subsDelete, if_pos rfl]
  refine ⟨?_, ?_, ?_, ?_⟩
  · show subsGet (handleInbound unmarshal m3 (handleInbound unmarshal m2
      (handleInbound unmarshal m1 S))) ch = none
    rw [e3, e2, e1]
    exact hfinal
  · show ¬ subsGet (handleInbound unmarshal m3 (handleInbound unmarshal m2
      (handleInbound unmarshal m1 S))) ch = some true
    rw [e3, e2, e1, hfinal]
    simp
  · show handleInbound unmarshal m2 (handleInbound unmarshal m1 S) =
      handleInbound unmarshal m1 S
    rw [e2, e1]
    exact htwice
  · show subsGet (handleInbound unmarshal m2 (handleInbound unmarshal m1 S)) ch = some true
    rw [e2, e1, htwice]
    exact hget

/-- Subscribing to telemetry twice and unsubscribing once, starting with stats. -/
theorem subscribe_twice_unsubscribe_once_witness :
    subsGet (readPump unmarshalExample
      [.message { Typ := "subscribe", Timestamp := 1, Data := [1] },
       .message { Typ := "subscribe", Timestamp := 2, Data := [1] },
       .message unsubscribeMsg] subsExample).subs "telemetry" = none ∧
    ¬ Subscribed (readPump unmarshalExample
      [.message { Typ := "subscribe", Timestamp := 1, Data := [1] },
       .message { Typ := "subscribe", Timestamp := 2, Data := [1] },
       .message unsubscribeMsg] subsExample).subs "telemetry" ∧
    (readPump unmarshalExample
      [.message { Typ := "subscribe", Timestamp := 1, Data := [1] },
       .message { Typ := "subscribe", Timestamp := 2, Data := [1] }] subsExample).subs =
      (readPump unmarshalExample
        [.message { Typ := "subscribe", Timestamp := 1, Data := [1] }] subsExample).subs ∧
    Subscribed (readPump unmarshalExample
      [.message { Typ := "subscribe", Timestamp := 1, Data := [1] },
       .message { Typ := "subscribe", Timestamp := 2, Data := [1] }] subsExample).subs
      "telemetry" :=
  subscribe_twice_unsubscribe_once unmarshalExample subsExample "telemetry"
    { Typ := "subscribe", Timestamp := 1, Data := [1] }
    { Typ := "subscribe", Timestamp := 2, Data := [1] } unsubscribeMsg
    rfl rfl rfl (by decide) (by decide) (by decide)

/-! ## Messages the reader ignores -/

/-- C19: for every message that was read and is not a well-formed subscribe or
unsubscribe (any other type, pong included, or one of the two types with data
that does not decode as a list of strings), the switch leaves the
subscriptions as they were, and the loop goes on with the next read exactly
as if from the same subscriptions: same subscriptions, same termination, and
no log entry other than the debug line of a pong, so nothing at error level.
After such a message as the last read so far, the reader has not returned. -/
theorem malformed_inbound_is_ignored (unmarshal : Bytes → Option (List String))
    (msg : Message) (rest : List ReadResult) (subs : Subscriptions)
    (h : ¬ WellFormedSubscription unmarshal msg) :
    handleInbound unmarshal msg subs = subs ∧
    (readPump unmarshal (.message msg :: rest) subs).subs =
      (readPump unmarshal rest subs).subs ∧
    (readPump unmarshal (.message msg :: rest) subs).returned =
      (readPump unmarshal rest subs).returned ∧
    (readPump unmarshal (.message msg :: rest) subs).logs =
      pongLog msg ++ (readPump unmarshal rest subs).logs ∧
    (∀ l ∈ pongLog msg, l.1 = LogLevel.debug) ∧
    (readPump unmarshal [.message msg] subs).returned = false ∧
    (readPump unmarshal [.message msg] subs).subs = subs := by
  have hsame : handleInbound unmarshal msg subs = subs := by
    unfold WellFormedSubscription at h
    unfold handleInbound
    by_cases h1 : msg.Typ = MessageTypeSubscribe
    · rw [if_pos h1]
      cases hd : unmarshal msg.Data with
      | none => rfl
      | some L => exact absurd ⟨Or.inl h1, by rw [hd]; rfl⟩ h
    · rw [if_neg h1]
      by_cases h2 : msg.Typ = MessageTypeUnsubscribe
      · rw [if_pos h2]
        cases hd : unmarshal msg.Data with
        | none => rfl
        | some L => exact absurd ⟨Or.inr h2, by rw [hd]; rfl⟩ h
      · rw [if_neg h2]
  have hstep : ∀ rest1, readPump unmarshal (.message msg :: rest1) subs =
      { readPump unmarshal rest1 subs with
        logs := pongLog msg ++ (readPump unmarshal rest1 subs).logs } := by
    intro rest1
    simp only [readPump, hsame]
  refine ⟨hsame, ?_, ?_, ?_, ?_, ?_, ?_⟩
  · rw [hstep]
  · rw [hstep]
  · rw [hstep]
  · intro l hl
    unfold pongLog at hl
    split at hl
    · simp only [List.mem_singleton] at hl
      rw [hl]
    · simp at hl
  · rw [hstep]; rfl
  · rw [hstep]; rfl

/-- A subscribe message with undecodable data, followed by a well-formed
subscribe: the first is skipped, the second is handled. -/
theorem malformed_inbound_is_ignored_witness :
    handleInbound unmarshalExample malformedMsg subsExample = subsExample ∧
    (readPump unmarshalExample [.message malformedMsg, .message subscribeMsg] subsExample).subs =
      (readPump unmarshalExample [.message subscribeMsg] subsExample).subs ∧
    (readPump unmarshalExample [.message malformedMsg] subsExample).returned = false :=
  ⟨(malformed_inbound_is_ignored unmarshalExample malformedMsg [.message subscribeMsg]
      subsExample (by decide)).1,
   (malformed_inbound_is_ignored unmarshalExample malformedMsg [.message subscribeMsg]
      subsExample (by decide)).2.1,
   (malformed_inbound_is_ignored unmarshalExample malformedMsg [.message subscribeMsg]
      subsExample (by decide)).2.2.2.2.2.1⟩

/-! ## Wire encoding -/

/-- C20, as stated, fails: the message that a tick puts on the queue of a new
hub (built by `BroadcastPing`) is written with the two fields "type" and
"timestamp" only; it has no "data" field. -/
theorem ping_is_written_without_data :
    (iteration (.tick 5) stateNew).state.hub.broadcast.map
        (fun m => (wireFields m).map Prod.fst) = [["type", "timestamp"]] ∧
    (iteration (.tick 5) stateNew).state.hub.broadcast.map
        (fun m => (wireFields m).map Prod.fst) ≠ [["type", "timestamp", "data"]] := by
  decide

/-- C20, amended: a message is written with the fields "type" and "timestamp"
and, only when it carries data, "data", in that order, with its type string
as the value of "type".  The message queued by `Broadcast`, for a payload that
serializes to a non-empty byte string `b`, is written with exactly the three
fields type, timestamp and data (the given type, the clock reading, `b`); the
ping queued by a tick is written with exactly the two fields type "ping" and
timestamp.  The eight predefined types are the lower-case names. -/
theorem wire_fields_follow_data {Payload : Type}
    (marshal : Payload → Except String Bytes) (now : Time) (msgType : MessageType)
    (data : Payload) (b : Bytes) (s s1 s2 : State)
    (hb : marshal data = .ok b) (hne : b ≠ [])
    (hcall : Broadcast marshal now msgType data s = .ok s1)
    (htick : iteration (.tick now) s = .next s2) :
    (∀ m : Message, wireFields m =
      if m.Data = [] then [("type", .str m.Typ), ("timestamp", .time m.Timestamp)]
      else [("type", .str m.Typ), ("timestamp", .time m.Timestamp), ("data", .raw m.Data)]) ∧
    (∃ m, s1.hub.broadcast = s.hub.broadcast ++ [m] ∧
      wireFields m = [("type", .str msgType), ("timestamp", .time now), ("data", .raw b)]) ∧
    (∃ m, s2.hub.broadcast = s.hub.broadcast ++ [m] ∧
      wireFields m = [("type", .str "ping"), ("timestamp", .time now)]) ∧
    (MessageTypeTelemetry = "telemetry" ∧ MessageTypeAlert = "alert" ∧
      MessageTypeVehicle = "vehicle" ∧ MessageTypeStats = "stats" ∧
      MessageTypeSubscribe = "subscribe" ∧ MessageTypeUnsubscribe = "unsubscribe" ∧
      MessageTypePing = "ping" ∧ MessageTypePong = "pong") := by
  refine ⟨?_, ?_, ?_, ⟨rfl, rfl, rfl, rfl, rfl, rfl, rfl, rfl⟩⟩
  · intro m
    unfold wireFields
    split <;> rfl
  · simp only [Broadcast, hb] at hcall
    split at hcall
    · rename_i s3 hs3
      simp only [BroadcastResult.ok.injEq] at hcall
      subst hcall
      obtain ⟨_, heq⟩ := sendBroadcast_eq_some hs3
      subst heq
      refine ⟨{ Typ := msgType, Timestamp := now, Data := b }, rfl, ?_⟩
      simp [wireFields, hne]
    · simp at hcall
  · simp only [iteration, tickCase, BroadcastPing] at htick
    split at htick
    · rename_i s3 hs3
      simp only [Outcome.next.injEq] at htick
      subst htick
      obtain ⟨_, heq⟩ := sendBroadcast_eq_some hs3
      subst heq
      exact ⟨pingMessage now, rfl, rfl⟩
    · simp at htick

/-- On the two-client example state: the telemetry message for payload 42 is
written with three fields, the ping of a tick with two. -/
theorem wire_fields_follow_data_witness :
    (∃ m, (Broadcast marshalNat 5 MessageTypeTelemetry 42 stateAB).state.hub.broadcast =
        stateAB.hub.broadcast ++ [m] ∧
      wireFields m = [("type", .str MessageTypeTelemetry), ("timestamp", .time 5),
        ("data", .raw [42])]) ∧
    (∃ m, (iteration (.tick 5) stateAB).state.hub.broadcast = stateAB.hub.broadcast ++ [m] ∧
      wireFields m = [("type", .str "ping"), ("timestamp", .time 5)]) :=
  have h := wire_fields_follow_data marshalNat 5 MessageTypeTelemetry 42 [42] stateAB
    (Broadcast marshalNat 5 MessageTypeTelemetry 42 stateAB).state
    (iteration (.tick 5) stateAB).state rfl (by decide)
    (Broadcast_of_room marshalNat 5 MessageTypeTelemetry 42 stateAB [42] rfl (by decide))
    (tickCase_room 5 stateAB (by decide))
  ⟨h.2.1, h.2.2.1⟩

/-! ## Typed producer entry points -/

/-- C21: for every payload and state, `BroadcastTelemetry`, `BroadcastAlert`,
`BroadcastVehicleUpdate` and `BroadcastStats` give the result of `Broadcast`
called with the type "telemetry", "alert", "vehicle" and "stats" and the same
payload: the same returned error, the same state and so the same queue; when
the payload serializes to `b` and the queue has room, that is the old queue
followed by one message of that type with data `b`. -/
theorem typed_broadcast_is_broadcast {Payload : Type}
    (marshal : Payload → Except String Bytes) (now : Time) (p : Payload) (s : State) :
    BroadcastTelemetry marshal now p s = Broadcast marshal now "telemetry" p s ∧
    BroadcastAlert marshal now p s = Broadcast marshal now "alert" p s ∧
    BroadcastVehicleUpdate marshal now p s = Broadcast marshal now "vehicle" p s ∧
    BroadcastStats marshal now p s = Broadcast marshal now "stats" p s ∧
    ((BroadcastTelemetry marshal now p s).error? =
        (Broadcast marshal now "telemetry" p s).error? ∧
      (BroadcastAlert marshal now p s).error? = (Broadcast marshal now "alert" p s).error? ∧
      (BroadcastVehicleUpdate marshal now p s).error? =
        (Broadcast marshal now "vehicle" p s).error? ∧
      (BroadcastStats marshal now p s).error? = (Broadcast marshal now "stats" p s).error?) ∧
    (∀ b, marshal p = .ok b → s.hub.broadcast.length < 256 →
      (BroadcastTelemetry marshal now p s).state.hub.broadcast =
        s.hub.broadcast ++ [{ Typ := "telemetry", Timestamp := now, Data := b }] ∧
      (BroadcastAlert marshal now p s).state.hub.broadcast =
        s.hub.broadcast ++ [{ Typ := "alert", Timestamp := now, Data := b }] ∧
      (BroadcastVehicleUpdate marshal now p s).state.hub.broadcast =
        s.hub.broadcast ++ [{ Typ := "vehicle", Timestamp := now, Data := b }] ∧
      (BroadcastStats marshal now p s).state.hub.broadcast =
        s.hub.broadcast ++ [{ Typ := "stats", Timestamp := now, Data := b }]) ∧
    (∀ e, marshal p = .error e →
      BroadcastTelemetry marshal now p s = .err e s ∧
      BroadcastAlert marshal now p s = .err e s ∧
      BroadcastVehicleUpdate marshal now p s = .err e s ∧
      BroadcastStats marshal now p s = .err e s) := by
  refine ⟨rfl, rfl, rfl, rfl, ⟨rfl, rfl, rfl, rfl⟩, ?_, ?_⟩
  · intro b hb hroom
    have hroom1 : s.hub.broadcast.length < broadcastCap := hroom
    refine ⟨?_, ?_, ?_, ?_⟩
    · rw [BroadcastTelemetry, Broadcast_of_room marshal now _ p s b hb hroom1]; rfl
    · rw [BroadcastAlert, Broadcast_of_room marshal now _ p s b hb hroom1]; rfl
    · rw [BroadcastVehicleUpdate, Broadcast_of_room marshal now _ p s b hb hroom1]; rfl
    · rw [BroadcastStats, Broadcast_of_room marshal now _ p s b hb hroom1]; rfl
  · intro e he
    exact ⟨Broadcast_of_error marshal now _ p s e he, Broadcast_of_error marshal now _ p s e he,
      Broadcast_of_error marshal now _ p s e he, Broadcast_of_error marshal now _ p s e he⟩

/-- The wrappers on the two-client example state with payloads 42 and 0. -/
theorem typed_broadcast_is_broadcast_witness :
    (BroadcastTelemetry marshalNat 5 42 stateAB).state.hub.broadcast =
      stateAB.hub.broadcast ++ [{ Typ := "telemetry", Timestamp := 5, Data := [42] }] ∧
    (BroadcastStats marshalNat 5 42 stateAB).state.hub.broadcast =
      stateAB.hub.broadcast ++ [{ Typ := "stats", Timestamp := 5, Data := [42] }] ∧
    BroadcastAlert marshalNat 5 0 stateAB = .err "unsupported value" stateAB :=
  ⟨((typed_broadcast_is_broadcast marshalNat 5 42 stateAB).2.2.2.2.2.1 [42] rfl
      (by decide)).1,
   ((typed_broadcast_is_broadcast marshalNat 5 42 stateAB).2.2.2.2.2.1 [42] rfl
      (by decide)).2.2.2,
   ((typed_broadcast_is_broadcast marshalNat 5 0 stateAB).2.2.2.2.2.2
      "unsupported value" rfl).2.1⟩

/-! ## Writer pump -/

theorem writtenMessages_map_write (l : List Message) :
    writtenMessages (l.map fun m => WriterAction.write m true) = l := by
  induction l with
  | nil => rfl
  | cons m rest ih => simp [writtenMessages, ih]

theorem writtenMessages_append (a b : List WriterAction) :
    writtenMessages (a ++ b) = writtenMessages a ++ writtenMessages b := by
  induction a with
  | nil => rfl
  | cons x rest ih =>
    cases x <;> simp [writtenMessages, ih]

/-- Whatever the cancellations and write results: the writer hands to the
connection a prefix of the mailbox contents, in mailbox order; when it has
returned, its actions end with the deferred close and unregister send, which
occur nowhere else; while it waits, it has written the whole mailbox and has
neither closed the connection nor sent an unregister. -/
theorem writePumpFrom_shape (cancelled writeOk : Nat → Bool) (closed : Bool) :
    ∀ (buf : List Message) (i : Nat),
      writtenMessages (writePumpFrom cancelled writeOk closed buf i).actions <+: buf ∧
      ((writePumpFrom cancelled writeOk closed buf i).returned = true →
        ∃ pre, (writePumpFrom cancelled writeOk closed buf i).actions = pre ++ writerDeferred ∧
          WriterAction.connClose ∉ pre ∧ WriterAction.unregisterSend ∉ pre) ∧
      ((writePumpFrom cancelled writeOk closed buf i).returned = false →
        WriterAction.connClose ∉ (writePumpFrom cancelled writeOk closed buf i).actions ∧
        WriterAction.unregisterSend ∉ (writePumpFrom cancelled writeOk closed buf i).actions ∧
        writtenMessages (writePumpFrom cancelled writeOk closed buf i).actions = buf) := by
  intro buf
  induction buf with
  | nil =>
    intro i
    simp only [writePumpFrom]
    by_cases hc : cancelled i = true
    · simp only [hc, if_true]
      exact ⟨by simp [writerDeferred, writtenMessages], fun _ => ⟨[], rfl, by simp, by simp⟩,
        fun h => by simp at h⟩
    · simp only [hc]
      by_cases hcl : closed = true
      · simp only [hcl, if_true]
        exact ⟨by simp [writerDeferred, writtenMessages], fun _ => ⟨[], rfl, by simp, by simp⟩,
          fun h => by simp at h⟩
      · simp only [hcl]
        exact ⟨by simp [writtenMessages], fun h => by simp at h,
          fun _ => ⟨by simp, by simp, rfl⟩⟩
  | cons m rest ih =>
    intro i
    simp only [writePumpFrom]
    by_cases hc : cancelled i = true
    · simp only [hc, if_true]
      exact ⟨by simp [writerDeferred, writtenMessages], fun _ => ⟨[], rfl, by simp, by simp⟩,
        fun h => by simp at h⟩
    · simp only [hc]
      by_cases hw : writeOk i = true
      · simp only [hw, if_true]
        obtain ⟨hpre, hret, hwait⟩ := ih (i + 1)
        refine ⟨?_, ?_, ?_⟩
        · simp only [writtenMessages]
          exact (List.prefix_cons_inj m).mpr hpre
        · intro h
          obtain ⟨pre, hact, h1, h2⟩ := hret h
          refine ⟨.write m true :: pre, by rw [hact]; rfl, ?_, ?_⟩
          · simp [h1]
          · simp [h2]
        · intro h
          obtain ⟨h1, h2, h3⟩ := hwait h
          refine ⟨by simp [h1], by simp [h2], ?_⟩
          simp only [writtenMessages, h3]
      · simp only [hw]
        refine ⟨?_, ?_, ?_⟩
        · simp only [Bool.false_eq_true, if_false, writerDeferred, List.cons_append,
            List.nil_append, writtenMessages]
          exact (List.prefix_cons_inj m).mpr (List.nil_prefix)
        · intro _
          exact ⟨[.write m false, .logError], by simp, by simp, by simp⟩
        · intro h
          simp at h

/-- Without cancellation, when the first `buf.length` writes all succeed: the
writer writes every message of the mailbox in order; it then returns through
the deferred function if the mailbox is closed, and waits otherwise. -/
theorem writePumpFrom_all_ok (writeOk : Nat → Bool) (closed : Bool) :
    ∀ (buf : List Message) (i : Nat), (∀ j, j < buf.length → writeOk (i + j) = true) →
      writePumpFrom neverCancelled writeOk closed buf i =
        { actions := (buf.map fun m => WriterAction.write m true) ++
            (if closed then writerDeferred else []),
          returned := closed } := by
  intro buf
  induction buf with
  | nil =>
    intro i _
    cases closed <;> simp [writePumpFrom, neverCancelled]
  | cons m rest ih =>
    intro i h
    have h0 : writeOk i = true := by simpa using h 0 (by simp)
    have hrest := ih (i + 1) (fun j hj => by
      have := h (j + 1) (by simp only [List.length_cons]; omega)
      rw [show i + (j + 1) = i + 1 + j by omega] at this
      exact this)
    simp only [writePumpFrom, neverCancelled, Bool.false_eq_true, if_false, h0, if_true, hrest,
      List.map_cons, List.cons_append]

/-- Without cancellation, when the write of round `k` is the first to fail:
the writer writes the first `k` messages in order, then the failing one, logs
the error, and returns through the deferred function; nothing else follows. -/
theorem writePumpFrom_first_failure (writeOk : Nat → Bool) (closed : Bool) :
    ∀ (buf : List Message) (i k : Nat) (m : Message), buf[k]? = some m →
      writeOk (i + k) = false → (∀ j, j < k → writeOk (i + j) = true) →
      writePumpFrom neverCancelled writeOk closed buf i =
        { actions := ((buf.take k).map fun m => WriterAction.write m true) ++
            [.write m false, .logError] ++ writerDeferred,
          returned := true } := by
  intro buf
  induction buf with
  | nil => intro i k m hk; simp at hk
  | cons m0 rest ih =>
    intro i k m hk hfail hok
    cases k with
    | zero =>
      simp only [List.getElem?_cons_zero, Option.some.injEq] at hk
      subst hk
      have h0 : writeOk i = false := by simpa using hfail
      simp [writePumpFrom, neverCancelled, h0]
    | succ k1 =>
      simp only [List.getElem?_cons_succ] at hk
      have h0 : writeOk i = true := by simpa using hok 0 (by omega)
      have hrest := ih (i + 1) k1 m hk
        (by rw [show i + 1 + k1 = i + (k1 + 1) by omega]; exact hfail)
        (fun j hj => by
          have := hok (j + 1) (by omega)
          rw [show i + (j + 1) = i + 1 + j by omega] at this
          exact this)
      simp only [writePumpFrom, neverCancelled, Bool.false_eq_true, if_false, h0, if_true, hrest,
        List.take_succ_cons, List.map_cons, List.cons_append]

/-- Whatever the cancellations, nothing is handed to the connection after a
failing write: if the write of round `i + k` fails, the messages written from
round `i` on are among the first `k + 1` of the mailbox. -/
theorem writePumpFrom_stops_at_failure (cancelled writeOk : Nat → Bool) (closed : Bool) :
    ∀ (buf : List Message) (i k : Nat), writeOk (i + k) = false →
      writtenMessages (writePumpFrom cancelled writeOk closed buf i).actions <+:
        buf.take (k + 1) := by
  intro buf
  induction buf with
  | nil =>
    intro i k _
    simp only [writePumpFrom]
    split_ifs <;> simp [writerDeferred, writtenMessages]
  | cons m rest ih =>
    intro i k hfail
    simp only [writePumpFrom]
    by_cases hc : cancelled i = true
    · simp [hc, writerDeferred, writtenMessages]
    · simp only [hc]
      by_cases hw : writeOk i = true
      · simp only [hw, if_true, Bool.false_eq_true, if_false]
        cases k with
        | zero =>
          rw [Nat.add_zero, hw] at hfail
          exact absurd hfail (by simp)
        | succ k1 =>
          have hrest := ih (i + 1) k1 (by
            rw [show i + 1 + k1 = i + (k1 + 1) by omega]
            exact hfail)
          simp only [writtenMessages, List.take_succ_cons]
          exact (List.prefix_cons_inj m).mpr hrest
      · simp only [hw, Bool.false_eq_true, if_false, writerDeferred, List.cons_append,
          List.nil_append, writtenMessages, List.take_succ_cons]
        exact (List.prefix_cons_inj m).mpr List.nil_prefix

/-- When the `select` takes the cancellation case for the first time in round
`i + k`, after `k` successful writes, the writer has written the first `k`
messages and returns through the deferred function; the rest of the mailbox
is left unwritten. -/
theorem writePumpFrom_cancelled_at (cancelled writeOk : Nat → Bool) (closed : Bool) :
    ∀ (buf : List Message) (i k : Nat), k ≤ buf.length → cancelled (i + k) = true →
      (∀ j, j < k → cancelled (i + j) = false ∧ writeOk (i + j) = true) →
      writePumpFrom cancelled writeOk closed buf i =
        { actions := ((buf.take k).map fun m => WriterAction.write m true) ++ writerDeferred,
          returned := true } := by
  intro buf
  induction buf with
  | nil =>
    intro i k hk hc _
    have hk0 : k = 0 := by simpa using hk
    subst hk0
    rw [Nat.add_zero] at hc
    simp [writePumpFrom, hc]
  | cons m rest ih =>
    intro i k hk hc hok
    cases k with
    | zero =>
      rw [Nat.add_zero] at hc
      simp [writePumpFrom, hc]
    | succ k1 =>
      have h0 := hok 0 (by omega)
      rw [Nat.add_zero] at h0
      have hrest := ih (i + 1) k1 (by simpa using hk)
        (by rw [show i + 1 + k1 = i + (k1 + 1) by omega]; exact hc)
        (fun j hj => by
          have := hok (j + 1) (by omega)
          rw [show i + (j + 1) = i + 1 + j by omega] at this
          exact this)
      simp only [writePumpFrom, h0.1, h0.2, Bool.false_eq_true, if_false, if_true, hrest,
        List.take_succ_cons, List.map_cons, List.cons_append]

/-- C22, as stated, fails under cancellation: the mailbox is closed and
holds two messages, every write would succeed, and the `select` takes
`<-ctx.Done()` in its first round: the writer returns having written neither
message.  When the cancellation comes one round later, the first message is
written and the second is not. -/
theorem cancelled_writer_leaves_messages_unwritten :
    writePump (fun _ => true) (fun _ => true) [msgA, msgB] true =
      { actions := [.connClose, .unregisterSend], returned := true } ∧
    writtenMessages (writePump (fun _ => true) (fun _ => true) [msgA, msgB] true).actions
      = [] ∧
    writtenMessages
      (writePump (fun i => decide (1 ≤ i)) (fun _ => true) [msgA, msgB] true).actions
      = [msgA] := by
  decide

/-- C22, amended: for every mailbox content `buf`, every assignment `writeOk` of
success or failure to the writes, and whether or not the mailbox is closed:
(1) whatever the cancellations, the messages the writer hands to the
connection are a prefix of `buf`, in mailbox order;
(2) whatever the cancellations, once the writer has returned its actions end
with one close of the connection followed by one unregister send, which
occur nowhere else; before that it has done neither;
(3) without cancellation, if the write of the `k`-th message is the first to
fail, the writer writes the first `k` messages, then the failing one, logs
the error and returns: nothing is written after the failing write;
(4) without cancellation, if all writes succeed, the writer writes all the
messages in order and, when the mailbox is closed, returns with no error
logged; when the mailbox is open it waits for more;
(5) whatever the cancellations, if the write of the `k`-th message fails, the
messages handed to the connection are among the first `k + 1`: nothing is
written after a failing write;
(6) if the `select` takes the cancellation case for the first time in round
`k`, after `k` successful writes, the writer has written the first `k`
messages and returns, leaving the rest of the mailbox unwritten. -/
theorem writer_writes_in_order_until_failure (cancelled writeOk : Nat → Bool)
    (buf : List Message) (closed : Bool) :
    writtenMessages (writePump cancelled writeOk buf closed).actions <+: buf ∧
    ((writePump cancelled writeOk buf closed).returned = true →
      (∃ pre, (writePump cancelled writeOk buf closed).actions =
          pre ++ [.connClose, .unregisterSend] ∧
        WriterAction.connClose ∉ pre ∧ WriterAction.unregisterSend ∉ pre) ∧
      (writePump cancelled writeOk buf closed).actions.count .unregisterSend = 1 ∧
      (writePump cancelled writeOk buf closed).actions.count .connClose = 1) ∧
    ((writePump cancelled writeOk buf closed).returned = false →
      (writePump cancelled writeOk buf closed).actions.count .unregisterSend = 0 ∧
      (writePump cancelled writeOk buf closed).actions.count .connClose = 0) ∧
    (∀ k m, buf[k]? = some m → writeOk k = false → (∀ j, j < k → writeOk j = true) →
      writePump neverCancelled writeOk buf closed =
        { actions := ((buf.take k).map fun m => WriterAction.write m true) ++
            [.write m false, .logError, .connClose, .unregisterSend],
          returned := true }) ∧
    ((∀ j, j < buf.length → writeOk j = true) →
      writePump neverCancelled writeOk buf closed =
        { actions := (buf.map fun m => WriterAction.write m true) ++
            (if closed then [.connClose, .unregisterSend] else []),
          returned := closed } ∧
      WriterAction.logError ∉ (writePump neverCancelled writeOk buf closed).actions ∧
      writtenMessages (writePump neverCancelled writeOk buf closed).actions = buf) ∧
    (∀ k, writeOk k = false →
      writtenMessages (writePump cancelled writeOk buf closed).actions <+:
        buf.take (k + 1)) ∧
    (∀ k, k ≤ buf.length → cancelled k = true →
      (∀ j, j < k → cancelled j = false ∧ writeOk j = true) →
      writePump cancelled writeOk buf closed =
        { actions := ((buf.take k).map fun m => WriterAction.write m true) ++
            [.connClose, .unregisterSend],
          returned := true }) := by
  obtain ⟨hpre, hret, hwait⟩ := writePumpFrom_shape cancelled writeOk closed buf 0
  refine ⟨hpre, ?_, ?_, ?_, ?_, ?_, ?_⟩
  · intro h
    obtain ⟨pre, hact, h1, h2⟩ := hret h
    refine ⟨⟨pre, hact, h1, h2⟩, ?_, ?_⟩
    · show (writePumpFrom cancelled writeOk closed buf 0).actions.count .unregisterSend = 1
      rw [hact, List.count_append, List.count_eq_zero_of_not_mem h2]
      rfl
    · show (writePumpFrom cancelled writeOk closed buf 0).actions.count .connClose = 1
      rw [hact, List.count_append, List.count_eq_zero_of_not_mem h1]
      rfl
  · intro h
    obtain ⟨h1, h2, _⟩ := hwait h
    exact ⟨List.count_eq_zero_of_not_mem h2, List.count_eq_zero_of_not_mem h1⟩
  · intro k m hk hfail hok
    have := writePumpFrom_first_failure writeOk closed buf 0 k m hk
      (by simpa using hfail) (fun j hj => by simpa using hok j hj)
    rw [writePump, this]
    simp [writerDeferred]
  · intro hall
    have hres := writePumpFrom_all_ok writeOk closed buf 0 (fun j hj => by simpa using hall j hj)
    refine ⟨?_, ?_, ?_⟩
    · rw [writePump, hres]
      rfl
    · rw [writePump, hres]
      cases closed <;> simp [writerDeferred]
    · rw [writePump, hres]
      cases closed <;>
        simp [writerDeferred, writtenMessages_append, writtenMessages_map_write,
          writtenMessages]
  · intro k hfail
    exact writePumpFrom_stops_at_failure cancelled writeOk closed buf 0 k
      (by simpa using hfail)
  · intro k hk hc hok
    have := writePumpFrom_cancelled_at cancelled writeOk closed buf 0 k hk
      (by simpa using hc) (fun j hj => by simpa using hok j hj)
    rw [writePump, this]
    rfl

/-- Three messages in the mailbox: with the third write failing the writer
stops there; with all writes succeeding on a closed mailbox it writes all
three and returns. -/
theorem writer_writes_in_order_until_failure_witness :
    writePump neverCancelled thirdWriteFails [msgA, msgB, msgA, msgB] true =
      { actions := [.write msgA true, .write msgB true, .write msgA false, .logError,
          .connClose, .unregisterSend],
        returned := true } ∧
    writePump neverCancelled (fun _ => true) [msgA, msgB, msgA] true =
      { actions := [.write msgA true, .write msgB true, .write msgA true,
          .connClose, .unregisterSend],
        returned := true } ∧
    (writePump neverCancelled (fun _ => true) [msgA, msgB, msgA] true).actions.count
      .unregisterSend = 1 :=
  ⟨(writer_writes_in_order_until_failure neverCancelled thirdWriteFails
      [msgA, msgB, msgA, msgB] true).2.2.2.1 2 msgA rfl (by decide)
      (fun j hj => by interval_cases j <;> decide),
   ((writer_writes_in_order_until_failure neverCancelled (fun _ => true)
      [msgA, msgB, msgA] true).2.2.2.2.1 (fun _ _ => rfl)).1,
   ((writer_writes_in_order_until_failure neverCancelled (fun _ => true)
      [msgA, msgB, msgA] true).2.1 (by decide)).2.1⟩

/-! ## Open mailboxes in the registry -/

/-- C23: for every sequence of dispatcher events with handler-made clients
(pairwise distinct identities and mailboxes, open at the start; unregisters
name such clients), started from a hub with an empty registry: in every state
in which the loop goes round again, hence before any cancellation, every
client in the registry has an open mailbox, and the dispatch of any message
from that state does not panic; and the run itself never panics with a send
on a closed channel. -/
theorem registry_mailboxes_are_open (es : List Event) (s0 : State)
    (hnew : s0.hub.clients = [])
    (hfresh : FreshClients es)
    (hopen : ∀ c ∈ registered es, (s0.chans c.Send).closed = false) :
    (∀ s, Run es s0 = .next s →
      (∀ kc ∈ s.hub.clients, (s.chans kc.2.Send).closed = false) ∧
      (∀ m k s1, dispatch m s ≠ .panicked k s1) ∧
      (∀ k s1, iteration .broadcast s ≠ .panicked k s1)) ∧
    (∀ s1, Run es s0 ≠ .panicked .sendOnClosedChannel s1) := by
  obtain ⟨hid, hsend, hun⟩ := hfresh
  have hinjID : ∀ a ∈ registered es, ∀ b ∈ registered es, a.ID = b.ID → a = b :=
    fun a ha b hb hab => List.inj_on_of_nodup_map hid ha hb hab
  have hinjSend : ∀ a ∈ registered es, ∀ b ∈ registered es, a.Send = b.Send → a = b :=
    fun a ha b hb hab => List.inj_on_of_nodup_map hsend ha hb hab
  obtain ⟨hnp, hnext⟩ := Run_lifecycle (registered es) hinjID hinjSend
    es [] s0 (by simp) (Lifecycle.initial s0 hnew) (fun c hc _ => hopen c hc)
    (fun c hc => hc) (by simpa using List.Nodup.of_map _ hid) hun
  refine ⟨?_, fun s1 => hnp _ s1⟩
  intro s hrun
  have hlc := hnext s hrun
  refine ⟨hlc.registry_open, ?_, ?_⟩
  · intro m k s1
    exact fanOut_no_panic m _ _ hlc.registry_open k s1
  · intro k s1
    have hfresh1 : ∀ c ∈ registered es ++ [], c ∉ registered es ++ [] →
        (s.chans c.Send).closed = false := fun c hc hnc => absurd hc hnc
    exact (iteration_lifecycle (registered es ++ []) (registered es ++ []) .broadcast s
      (by simpa using hinjID) (by simpa using hinjSend) (fun c hc => hc) hlc hfresh1
      (by simp [registered]) (by simp [unregistered])).1 k s1

/-- The example history before cancellation ends with B registered and open. -/
theorem registry_mailboxes_are_open_witness :
    (∀ s, Run historyABlive stateNew = .next s →
      (∀ kc ∈ s.hub.clients, (s.chans kc.2.Send).closed = false) ∧
      (∀ m k s1, dispatch m s ≠ .panicked k s1) ∧
      (∀ k s1, iteration .broadcast s ≠ .panicked k s1)) ∧
    (∀ s1, Run historyABlive stateNew ≠ .panicked .sendOnClosedChannel s1) ∧
    (Run historyABlive stateNew).isNext = true :=
  ⟨(registry_mailboxes_are_open historyABlive stateNew (by decide) (by decide) (by decide)).1,
   (registry_mailboxes_are_open historyABlive stateNew (by decide) (by decide) (by decide)).2,
   by decide⟩

/-! ## Registration under an id already in the registry -/

theorem mapSet_length_present (id : UUID) (c : Client) :
    ∀ l : List (UUID × Client), (mapGet l id).isSome = true →
      (mapSet l id c).length = l.length := by
  intro l
  induction l with
  | nil => intro h; simp [mapGet] at h
  | cons kc rest ih =>
    intro h
    obtain ⟨k, c0⟩ := kc
    by_cases hk : k = id
    · simp [mapSet, hk]
    · simp only [mapGet, hk, if_false] at h
      simp only [mapSet, hk, if_false, List.length_cons, ih h]

theorem mapGet_mapSet_self (id : UUID) (c : Client) :
    ∀ l : List (UUID × Client), mapGet (mapSet l id c) id = some c := by
  intro l
  induction l with
  | nil => simp [mapSet, mapGet]
  | cons kc rest ih =>
    obtain ⟨k, c0⟩ := kc
    by_cases hk : k = id
    · simp [mapSet, mapGet, hk]
    · simp only [mapSet, hk, if_false, mapGet, ih]

theorem mapGet_mapSet_other (id id1 : UUID) (c : Client) (h : id1 ≠ id) :
    ∀ l : List (UUID × Client), mapGet (mapSet l id c) id1 = mapGet l id1 := by
  intro l
  induction l with
  | nil =>
    have h1 : ¬ id = id1 := fun h2 => h h2.symm
    simp [mapSet, mapGet, h1]
  | cons kc rest ih =>
    obtain ⟨k, c0⟩ := kc
    by_cases hk : k = id
    · have h1 : ¬ id = id1 := fun h2 => h h2.symm
      have h2 : ¬ k = id1 := fun h3 => h (h3.symm.trans hk)
      simp [mapSet, mapGet, hk, h1]
    · by_cases hk1 : k = id1
      · subst hk1
        simp [mapSet, mapGet, hk]
      · simp only [mapSet, hk, if_false, mapGet, hk1, ih]

theorem mem_mapSet_of_keysNodup (id : UUID) (c : Client) :
    ∀ l : List (UUID × Client), KeysNodup l → ∀ kc ∈ mapSet l id c,
      kc = (id, c) ∨ (kc ∈ l ∧ kc.1 ≠ id) := by
  intro l
  induction l with
  | nil =>
    intro _ kc hkc
    simp only [mapSet, List.mem_singleton] at hkc
    exact Or.inl hkc
  | cons kc0 rest ih =>
    intro hnd kc hkc
    obtain ⟨k, c0⟩ := kc0
    unfold KeysNodup at hnd ih
    simp only [List.map_cons, List.nodup_cons] at hnd
    by_cases hk : k = id
    · subst hk
      simp only [mapSet, if_true, List.mem_cons] at hkc
      rcases hkc with h1 | h2
      · exact Or.inl h1
      · refine Or.inr ⟨List.mem_cons_of_mem _ h2, fun hkey => hnd.1 ?_⟩
        rw [← hkey]
        exact List.mem_map_of_mem Prod.fst h2
    · simp only [mapSet, hk, if_false, List.mem_cons] at hkc
      rcases hkc with h1 | h2
      · subst h1
        exact Or.inr ⟨List.mem_cons_self _ _, hk⟩
      · rcases ih hnd.2 kc h2 with h3 | ⟨h4, h5⟩
        · exact Or.inl h3
        · exact Or.inr ⟨List.mem_cons_of_mem _ h4, h5⟩

/-- The fan-out loop never touches a mailbox that no registry entry refers to. -/
theorem fanOut_untouched (m : Message) (r : ChanRef) :
    ∀ (l : List (UUID × Client)) (s : State), r ∉ sendRefs l →
      (fanOut m l s).state.chans r = s.chans r := by
  intro l
  induction l with
  | nil => intro s _; rfl
  | cons kc rest ih =>
    intro s hr
    obtain ⟨k, c⟩ := kc
    simp only [sendRefs, List.map_cons, List.mem_cons, not_or] at hr
    simp only [fanOut]
    split
    · rfl
    · split
      · rw [ih _ hr.2, setChan_other _ _ _ _ hr.1]
      · rfl

/-- A dispatch or a tick, however it ends, keeps the registry, and keeps every
mailbox that no registry entry refers to. -/
theorem iteration_untouched (e : Event) (s : State) (r : ChanRef) (he : DispatchOrTick e) :
    (iteration e s).state.hub.clients = s.hub.clients ∧
    (r ∉ sendRefs s.hub.clients → (iteration e s).state.chans r = s.chans r) := by
  cases e with
  | ctxDone => exact absurd he (by simp [DispatchOrTick])
  | register c => exact absurd he (by simp [DispatchOrTick])
  | unregister c => exact absurd he (by simp [DispatchOrTick])
  | broadcast =>
    simp only [iteration, broadcastCase]
    split
    · exact ⟨rfl, fun _ => rfl⟩
    · rename_i m q hq
      simp only [dispatch]
      constructor
      · rw [(fanOut_frame m _ _).1]
      · intro hr
        rw [fanOut_untouched m r _ _ hr]
  | tick now =>
    simp only [iteration, tickCase, BroadcastPing]
    split
    · rename_i s1 hs1
      obtain ⟨_, heq⟩ := sendBroadcast_eq_some hs1
      subst heq
      exact ⟨rfl, fun _ => rfl⟩
    · exact ⟨rfl, fun _ => rfl⟩

/-- Any sequence of dispatches and ticks, however it ends, keeps every mailbox
that no registry entry refers to. -/
theorem Run_untouched (r : ChanRef) :
    ∀ (es : List Event) (s : State), (∀ e ∈ es, DispatchOrTick e) →
      r ∉ sendRefs s.hub.clients → (Run es s).state.chans r = s.chans r := by
  intro es
  induction es with
  | nil => intro s _ _; rfl
  | cons e rest ih =>
    intro s hes hr
    obtain ⟨hcl, hch⟩ := iteration_untouched e s r (hes e (List.mem_cons_self _ _))
    cases hit : iteration e s with
    | next s1 =>
      rw [hit] at hcl hch
      simp only [Outcome.state] at hcl hch
      have hrun : Run (e :: rest) s = Run rest s1 := by simp only [Run, hit]
      rw [hrun, ih s1 (fun e1 h1 => hes e1 (List.mem_cons_of_mem _ h1)) (by rw [hcl]; exact hr)]
      exact hch hr
    | returned s1 =>
      have hrun : Run (e :: rest) s = .returned s1 := by simp only [Run, hit]
      rw [hrun, ← hit]
      exact hch hr
    | panicked k s1 =>
      have hrun : Run (e :: rest) s = .panicked k s1 := by simp only [Run, hit]
      rw [hrun, ← hit]
      exact hch hr
    | blocked s1 =>
      have hrun : Run (e :: rest) s = .blocked s1 := by simp only [Run, hit]
      rw [hrun, ← hit]
      exact hch hr

/-- C24: in a hub state whose registry has one entry per key and no mailbox
shared between entries, registering a client `c` whose id is held by the
entry `old` (with another mailbox) ends normally: the entry under that id is
now `c`, the entries under all other ids and the client count are as before,
no channel has changed (so the mailbox of `old` has not been closed), no
registry entry refers to the mailbox of `old` any more, and whatever
dispatches and ticks follow, that mailbox stays exactly as it is. -/
theorem register_existing_id_replaces_entry (s : State) (c old : Client)
    (hreg : mapGet s.hub.clients c.ID = some old)
    (hkeys : KeysNodup s.hub.clients)
    (hrefs : (sendRefs s.hub.clients).Nodup)
    (hne : c.Send ≠ old.Send) :
    ∃ s1, registerCase c s = .next s1 ∧
      mapGet s1.hub.clients c.ID = some c ∧
      (∀ id, id ≠ c.ID → mapGet s1.hub.clients id = mapGet s.hub.clients id) ∧
      (GetClientCount s1).1 = (GetClientCount s).1 ∧
      s1.chans = s.chans ∧
      (s1.chans old.Send).closed = (s.chans old.Send).closed ∧
      old.Send ∉ sendRefs s1.hub.clients ∧
      ∀ es, (∀ e ∈ es, DispatchOrTick e) →
        (Run es s1).state.chans old.Send = s.chans old.Send := by
  have hnotin : old.Send ∉ sendRefs (mapSet s.hub.clients c.ID c) := by
    intro hin
    obtain ⟨kc, hkc, hks⟩ := List.mem_map.mp hin
    have hks1 : kc.2.Send = old.Send := hks
    rcases mem_mapSet_of_keysNodup c.ID c _ hkeys kc hkc with h1 | ⟨h2, h3⟩
    · rw [h1] at hks1
      exact hne hks1
    · have hold : (c.ID, old) ∈ s.hub.clients := mapGet_some_mem _ hreg
      have heq : kc = (c.ID, old) :=
        List.inj_on_of_nodup_map hrefs h2 hold hks1
      rw [heq] at h3
      exact h3 rfl
  refine ⟨{ s with hub := { s.hub with clients := mapSet s.hub.clients c.ID c } }, rfl,
    mapGet_mapSet_self _ _ _, fun id hid => mapGet_mapSet_other _ _ _ hid _, ?_, rfl, rfl,
    hnotin, ?_⟩
  · simp only [GetClientCount]
    rw [mapSet_length_present c.ID c _ (by rw [hreg]; rfl)]
  · intro es hes
    exact Run_untouched old.Send es _ hes hnotin

/-- Registering a second client under the id of A in the two-client state. -/
theorem register_existing_id_replaces_entry_witness :
    ∃ s1, registerCase clientA2 stateAB = .next s1 ∧
      mapGet s1.hub.clients clientA2.ID = some clientA2 ∧
      (∀ id, id ≠ clientA2.ID → mapGet s1.hub.clients id = mapGet stateAB.hub.clients id) ∧
      (GetClientCount s1).1 = (GetClientCount stateAB).1 ∧
      s1.chans = stateAB.chans ∧
      (s1.chans clientA.Send).closed = (stateAB.chans clientA.Send).closed ∧
      clientA.Send ∉ sendRefs s1.hub.clients ∧
      ∀ es, (∀ e ∈ es, DispatchOrTick e) →
        (Run es s1).state.chans clientA.Send = stateAB.chans clientA.Send :=
  register_existing_id_replaces_entry stateAB clientA2 clientA (by decide) (by decide)
    (by decide) (by decide)

end FleetPulse.Websocket

namespace FleetPulse.Service

/-! ## Telemetry service -/

theorem GetByVehicleLoop_eq (newID : Nat → Nat) (minute hour : Int → Int) (vehicleID : Nat)
    (toT : Int) :
    ∀ (n : Nat) (current : Int) (k : Nat), recordCount current toT = n →
      GetByVehicleLoop newID minute hour vehicleID toT current k =
        (List.range n).map fun (j : Nat) =>
          telemetryAt newID minute hour vehicleID (current + (j : Int) * fiveMinutes) (k + j) := by
  intro n
  induction n with
  | zero =>
    intro current k hn
    have hge : ¬ current < toT := by
      unfold recordCount fiveMinutes at hn
      omega
    rw [GetByVehicleLoop]
    simp [hge]
  | succ n ih =>
    intro current k hn
    have hlt : current < toT := by
      unfold recordCount fiveMinutes at hn
      omega
    have hn1 : recordCount (current + fiveMinutes) toT = n := by
      unfold recordCount fiveMinutes at hn ⊢
      omega
    rw [GetByVehicleLoop, dif_pos hlt, ih (current + fiveMinutes) (k + 1) hn1,
      List.range_succ_eq_map, List.map_cons, List.map_map]
    congr 1
    · simp
    · apply List.map_congr_left
      intro j _
      simp only [Function.comp]
      congr 1
      · push_cast
        ring
      · omega

/-- C25: for every vehicle id and instants `fromT`, `toT`, `GetByVehicle`
(a total function: its loop terminates) returns the records for
`k = 0, 1, ..., n - 1` in that order, where the `k`-th record has timestamp
`fromT + k * 5 minutes` and the requested vehicle id, and `k < n` exactly
when `fromT + k * 5 minutes` is before `toT`.  The result is empty when
`fromT` is not before `toT`; otherwise `n` is the ceiling of
`(toT - fromT) / 5 minutes`: `(n - 1) * 5 minutes < toT - fromT ≤ n * 5 minutes`. -/
theorem GetByVehicle_every_five_minutes (newID : Nat → Nat) (minute hour : Int → Int)
    (vehicleID : Nat) (fromT toT : Int) :
    GetByVehicle newID minute hour vehicleID fromT toT =
      telemetrySeries newID minute hour vehicleID fromT (recordCount fromT toT) ∧
    (GetByVehicle newID minute hour vehicleID fromT toT).length = recordCount fromT toT ∧
    (∀ k : Nat, k < recordCount fromT toT ↔ fromT + (k : Int) * fiveMinutes < toT) ∧
    (∀ k : Nat, k < recordCount fromT toT →
      ∃ r, (GetByVehicle newID minute hour vehicleID fromT toT)[k]? = some r ∧
        r.Timestamp = fromT + (k : Int) * fiveMinutes ∧ r.VehicleID = vehicleID) ∧
    (¬ fromT < toT → GetByVehicle newID minute hour vehicleID fromT toT = []) ∧
    (fromT < toT →
      ((recordCount fromT toT : Int) - 1) * fiveMinutes < toT - fromT ∧
      toT - fromT ≤ (recordCount fromT toT : Int) * fiveMinutes) := by
  have hmain : GetByVehicle newID minute hour vehicleID fromT toT =
      telemetrySeries newID minute hour vehicleID fromT (recordCount fromT toT) := by
    unfold GetByVehicle telemetrySeries
    rw [GetByVehicleLoop_eq newID minute hour vehicleID toT _ fromT 0 rfl]
    apply List.map_congr_left
    intro j _
    simp
  refine ⟨hmain, ?_, ?_, ?_, ?_, ?_⟩
  · rw [hmain]
    simp [telemetrySeries]
  · intro k
    unfold recordCount fiveMinutes
    omega
  · intro k hk
    refine ⟨telemetryAt newID minute hour vehicleID (fromT + (k : Int) * fiveMinutes) k,
      ?_, rfl, rfl⟩
    rw [hmain]
    simp [telemetrySeries, hk]
  · intro hge
    rw [hmain]
    have h0 : recordCount fromT toT = 0 := by
      unfold recordCount fiveMinutes
      omega
    rw [h0]
    rfl
  · intro hlt
    unfold recordCount fiveMinutes
    omega

/-- One hour of telemetry from instant 0: twelve records; the third one is
ten minutes in. -/
theorem GetByVehicle_every_five_minutes_witness :
    (GetByVehicle newIDExample minuteExample hourExample 7 0 3600000000000).length = 12 ∧
    (∃ r, (GetByVehicle newIDExample minuteExample hourExample 7 0 3600000000000)[2]? = some r ∧
      r.Timestamp = 0 + (2 : Int) * fiveMinutes ∧ r.VehicleID = 7) ∧
    GetByVehicle newIDExample minuteExample hourExample 7 5 5 = [] := by
  have h := GetByVehicle_every_five_minutes newIDExample minuteExample hourExample 7 0
    3600000000000
  have hn : recordCount 0 3600000000000 = 12 := by decide
  refine ⟨by rw [h.2.1, hn], ?_, ?_⟩
  · have := h.2.2.2.1 2 (by rw [hn]; norm_num)
    simpa using this
  · exact (GetByVehicle_every_five_minutes newIDExample minuteExample hourExample 7 5
      5).2.2.2.2.1 (by norm_num)

/-! ## Analytics service -/

theorem GetConsumptionLoop_eq (dateOf : Nat → String) (days : Nat) :
    ∀ (n i : Nat), days - i = n →
      GetConsumptionLoop dateOf days i =
        (List.range n).map fun j =>
          ({ Date := dateOf (i + j), VehicleID := "", Value := 180 + ((i + j) * 5) % 50,
             Unit := "kWh" } : ConsumptionData) := by
  intro n
  induction n with
  | zero =>
    intro i h
    have hge : ¬ i < days := by omega
    rw [GetConsumptionLoop]
    simp [hge]
  | succ n ih =>
    intro i h
    have hlt : i < days := by omega
    rw [GetConsumptionLoop, if_pos hlt, ih (i + 1) (by omega), List.range_succ_eq_map,
      List.map_cons, List.map_map]
    congr 1
    apply List.map_congr_left
    intro j _
    simp only [Function.comp]
    rw [show i + 1 + j = i + (j + 1) by omega]

theorem GetDistanceLoop_eq (dateOf : Nat → String) (days : Nat) :
    ∀ (n i : Nat), days - i = n →
      GetDistanceLoop dateOf days i =
        (List.range n).map fun j =>
          ({ Date := dateOf (i + j), VehicleID := "",
             Distance := 200 + ((i + j) * 10) % 100 } : DistanceData) := by
  intro n
  induction n with
  | zero =>
    intro i h
    have hge : ¬ i < days := by omega
    rw [GetDistanceLoop]
    simp [hge]
  | succ n ih =>
    intro i h
    have hlt : i < days := by omega
    rw [GetDistanceLoop, if_pos hlt, ih (i + 1) (by omega), List.range_succ_eq_map,
      List.map_cons, List.map_map]
    congr 1
    apply List.map_congr_left
    intro j _
    simp only [Function.comp]
    rw [show i + 1 + j = i + (j + 1) by omega]

/-- C28: `parsePeriodDays` is 7 for "7d", 30 for "30d", 90 for "90d" and 7 for
every other string, the empty one included; for every period string
`GetConsumption` and `GetDistance` return exactly `parsePeriodDays period`
entries; entry `i` of the consumption series has value `180 + (5 * i) mod 50`
(unit "kWh") and entry `i` of the distance series has distance
`200 + (10 * i) mod 100`, both dated `i` days back. -/
theorem analytics_series_follow_period (dateOf : Nat → String) (period : String) :
    parsePeriodDays "7d" = 7 ∧ parsePeriodDays "30d" = 30 ∧ parsePeriodDays "90d" = 90 ∧
    parsePeriodDays "" = 7 ∧
    (period ≠ "30d" → period ≠ "90d" → parsePeriodDays period = 7) ∧
    (GetConsumption dateOf period).length = parsePeriodDays period ∧
    (GetDistance dateOf period).length = parsePeriodDays period ∧
    (∀ i, i < parsePeriodDays period →
      (GetConsumption dateOf period)[i]? =
        some { Date := dateOf i, VehicleID := "", Value := 180 + (5 * i) % 50, Unit := "kWh" } ∧
      (GetDistance dateOf period)[i]? =
        some { Date := dateOf i, VehicleID := "", Distance := 200 + (10 * i) % 100 }) := by
  have hc := GetConsumptionLoop_eq dateOf (parsePeriodDays period) (parsePeriodDays period) 0 rfl
  have hd := GetDistanceLoop_eq dateOf (parsePeriodDays period) (parsePeriodDays period) 0 rfl
  refine ⟨by decide, by decide, by decide, by decide, ?_, ?_, ?_, ?_⟩
  · intro h30 h90
    unfold parsePeriodDays
    by_cases h7 : period = "7d"
    · simp [h7]
    · simp [h7, h30, h90]
  · rw [GetConsumption, hc]
    simp
  · rw [GetDistance, hd]
    simp
  · intro i hi
    constructor
    · rw [GetConsumption, hc]
      simp [hi, Nat.mul_comm]
    · rw [GetDistance, hd]
      simp [hi, Nat.mul_comm]

/-- The series for "30d" and for an unknown period. -/
theorem analytics_series_follow_period_witness :
    (GetConsumption dateOfExample "30d").length = 30 ∧
    (GetDistance dateOfExample "month").length = 7 ∧
    (GetConsumption dateOfExample "30d")[12]? =
      some { Date := dateOfExample 12, VehicleID := "", Value := 190, Unit := "kWh" } ∧
    (GetDistance dateOfExample "30d")[12]? =
      some { Date := dateOfExample 12, VehicleID := "", Distance := 220 } :=
  ⟨(analytics_series_follow_period dateOfExample "30d").2.2.2.2.2.1,
   ((analytics_series_follow_period dateOfExample "month").2.2.2.2.2.2.1).trans
     ((analytics_series_follow_period dateOfExample "month").2.2.2.2.1 (by decide) (by decide)),
   ((analytics_series_follow_period dateOfExample "30d").2.2.2.2.2.2.2 12 (by decide)).1,
   ((analytics_series_follow_period dateOfExample "30d").2.2.2.2.2.2.2 12 (by decide)).2⟩

end FleetPulse.Service

namespace FleetPulse.Simulator

/-! ## Truncation of the battery steps -/

theorem intOf_eq_zero (x : ℚ) (h0 : 0 ≤ x) (h1 : x < 1) : intOf x = 0 := by
  unfold intOf
  rw [if_pos h0, Int.floor_eq_zero_iff]
  exact ⟨h0, h1⟩

theorem intOf_drain (x : ℚ) (h0 : 0 ≤ x) (h1 : x < 1) : intOf (x * (3 / 10)) = 0 := by
  apply intOf_eq_zero
  · positivity
  · linarith

theorem roundHalfEven_le (q : ℚ) (n : Int) (h : q < (n : ℚ) + 1 / 2) :
    roundHalfEven q ≤ n := by
  have hf : ((⌊q⌋ : Int) : ℚ) ≤ q := Int.floor_le q
  unfold roundHalfEven
  by_cases h1 : q - ⌊q⌋ < 1 / 2
  · rw [if_pos h1]
    have : ((⌊q⌋ : Int) : ℚ) < (n : ℚ) + 1 := by linarith
    have h2 : (⌊q⌋ : Int) < n + 1 := by exact_mod_cast this
    omega
  · rw [if_neg h1]
    have h3 : ((⌊q⌋ : Int) : ℚ) < (n : ℚ) := by linarith [not_lt.mp h1]
    have h4 : (⌊q⌋ : Int) < n := by exact_mod_cast h3
    split_ifs <;> omega

theorem floor_le_roundHalfEven (q : ℚ) : ⌊q⌋ ≤ roundHalfEven q := by
  unfold roundHalfEven
  split_ifs <;> omega

theorem chargeAmount_below (x : ℚ) (h0 : 0 ≤ x) (h1 : x < 1 - 1 / 2 ^ 53) :
    intOf (chargeAmount x) = 0 := by
  have hle : roundHalfEven ((1 / 2 + x * (1 / 2)) * 2 ^ 53) ≤ 2 ^ 53 - 1 := by
    apply roundHalfEven_le
    push_cast
    have : x * 2 ^ 53 < 2 ^ 53 - 1 := by
      have := mul_lt_mul_of_pos_right h1 (show (0 : ℚ) < 2 ^ 53 by positivity)
      have h2 : ((1 : ℚ) - 1 / 2 ^ 53) * 2 ^ 53 = 2 ^ 53 - 1 := by norm_num
      linarith
    linarith
  have hge : 0 ≤ roundHalfEven ((1 / 2 + x * (1 / 2)) * 2 ^ 53) := by
    refine le_trans ?_ (floor_le_roundHalfEven _)
    apply Int.floor_nonneg.mpr
    positivity
  apply intOf_eq_zero
  · unfold chargeAmount float64BelowOne
    apply div_nonneg
    · exact_mod_cast hge
    · positivity
  · unfold chargeAmount float64BelowOne
    rw [div_lt_one (by positivity)]
    have : ((roundHalfEven ((1 / 2 + x * (1 / 2)) * 2 ^ 53) : Int) : ℚ) ≤ ((2 ^ 53 - 1 : Int) : ℚ) := by
      exact_mod_cast hle
    push_cast at this
    linarith

theorem chargeAmount_top (x : ℚ) (h0 : 1 - 1 / 2 ^ 53 ≤ x) (h1 : x < 1) :
    intOf (chargeAmount x) = 1 := by
  have hq0 : (2 : ℚ) ^ 53 - 1 / 2 ≤ (1 / 2 + x * (1 / 2)) * 2 ^ 53 := by
    have := mul_le_mul_of_nonneg_right h0 (show (0 : ℚ) ≤ 2 ^ 53 by positivity)
    have h2 : ((1 : ℚ) - 1 / 2 ^ 53) * 2 ^ 53 = 2 ^ 53 - 1 := by norm_num
    linarith
  have hq1 : (1 / 2 + x * (1 / 2)) * 2 ^ 53 < (2 : ℚ) ^ 53 := by
    have := mul_lt_mul_of_pos_right h1 (show (0 : ℚ) < 2 ^ 53 by positivity)
    linarith
  have hfl : ⌊(1 / 2 + x * (1 / 2)) * 2 ^ 53⌋ = 2 ^ 53 - 1 := by
    rw [Int.floor_eq_iff]
    push_cast
    constructor <;> linarith
  have hr : roundHalfEven ((1 / 2 + x * (1 / 2)) * 2 ^ 53) = 2 ^ 53 := by
    unfold roundHalfEven
    rw [hfl]
    have hn : ¬ ((1 / 2 + x * (1 / 2)) * 2 ^ 53 - ((2 ^ 53 - 1 : Int) : ℚ) < 1 / 2) := by
      push_cast
      linarith
    rw [if_neg hn]
    have hodd : ¬ ((2 ^ 53 - 1 : Int) % 2 = 0) := by decide
    rw [if_neg hodd]
    split_ifs <;> ring
  unfold chargeAmount float64BelowOne
  rw [hr]
  have : (((2 ^ 53 : Int) : ℚ)) / 2 ^ 53 = 1 := by
    push_cast
    norm_num
  rw [this]
  unfold intOf
  norm_num

/-! ## Movement along the route -/

theorem routeAt_isSome (route : List Location) (i : Int) (h0 : 0 ≤ i)
    (h1 : i < (route.length : Int)) : ∃ p, routeAt route i = some p := by
  have hlt : i.toNat < route.length := by omega
  exact ⟨route[i.toNat], by simp [routeAt, h0, List.getElem?_eq_getElem hlt]⟩

theorem nextIndex_eq (i n : Int) (h0 : 0 ≤ i) (h1 : i < n) :
    (if i < n - 1 then i + 1 else 0) = (i + 1) % n := by
  by_cases h : i < n - 1
  · rw [if_pos h, Int.emod_eq_of_lt (by omega) (by omega)]
  · rw [if_neg h]
    have : i + 1 = n := by omega
    rw [this, Int.emod_self]

theorem activeCase_in_range (calculateHeading : Location → Location → ℚ) (fl : FloatExprs)
    (d : Draws) (v : SimulatedVehicle) (h0 : 0 ≤ v.RouteIndex)
    (h1 : v.RouteIndex < (v.Route.length : Int)) :
    ∃ v1 p, activeCase calculateHeading fl d v = some v1 ∧
      v1.RouteIndex = (v.RouteIndex + 1) % (v.Route.length : Int) ∧
      routeAt v.Route v1.RouteIndex = some p ∧ v1.Location = p ∧
      v1.Route = v.Route ∧ v1.Status = v.Status ∧ v1.IsMoving = true ∧
      v1.BatteryLevel = max 0 (v.BatteryLevel - intOf (d.drain * (3 / 10))) ∧
      (0 < v1.RouteIndex →
        ∃ q, routeAt v.Route (v1.RouteIndex - 1) = some q ∧
          v1.Heading = calculateHeading q p) ∧
      (¬ 0 < v1.RouteIndex → v1.Heading = v.Heading) := by
  have hidx := nextIndex_eq v.RouteIndex (v.Route.length : Int) h0 h1
  have hm0 : 0 ≤ (v.RouteIndex + 1) % (v.Route.length : Int) :=
    Int.emod_nonneg _ (by omega)
  have hm1 : (v.RouteIndex + 1) % (v.Route.length : Int) < (v.Route.length : Int) :=
    Int.emod_lt_of_pos _ (by omega)
  obtain ⟨p, hp⟩ := routeAt_isSome v.Route _ hm0 hm1
  by_cases hpos : 0 < (v.RouteIndex + 1) % (v.Route.length : Int)
  · obtain ⟨q, hq⟩ := routeAt_isSome v.Route
      ((v.RouteIndex + 1) % (v.Route.length : Int) - 1) (by omega) (by omega)
    refine ⟨{ v with
        IsMoving := true
        Speed := fl.speed d.speedBase d.speedVar
        RouteIndex := (v.RouteIndex + 1) % (v.Route.length : Int)
        Location := p
        Heading := calculateHeading q p
        BatteryLevel := max 0 (v.BatteryLevel - intOf (d.drain * (3 / 10)))
        EngineTemp := fl.engineTemp d.engineTemp
        EngineRPM := 2000 + d.engineRPM }, p, ?_, rfl, hp, rfl, rfl, rfl, rfl, rfl, ?_, ?_⟩
    · simp only [activeCase, hidx, hp, gt_iff_lt, if_pos hpos, hq]
    · intro _
      exact ⟨q, hq, rfl⟩
    · intro hn
      exact absurd hpos hn
  · refine ⟨{ v with
        IsMoving := true
        Speed := fl.speed d.speedBase d.speedVar
        RouteIndex := (v.RouteIndex + 1) % (v.Route.length : Int)
        Location := p
        Heading := v.Heading
        BatteryLevel := max 0 (v.BatteryLevel - intOf (d.drain * (3 / 10)))
        EngineTemp := fl.engineTemp d.engineTemp
        EngineRPM := 2000 + d.engineRPM }, p, ?_, rfl, hp, rfl, rfl, rfl, rfl, rfl, ?_, ?_⟩
    · simp only [activeCase, hidx, hp, gt_iff_lt, if_neg hpos]
    · intro hn
      exact absurd hn hpos
    · intro _
      rfl

theorem generateRandomRouteLoop_length (fl : FloatExprs) (draw : Nat → ℚ × ℚ) (points : Nat) :
    ∀ (n i : Nat) (prev : Location), points - i = n →
      (generateRandomRouteLoop fl draw prev i points).length = n := by
  intro n
  induction n with
  | zero =>
    intro i prev h
    have hge : ¬ i < points := by omega
    rw [generateRandomRouteLoop]
    simp [hge]
  | succ n ih =>
    intro i prev h
    have hlt : i < points := by omega
    rw [generateRandomRouteLoop, if_pos hlt]
    simp only [List.length_cons]
    rw [ih (i + 1) _ (by omega)]

theorem generateRandomRoute_length (fl : FloatExprs) (draw : Nat → ℚ × ℚ) (start : Location)
    (points : Nat) (hp : 0 < points) :
    ∃ route, generateRandomRoute fl draw start points = some route ∧
      route.length = points := by
  refine ⟨start :: generateRandomRouteLoop fl draw start 1 points,
    by simp [generateRandomRoute, Nat.pos_iff_ne_zero.mp hp], ?_⟩
  simp only [List.length_cons]
  rw [generateRandomRouteLoop_length fl draw points (points - 1) 1 start rfl]
  omega

/-- C26: an active vehicle whose route index `i` satisfies
`0 ≤ i < len(Route)` is updated without an out-of-range access, whatever the
random draws and whatever values the float64 expressions take: the switch of
`updateVehicleState` takes the case "active", which returns a vehicle `v1`
with the same route and `RouteIndex = (i + 1) mod len(Route)`, again within
the route; the point `Route[RouteIndex]` exists and is the location of `v1`,
the location before the GPS noise; when `RouteIndex > 0` the point
`Route[RouteIndex - 1]` exists and the heading is computed from it.
`updateVehicleState` returns `v1` with the GPS noise applied, which leaves
route and route index as they are. -/
theorem active_vehicle_advances_along_route (calculateHeading : Location → Location → ℚ)
    (fl : FloatExprs) (d : Draws) (v : SimulatedVehicle) (hs : v.Status = "active")
    (h0 : 0 ≤ v.RouteIndex) (h1 : v.RouteIndex < (v.Route.length : Int)) :
    ∃ v1 p, activeCase calculateHeading fl d v = some v1 ∧
      updateVehicleStateSwitch calculateHeading fl d v = some v1 ∧
      updateVehicleState calculateHeading fl d v = some (gpsNoise fl d v1) ∧
      v1.Route = v.Route ∧ (gpsNoise fl d v1).Route = v.Route ∧
      v1.RouteIndex = (v.RouteIndex + 1) % (v.Route.length : Int) ∧
      (gpsNoise fl d v1).RouteIndex = v1.RouteIndex ∧
      0 ≤ v1.RouteIndex ∧ v1.RouteIndex < (v.Route.length : Int) ∧
      routeAt v.Route v1.RouteIndex = some p ∧ v1.Location = p ∧
      (0 < v1.RouteIndex →
        ∃ q, routeAt v.Route (v1.RouteIndex - 1) = some q ∧
          v1.Heading = calculateHeading q p) := by
  obtain ⟨v1, p, hact, hidx, hp, hloc, hroute, _, hmov, _, hhead, _⟩ :=
    activeCase_in_range calculateHeading fl d v h0 h1
  have hsw : updateVehicleStateSwitch calculateHeading fl d v = some v1 := by
    rw [updateVehicleStateSwitch, if_pos hs, hact]
  have hm0 : 0 ≤ (v.RouteIndex + 1) % (v.Route.length : Int) :=
    Int.emod_nonneg _ (by omega)
  have hm1 : (v.RouteIndex + 1) % (v.Route.length : Int) < (v.Route.length : Int) :=
    Int.emod_lt_of_pos _ (by omega)
  refine ⟨v1, p, hact, hsw, by simp [updateVehicleState, hsw], hroute, ?_, hidx, ?_,
    by omega, by omega, hp, hloc, hhead⟩
  · simp [gpsNoise, hmov, hroute]
  · simp [gpsNoise, hmov]

/-- The vehicle at the last of three route points wraps to the first point. -/
theorem active_vehicle_advances_along_route_witness :
    activeExample.Status = "active" ∧ 0 ≤ activeExample.RouteIndex ∧
    activeExample.RouteIndex < (activeExample.Route.length : Int) ∧
    ∃ v1 p, activeCase calculateHeadingExample floatExprsExample drawsExample activeExample
        = some v1 ∧
      updateVehicleStateSwitch calculateHeadingExample floatExprsExample drawsExample
        activeExample = some v1 ∧
      updateVehicleState calculateHeadingExample floatExprsExample drawsExample activeExample
        = some (gpsNoise floatExprsExample drawsExample v1) ∧
      v1.Route = activeExample.Route ∧
      (gpsNoise floatExprsExample drawsExample v1).Route = activeExample.Route ∧
      v1.RouteIndex = (activeExample.RouteIndex + 1) % (activeExample.Route.length : Int) ∧
      (gpsNoise floatExprsExample drawsExample v1).RouteIndex = v1.RouteIndex ∧
      0 ≤ v1.RouteIndex ∧ v1.RouteIndex < (activeExample.Route.length : Int) ∧
      routeAt activeExample.Route v1.RouteIndex = some p ∧ v1.Location = p ∧
      (0 < v1.RouteIndex →
        ∃ q, routeAt activeExample.Route (v1.RouteIndex - 1) = some q ∧
          v1.Heading = calculateHeadingExample q p) :=
  ⟨by decide, by decide, by decide,
   active_vehicle_advances_along_route calculateHeadingExample floatExprsExample drawsExample
     activeExample (by decide) (by decide) (by decide)⟩

/-! ## Battery level -/

theorem gpsNoise_BatteryLevel (fl : FloatExprs) (d : Draws) (v : SimulatedVehicle) :
    (gpsNoise fl d v).BatteryLevel = v.BatteryLevel := by
  unfold gpsNoise
  split_ifs <;> rfl

theorem gpsNoise_Status (fl : FloatExprs) (d : Draws) (v : SimulatedVehicle) :
    (gpsNoise fl d v).Status = v.Status := by
  unfold gpsNoise
  split_ifs <;> rfl

theorem max_zero_of_nonneg (b : Int) (h : 0 ≤ b) : max 0 b = b := by
  unfold max
  rw [if_neg (by omega)]

theorem min_hundred_of_lt (b : Int) (h : b ≤ 100) : min 100 b = b := by
  unfold min
  rw [if_neg (by omega)]

theorem min_hundred_le (b : Int) : min 100 b ≤ 100 := by
  unfold min
  split_ifs <;> omega

theorem min_hundred_nonneg (b : Int) (h : 0 ≤ b) : 0 ≤ min 100 b := by
  unfold min
  split_ifs <;> omega

theorem updateVehicleState_charging (calculateHeading : Location → Location → ℚ)
    (fl : FloatExprs) (d : Draws) (v : SimulatedVehicle) (hs : v.Status = "charging") :
    ∃ v1, updateVehicleState calculateHeading fl d v = some v1 ∧
      v1.BatteryLevel = min 100 (v.BatteryLevel + intOf (chargeAmount d.charge)) ∧
      v1.Status =
        if min 100 (v.BatteryLevel + intOf (chargeAmount d.charge)) ≥ 100 then "idle"
        else "charging" := by
  have hna : ¬ v.Status = "active" := by
    rw [hs]
    decide
  simp only [updateVehicleState, updateVehicleStateSwitch, if_neg hna, if_pos hs,
    Option.map_some']
  refine ⟨_, rfl, ?_, ?_⟩
  · rw [gpsNoise_BatteryLevel]
    rfl
  · rw [gpsNoise_Status]
    simp only [chargingCase, hs]

theorem updateVehicleState_parked (calculateHeading : Location → Location → ℚ)
    (fl : FloatExprs) (d : Draws) (v : SimulatedVehicle) (hna : v.Status ≠ "active")
    (hnc : v.Status ≠ "charging") :
    ∃ v1, updateVehicleState calculateHeading fl d v = some v1 ∧
      v1.BatteryLevel = v.BatteryLevel := by
  by_cases hi : v.Status = "idle"
  · simp only [updateVehicleState, updateVehicleStateSwitch, if_neg hna, if_neg hnc, if_pos hi,
      Option.map_some']
    refine ⟨_, rfl, ?_⟩
    rw [gpsNoise_BatteryLevel]
    rfl
  · by_cases hm : v.Status = "maintenance"
    · simp only [updateVehicleState, updateVehicleStateSwitch, if_neg hna, if_neg hnc,
        if_neg hi, if_pos hm, Option.map_some']
      refine ⟨_, rfl, ?_⟩
      rw [gpsNoise_BatteryLevel]
      try rfl
    · simp only [updateVehicleState, updateVehicleStateSwitch, if_neg hna, if_neg hnc,
        if_neg hi, if_neg hm, Option.map_some']
      refine ⟨_, rfl, ?_⟩
      rw [gpsNoise_BatteryLevel]
      try rfl

/-- C27: the battery steps of `updateVehicleState` are truncated to integers
before they are applied.  For all random draws in [0, 1) and every vehicle with
`0 ≤ BatteryLevel ≤ 100` (an active one within its route) the update returns a
vehicle whose `BatteryLevel` is again within 0..100, and: an active vehicle
keeps its `BatteryLevel` unchanged, whatever the draw; a charging vehicle keeps
its `BatteryLevel` (and, below 100, its status) unless the draw is at least
`1 - 2^-53`, the largest float64 below 1, in which case the level goes up by
one, capped at 100; in the other statuses the level is unchanged. -/
theorem battery_level_changes_only_at_top_charge_draw
    (calculateHeading : Location → Location → ℚ) (fl : FloatExprs) (d : Draws)
    (v : SimulatedVehicle)
    (hd0 : 0 ≤ d.drain) (hd1 : d.drain < 1) (hc0 : 0 ≤ d.charge) (hc1 : d.charge < 1)
    (hb0 : 0 ≤ v.BatteryLevel) (hb1 : v.BatteryLevel ≤ 100)
    (hr : v.Status = "active" →
      0 ≤ v.RouteIndex ∧ v.RouteIndex < (v.Route.length : Int)) :
    ∃ v1, updateVehicleState calculateHeading fl d v = some v1 ∧
      0 ≤ v1.BatteryLevel ∧ v1.BatteryLevel ≤ 100 ∧
      (v.Status = "active" → v1.BatteryLevel = v.BatteryLevel) ∧
      (v.Status = "charging" → d.charge < 1 - 1 / 2 ^ 53 →
        v1.BatteryLevel = v.BatteryLevel ∧ (v.BatteryLevel < 100 → v1.Status = "charging")) ∧
      (v.Status = "charging" → 1 - 1 / 2 ^ 53 ≤ d.charge →
        v1.BatteryLevel = min 100 (v.BatteryLevel + 1)) ∧
      (v.Status ≠ "active" → v.Status ≠ "charging" → v1.BatteryLevel = v.BatteryLevel) := by
  by_cases hs : v.Status = "active"
  · obtain ⟨v1, p, hact, _, _, _, _, _, _, hbat, _, _⟩ :=
      activeCase_in_range calculateHeading fl d v (hr hs).1 (hr hs).2
    have hsw : updateVehicleStateSwitch calculateHeading fl d v = some v1 := by
      rw [updateVehicleStateSwitch, if_pos hs, hact]
    rw [intOf_drain d.drain hd0 hd1, sub_zero, max_zero_of_nonneg _ hb0] at hbat
    have hnc : ¬ v.Status = "charging" := by
      rw [hs]
      decide
    refine ⟨gpsNoise fl d v1, by simp [updateVehicleState, hsw], ?_, ?_, ?_, ?_, ?_, ?_⟩
    · rw [gpsNoise_BatteryLevel, hbat]
      exact hb0
    · rw [gpsNoise_BatteryLevel, hbat]
      exact hb1
    · intro _
      rw [gpsNoise_BatteryLevel, hbat]
    · intro h
      exact absurd h hnc
    · intro h
      exact absurd h hnc
    · intro h
      exact absurd hs h
  · by_cases hc : v.Status = "charging"
    · obtain ⟨v1, hv1, hbat, hst⟩ := updateVehicleState_charging calculateHeading fl d v hc
      by_cases htop : d.charge < 1 - 1 / 2 ^ 53
      · rw [chargeAmount_below d.charge hc0 htop, add_zero, min_hundred_of_lt _ hb1] at hbat hst
        refine ⟨v1, hv1, ?_, ?_, ?_, ?_, ?_, ?_⟩
        · rw [hbat]
          exact hb0
        · rw [hbat]
          exact hb1
        · intro h
          exact absurd h hs
        · intro _ _
          refine ⟨hbat, ?_⟩
          intro hlt
          rw [hst, if_neg (by omega)]
        · intro _ h
          exact absurd htop (not_lt.mpr h)
        · intro _ h
          exact absurd hc h
      · rw [chargeAmount_top d.charge (not_lt.mp htop) hc1] at hbat
        refine ⟨v1, hv1, ?_, ?_, ?_, ?_, ?_, ?_⟩
        · rw [hbat]
          exact min_hundred_nonneg _ (by omega)
        · rw [hbat]
          exact min_hundred_le _
        · intro h
          exact absurd h hs
        · intro _ h
          exact absurd h htop
        · intro _ _
          exact hbat
        · intro _ h
          exact absurd hc h
    · obtain ⟨v1, hv1, hbat⟩ := updateVehicleState_parked calculateHeading fl d v hs hc
      refine ⟨v1, hv1, ?_, ?_, ?_, ?_, ?_, ?_⟩
      · rw [hbat]
        exact hb0
      · rw [hbat]
        exact hb1
      · intro h
        exact absurd h hs
      · intro h
        exact absurd h hc
      · intro h
        exact absurd h hc
      · intro _ _
        exact hbat

/-- An active vehicle at 78 keeps 78 with the drain draw 1023/1024, and a
charging vehicle at 45 keeps 45 and stays charging with the charge draw
1023/1024. -/
theorem battery_level_changes_only_at_top_charge_draw_witness :
    (0 ≤ drawsExample.drain ∧ drawsExample.drain < 1 ∧ 0 ≤ drawsExample.charge ∧
      drawsExample.charge < 1 - 1 / 2 ^ 53) ∧
    (∃ v1, updateVehicleState calculateHeadingExample floatExprsExample drawsExample
        activeExample = some v1 ∧
      v1.BatteryLevel = 78) ∧
    (∃ v1, updateVehicleState calculateHeadingExample floatExprsExample drawsExample
        chargingExample = some v1 ∧
      v1.BatteryLevel = 45 ∧ v1.Status = "charging") := by
  have hd : 0 ≤ drawsExample.drain ∧ drawsExample.drain < 1 ∧ 0 ≤ drawsExample.charge ∧
      drawsExample.charge < 1 - 1 / 2 ^ 53 ∧ drawsExample.charge < 1 := by
    norm_num [drawsExample]
  obtain ⟨v1, h1, _, _, ha, _⟩ :=
    battery_level_changes_only_at_top_charge_draw calculateHeadingExample floatExprsExample
      drawsExample activeExample hd.1 hd.2.1 hd.2.2.1 hd.2.2.2.2 (by decide) (by decide)
      (fun _ => ⟨by decide, by decide⟩)
  obtain ⟨v2, h2, _, _, _, hc, _⟩ :=
    battery_level_changes_only_at_top_charge_draw calculateHeadingExample floatExprsExample
      drawsExample chargingExample hd.1 hd.2.1 hd.2.2.1 hd.2.2.2.2 (by decide) (by decide)
      (fun h => absurd h (by decide))
  exact ⟨⟨hd.1, hd.2.1, hd.2.2.1, hd.2.2.2.1⟩, ⟨v1, h1, ha (by decide)⟩,
    ⟨v2, h2, (hc (by decide) hd.2.2.2.1).1, (hc (by decide) hd.2.2.2.1).2 (by decide)⟩⟩

end FleetPulse.Simulator
